import Mathlib

/-!
# Akonadi: the monitor, the server handlers, the protocol and the item synchronizer

A shallow embedding of

* `MonitorPrivate` (`src/monitor_p.cpp`): the grace ring buffer
  (`MonitorPrivate::PurgeBuffer`), the collection reference counting
  (`ref` / `deref`), the lazy-ignore filter, the Move rewriting of
  `appendAndCompress`, the notification pipeline (`slotNotify`,
  `dispatchNotifications`, `dataAvailable`, `cleanOldNotifications`), the cache
  invalidation and the rendering of item notifications;
* the server: `NotificationManager::slotNotify`, `FetchHelper::fetchItems`, the
  end of `Store::parseStream`, `SearchHelper::splitLine` and `Qb::ConditionStmt`;
* the protocol (`src/src/private/protocol.cpp`): `Command`, `Response` and the
  stream operators of `ModifyCollectionCommand`;
* the item synchronizer `ItemSync`, whose implementation is not part of the
  sources and which is modelled from the specification.

Conventions of the embedding:

* C++ `int` / `qint64` values are `Int`; where an `int` is computed (the
  revision of an item) the value is wrapped to 32 bits, and a `qint8` is held as
  its pattern of 8 bits; elsewhere indices are bounded by the vector size and
  ids are only stored and compared.
* `QVector` is a `List`; an access outside the bounds of the vector is
  undefined behaviour in C++ and is `none` here.
* a `while` loop whose body removes one element of a vector per iteration is
  a recursion on fuel, started with more fuel than the vector has elements;
  running out of fuel is `none` as well.
* what the sources call and do not contain (caches, database, constants of
  headers) is a parameter.
-/

namespace Akonadi

/-! ## QVector primitives -/

namespace QVector

/-- Scan of `QVector::indexOf`: `pos` is the index of the head of the list. -/
def indexOfAux : List Int → Int → Int → Int
  | [], _, _ => -1
  | x :: xs, t, pos => if x = t then pos else indexOfAux xs t (pos + 1)

/-- Qt's `QVector<T>::indexOf(t, from)`: the index of the first occurrence of `t` at
a position not below `from`, or `-1`. A negative `from` counts from the end. -/
def indexOf (v : List Int) (t : Int) (frm : Int) : Int :=
  let f : Int := if frm < 0 then max (frm + v.length) 0 else frm
  if f < v.length then indexOfAux (v.drop f.toNat) t f else -1

/-- Qt's `QVector<T>::contains(t)`. -/
def contains (v : List Int) (t : Int) : Bool :=
  v.contains t

/-- Qt's `QVector<T>::remove(i)`; defined for `0 <= i < size()` only. -/
def remove (v : List Int) (i : Int) : Option (List Int) :=
  if 0 ≤ i ∧ i < v.length then some (v.take i.toNat ++ v.drop (i.toNat + 1)) else none

/-- Qt's `QVector<T>::insert(i, t)`; defined for `0 <= i <= size()` only. -/
def insert (v : List Int) (i : Int) (t : Int) : Option (List Int) :=
  if 0 ≤ i ∧ i ≤ v.length then some (v.take i.toNat ++ t :: v.drop i.toNat) else none

/-- Qt's `QVector<T>::operator[](i)`; defined for `0 <= i < size()` only. -/
def value (v : List Int) (i : Int) : Option Int :=
  if 0 ≤ i then v[i.toNat]? else none

end QVector

/-! ## MonitorPrivate::PurgeBuffer -/

/-- The members of `MonitorPrivate::PurgeBuffer`: the vector of buffered collection ids and
the position of the next insertion. -/
structure PurgeBuffer where
  m_buffer : List Int
  m_index : Int
deriving DecidableEq, Repr

namespace PurgeBuffer

/-- A freshly constructed buffer: no ids, `m_index( 0 )`. -/
def empty : PurgeBuffer := ⟨[], 0⟩

/-- The inline `isBuffered( id )`: `m_buffer.contains( id )`. -/
def isBuffered (s : PurgeBuffer) (id : Int) : Bool :=
  QVector.contains s.m_buffer id

/-- First loop of `purge`:
`while ( idx <= m_index ) { if ( idx < 0 ) break; m_buffer.remove( idx );
 if ( m_index > 0 ) --m_index; idx = m_buffer.indexOf( id, idx ); }`. -/
def purgeLoop1 (id : Int) : Nat → PurgeBuffer → Int → Option PurgeBuffer
  | 0, _, _ => none
  | fuel + 1, s, idx =>
    if idx ≤ s.m_index then
      if idx < 0 then some s
      else
        match QVector.remove s.m_buffer idx with
        | none => none
        | some b =>
          let mi := if s.m_index > 0 then s.m_index - 1 else s.m_index
          purgeLoop1 id fuel ⟨b, mi⟩ (QVector.indexOf b id idx)
    else some s

/-- Second loop of `purge`:
`while ( int idx = m_buffer.indexOf( id, m_index ) > -1 ) { m_buffer.remove( idx ); }`.
The declaration in the condition initialises `idx` with the value of the comparison
`m_buffer.indexOf( id, m_index ) > -1`, that is with `1` or `0`. -/
def purgeLoop2 (id : Int) : Nat → PurgeBuffer → Option PurgeBuffer
  | 0, _ => none
  | fuel + 1, s =>
    let idx : Int := if QVector.indexOf s.m_buffer id s.m_index > -1 then 1 else 0
    if idx ≠ 0 then
      match QVector.remove s.m_buffer idx with
      | none => none
      | some b => purgeLoop2 id fuel ⟨b, s.m_index⟩
    else some s

/-- The method `MonitorPrivate::PurgeBuffer::purge( id )`. -/
def purge (s : PurgeBuffer) (id : Int) : Option PurgeBuffer :=
  match purgeLoop1 id (s.m_buffer.length + 1) s (QVector.indexOf s.m_buffer id 0) with
  | none => none
  | some s1 => purgeLoop2 id (s1.m_buffer.length + 1) s1

/-- The method `MonitorPrivate::PurgeBuffer::buffer( id )`; the result is the returned
`bumpedId` and the new buffer. `MAXBUFFERSIZE` is a constant of `monitor_p.h` and is a
parameter here. -/
def buffer (MAXBUFFERSIZE : Int) (s : PurgeBuffer) (id : Int) : Option (Int × PurgeBuffer) :=
  let mi : Int := if s.m_index = MAXBUFFERSIZE then 0 else s.m_index
  let bumped : Option (Int × List Int) :=
    if (s.m_buffer.length : Int) = MAXBUFFERSIZE then
      match QVector.value s.m_buffer mi, QVector.remove s.m_buffer mi with
      | some b, some v => some (b, v)
      | _, _ => none
    else some (-1, s.m_buffer)
  match bumped with
  | none => none
  | some (bumpedId, v) =>
    match purge ⟨v, mi⟩ id with
    | none => none
    | some s1 =>
      match QVector.insert s1.m_buffer s1.m_index id with
      | none => none
      | some v2 => some (bumpedId, ⟨v2, s1.m_index + 1⟩)

/-- The index of the next insertion lies within the vector, and the vector holds at most
`MAXBUFFERSIZE` ids. -/
def InBounds (MAXBUFFERSIZE : Int) (s : PurgeBuffer) : Prop :=
  0 ≤ s.m_index ∧ s.m_index ≤ s.m_buffer.length ∧ (s.m_buffer.length : Int) ≤ MAXBUFFERSIZE

/-- A call on the ring buffer. -/
inductive Call where
  | buffer (id : Int)
  | purge (id : Int)
deriving DecidableEq, Repr

/-- One call, the returned id of `buffer` dropped. -/
def step (MAXBUFFERSIZE : Int) (s : PurgeBuffer) : Call → Option PurgeBuffer
  | .buffer id => (buffer MAXBUFFERSIZE s id).map Prod.snd
  | .purge id => purge s id

/-- A sequence of calls, left to right. -/
def run (MAXBUFFERSIZE : Int) : List Call → PurgeBuffer → Option PurgeBuffer
  | [], s => some s
  | c :: cs, s =>
    match step MAXBUFFERSIZE s c with
    | none => none
    | some s1 => run MAXBUFFERSIZE cs s1

/-- Successive `buffer( id )` calls for the ids of a list; the returned ids are collected
in call order. -/
def bufferAll (MAXBUFFERSIZE : Int) : List Int → PurgeBuffer → Option (List Int × PurgeBuffer)
  | [], s => some ([], s)
  | id :: ids, s =>
    match buffer MAXBUFFERSIZE s id with
    | none => none
    | some (b, s1) =>
      match bufferAll MAXBUFFERSIZE ids s1 with
      | none => none
      | some (bs, s2) => some (b :: bs, s2)

end PurgeBuffer

/-! ## Notification messages -/

/-- Modelled from the spec: the entity kind of a change notification
(`NotificationMessage::Type` is declared in `notificationmessage_p.h`, which is not part
of the sources); `InvalidType` is the value `acceptNotification` rejects. -/
inductive MessageType where
  | InvalidType
  | Collection
  | Item
deriving DecidableEq, Repr

/-- Modelled from the spec: the operations of a change notification
(`NotificationMessage::Operation` is declared in `notificationmessage_p.h`, which is not
part of the sources). -/
inductive Operation where
  | Add
  | Modify
  | Move
  | Remove
  | Link
  | Unlink
  | Subscribe
  | Unsubscribe
deriving DecidableEq, Repr

/-- The attributes of a `NotificationMessage` read through its accessors in
`monitor_p.cpp`. Byte arrays are strings, the set of item parts is a list. -/
structure NotificationMessage where
  sessionId : String
  type : MessageType
  operation : Operation
  uid : Int
  remoteId : String
  resource : String
  parentCollection : Int
  parentDestCollection : Int
  mimeType : String
  itemParts : List String
deriving DecidableEq, Repr

/-- The item signals of `Monitor` whose receivers `isLazilyIgnored` counts. -/
inductive Signal where
  | itemAdded
  | itemRemoved
  | itemChanged
  | itemMoved
  | itemLinked
  | itemUnlinked
deriving DecidableEq, Repr

/-! ## QHash< Collection::Id, int > -/

namespace QHash

/-- Qt's `QHash::contains(key)`. -/
def contains (m : Int → Option Int) (k : Int) : Bool :=
  (m k).isSome

/-- Qt's `QHash::insert(key, value)`: the value of an existing key is replaced. -/
def insert (m : Int → Option Int) (k : Int) (v : Int) : Int → Option Int :=
  fun j => if j = k then some v else m j

/-- Qt's `QHash::remove(key)`. -/
def remove (m : Int → Option Int) (k : Int) : Int → Option Int :=
  fun j => if j = k then none else m j

/-- The value read through `operator[]( key )`: a missing key is inserted with the
default-constructed value `0` first. -/
def value (m : Int → Option Int) (k : Int) : Int :=
  (m k).getD 0

/-- Qt's `QHash()`: no key. -/
def empty : Int → Option Int :=
  fun _ => none

end QHash

/-! ## MonitorPrivate -/

/-- The collaborators of `MonitorPrivate` that are not part of the sources, as they are
seen from `monitor_p.cpp`. `κ` is the state of an `EntityCache`. -/
structure Collaborators (κ : Type) where
  /-- The call `q_ptr->receivers( SIGNAL( ... ) )`. -/
  receivers : Signal → Int
  /-- The inline helper `isCollectionMonitored` of `monitor_p.h`. -/
  isCollectionMonitored : Int → Bool
  /-- The inline helper `isMimeTypeMonitored` of `monitor_p.h`. -/
  isMimeTypeMonitored : String → Bool
  /-- The inline helper `isMoveDestinationResourceMonitored` of `monitor_p.h`. -/
  isMoveDestinationResourceMonitored : NotificationMessage → Bool
  /-- The call `collectionCache.ensureCached( id, scope )`: the answer and the cache after
  the call (a miss starts a fetch). -/
  collectionEnsureCached : κ → Int → Bool × κ
  /-- The call `itemCache.ensureCached( id, scope )`. -/
  itemEnsureCached : κ → Int → Bool × κ
  /-- The call `collectionCache.invalidate( id )`. -/
  collectionInvalidate : κ → Int → κ
  /-- The call `collectionCache.update( id, scope )`. -/
  collectionUpdate : κ → Int → κ
  /-- The call `itemCache.invalidate( id )`. -/
  itemInvalidate : κ → Int → κ
  /-- The call `itemCache.update( id, scope )`. -/
  itemUpdate : κ → Int → κ
  /-- The inline helper `notifyCollectionStatisticsWatchers( collection, resource )` of
  `monitor_p.h`, as a function on `recentlyChangedCollections`. -/
  notifyCollectionStatisticsWatchers : List Int → Int → String → List Int
  /-- The static `NotificationMessage::appendAndCompress( list, msg )`. -/
  compress : List NotificationMessage → NotificationMessage → List NotificationMessage
  /-- The comparison `NotificationMessage::operator==`, used by `QList::removeOne`. -/
  equal : NotificationMessage → NotificationMessage → Bool

/-- The members of `MonitorPrivate` that the modelled functions read or write. The last two
fields are traces and no members: the messages taken out of `pendingNotifications` by
`dispatchNotifications` and the messages handed to `emitNotification`, in call order. -/
structure MonitorPrivate (κ : Type) where
  collectionCache : κ
  itemCache : κ
  monitorAll : Bool
  fetchCollection : Bool
  fetchCollectionStatistics : Bool
  useRefCounting : Bool
  /-- The value of `mItemFetchScope.isEmpty()`. -/
  itemFetchScopeIsEmpty : Bool
  sessions : List String
  resources : List String
  mimetypes : List String
  items : List Int
  recentlyChangedCollections : List Int
  refCountMap : Int → Option Int
  m_buffer : PurgeBuffer
  pendingNotifications : List NotificationMessage
  pipeline : List NotificationMessage
  dequeued : List NotificationMessage
  emitted : List NotificationMessage

/-- The constant `static const int PipelineSize = 5;`. -/
def PipelineSize : Int := 5

namespace MonitorPrivate

variable {κ : Type}

/-- The method `MonitorPrivate::pipelineSize()`. -/
def pipelineSize (_d : MonitorPrivate κ) : Int :=
  PipelineSize

/-- The signal whose receivers decide whether an item operation is ignored; the
subscription operations have no item signal. -/
def itemSignal : Operation → Option Signal
  | .Add => some .itemAdded
  | .Remove => some .itemRemoved
  | .Modify => some .itemChanged
  | .Move => some .itemMoved
  | .Link => some .itemLinked
  | .Unlink => some .itemUnlinked
  | .Subscribe => none
  | .Unsubscribe => none

/-- The method `MonitorPrivate::isLazilyIgnored( msg )`. -/
def isLazilyIgnored (env : Collaborators κ) (d : MonitorPrivate κ)
    (msg : NotificationMessage) : Bool :=
  let op := msg.operation
  if !d.fetchCollectionStatistics && (msg.type = .Item) &&
      ((op = .Add && env.receivers .itemAdded = 0)
        || (op = .Remove && env.receivers .itemRemoved = 0)
        || (op = .Modify && env.receivers .itemChanged = 0)
        || (op = .Move && env.receivers .itemMoved = 0)
        || (op = .Link && env.receivers .itemLinked = 0)
        || (op = .Unlink && env.receivers .itemUnlinked = 0)) then
    true
  else if !d.useRefCounting then
    false
  else if msg.type = .Collection then
    false
  else
    let parentCollectionId := msg.parentCollection
    if (op = .Add || op = .Remove || op = .Modify || op = .Link || op = .Unlink)
        && (QHash.contains d.refCountMap parentCollectionId
            || d.m_buffer.isBuffered parentCollectionId) then
      false
    else if op = .Move then
      if !QHash.contains d.refCountMap parentCollectionId
          && !d.m_buffer.isBuffered parentCollectionId
          && (!QHash.contains d.refCountMap msg.parentDestCollection
              && !d.m_buffer.isBuffered msg.parentDestCollection) then
        true
      else
        false
    else
      true

/-- The method `MonitorPrivate::acceptNotification( msg )`. -/
def acceptNotification (env : Collaborators κ) (d : MonitorPrivate κ)
    (msg : NotificationMessage) : Bool :=
  if d.sessions.contains msg.sessionId then false
  else if isLazilyIgnored env d msg then false
  else if d.monitorAll then true
  else
    match msg.type with
    | .InvalidType => false
    | .Item =>
      if !d.resources.isEmpty || !d.mimetypes.isEmpty then
        if env.isMimeTypeMonitored msg.mimeType || d.resources.contains msg.resource
            || env.isMoveDestinationResourceMonitored msg then
          true
        else
          false
      else
        d.items.contains msg.uid
          || env.isCollectionMonitored msg.parentCollection
          || env.isCollectionMonitored msg.parentDestCollection
    | .Collection =>
      let resourceMatches :=
        d.resources.contains msg.resource || env.isMoveDestinationResourceMonitored msg
      if !d.resources.isEmpty && (d.mimetypes.isEmpty || resourceMatches) then
        resourceMatches
      else
        env.isCollectionMonitored msg.uid
          || env.isCollectionMonitored msg.parentCollection
          || env.isCollectionMonitored msg.parentDestCollection

/-- The method `MonitorPrivate::ensureDataAvailable( msg )`: the returned `allCached`
and the monitor with the caches as the `ensureCached` calls leave them. -/
def ensureDataAvailable (env : Collaborators κ) (d : MonitorPrivate κ)
    (msg : NotificationMessage) : Bool × MonitorPrivate κ :=
  let r1 : Bool × κ :=
    if d.fetchCollection then
      let p := env.collectionEnsureCached d.collectionCache msg.parentCollection
      if msg.operation = .Move then
        let q := env.collectionEnsureCached p.2 msg.parentDestCollection
        (p.1 && q.1, q.2)
      else p
    else (true, d.collectionCache)
  if msg.operation = .Remove then
    (r1.1, { d with collectionCache := r1.2 })
  else if msg.type = .Item && !d.itemFetchScopeIsEmpty then
    let p := env.itemEnsureCached d.itemCache msg.uid
    (r1.1 && p.1, { d with collectionCache := r1.2, itemCache := p.2 })
  else if msg.type = .Collection && d.fetchCollection then
    let p := env.collectionEnsureCached r1.2 msg.uid
    (r1.1 && p.1, { d with collectionCache := p.2 })
  else
    (r1.1, { d with collectionCache := r1.2 })

/-- The method `MonitorPrivate::emitNotification( msg )`, as far as this development
follows it: the message is recorded in the trace of emitted notifications. -/
def emitNotification (d : MonitorPrivate κ) (msg : NotificationMessage) : MonitorPrivate κ :=
  { d with emitted := d.emitted ++ [msg] }

/-- The loop of `dispatchNotifications`: every iteration takes the head of
`pendingNotifications`, so the loop is a recursion on that queue. -/
def dispatchLoop (env : Collaborators κ) :
    List NotificationMessage → MonitorPrivate κ → MonitorPrivate κ
  | [], d => { d with pendingNotifications := [] }
  | msg :: rest, d =>
    if (d.pipeline.length : Int) < d.pipelineSize then
      let d1 := { d with dequeued := d.dequeued ++ [msg] }
      let r := ensureDataAvailable env d1 msg
      if r.1 && r.2.pipeline.isEmpty then
        dispatchLoop env rest (emitNotification r.2 msg)
      else
        dispatchLoop env rest { r.2 with pipeline := r.2.pipeline ++ [msg] }
    else { d with pendingNotifications := msg :: rest }

/-- The method `MonitorPrivate::dispatchNotifications()`. -/
def dispatchNotifications (env : Collaborators κ) (d : MonitorPrivate κ) : MonitorPrivate κ :=
  dispatchLoop env d.pendingNotifications d

/-- The loop over a copy of a queue in `cleanOldNotifications`:
`foreach ( msg, queue ) if ( !acceptNotification( msg ) ) queue.removeOne( msg );`. -/
def cleanLoop (accept : NotificationMessage → Bool)
    (equal : NotificationMessage → NotificationMessage → Bool) :
    List NotificationMessage → List NotificationMessage → List NotificationMessage
  | [], queue => queue
  | msg :: rest, queue =>
    if !accept msg then cleanLoop accept equal rest (queue.eraseP (fun x => equal x msg))
    else cleanLoop accept equal rest queue

/-- The method `MonitorPrivate::cleanOldNotifications()`. -/
def cleanOldNotifications (env : Collaborators κ) (d : MonitorPrivate κ) : MonitorPrivate κ :=
  let d1 := { d with
    pipeline := cleanLoop (acceptNotification env d) env.equal d.pipeline d.pipeline }
  { d1 with
    pendingNotifications :=
      cleanLoop (acceptNotification env d1) env.equal d1.pendingNotifications
        d1.pendingNotifications }

/-- The first loop of `dataAvailable`: every iteration that goes on takes the head of the
pipeline, so the loop is a recursion on the pipeline. -/
def dataAvailableLoop (env : Collaborators κ) :
    List NotificationMessage → MonitorPrivate κ → MonitorPrivate κ
  | [], d => { d with pipeline := [] }
  | msg :: rest, d =>
    let r := ensureDataAvailable env d msg
    if r.1 then
      dataAvailableLoop env rest (emitNotification { r.2 with pipeline := rest } msg)
    else { r.2 with pipeline := msg :: rest }

/-- The method `MonitorPrivate::dataAvailable()`. -/
def dataAvailable (env : Collaborators κ) (d : MonitorPrivate κ) : MonitorPrivate κ :=
  dispatchNotifications env (dataAvailableLoop env d.pipeline d)

/-- The method `MonitorPrivate::updatePendingStatistics( msg )`. -/
def updatePendingStatistics (env : Collaborators κ) (d : MonitorPrivate κ)
    (msg : NotificationMessage) : MonitorPrivate κ :=
  if msg.type = .Item then
    let c1 := env.notifyCollectionStatisticsWatchers d.recentlyChangedCollections
      msg.parentCollection msg.resource
    let c2 := env.notifyCollectionStatisticsWatchers c1 msg.parentDestCollection msg.resource
    { d with recentlyChangedCollections := c2 }
  else if msg.type = .Collection && msg.operation = .Remove then
    { d with recentlyChangedCollections := d.recentlyChangedCollections.filter (· ≠ msg.uid) }
  else d

/-- The method `MonitorPrivate::invalidateCaches( msg )`. -/
def invalidateCaches (env : Collaborators κ) (d : MonitorPrivate κ)
    (msg : NotificationMessage) : MonitorPrivate κ :=
  let d1 :=
    if msg.operation = .Remove then
      if msg.type = .Collection then
        { d with collectionCache := env.collectionInvalidate d.collectionCache msg.uid }
      else if msg.type = .Item then
        { d with itemCache := env.itemInvalidate d.itemCache msg.uid }
      else d
    else d
  if msg.operation = .Modify || msg.operation = .Move || msg.operation = .Subscribe then
    if msg.type = .Collection then
      { d1 with collectionCache := env.collectionUpdate d1.collectionCache msg.uid }
    else if msg.type = .Item then
      { d1 with itemCache := env.itemUpdate d1.itemCache msg.uid }
    else d1
  else d1

/-- The method `MonitorPrivate::appendAndCompress( msg )`. -/
def appendAndCompress (env : Collaborators κ) (d : MonitorPrivate κ)
    (msg : NotificationMessage) : MonitorPrivate κ :=
  if !d.useRefCounting || msg.operation ≠ .Move || msg.type ≠ .Item then
    { d with pendingNotifications := env.compress d.pendingNotifications msg }
  else
    let sourceWatched := QHash.contains d.refCountMap msg.parentCollection
      || d.m_buffer.isBuffered msg.parentCollection
    let destWatched := QHash.contains d.refCountMap msg.parentDestCollection
      || d.m_buffer.isBuffered msg.parentDestCollection
    if sourceWatched && destWatched then
      { d with pendingNotifications := env.compress d.pendingNotifications msg }
    else if sourceWatched then
      let removalMessage := { msg with operation := .Remove, parentDestCollection := -1 }
      { d with pendingNotifications := env.compress d.pendingNotifications removalMessage }
    else
      let insertionMessage := { msg with
        operation := .Add
        parentCollection := msg.parentDestCollection
        parentDestCollection := -1 }
      { d with pendingNotifications := env.compress d.pendingNotifications insertionMessage }

/-- The loop of `slotNotify` over the received messages. -/
def slotNotifyLoop (env : Collaborators κ) :
    List NotificationMessage → MonitorPrivate κ → MonitorPrivate κ
  | [], d => d
  | msg :: msgs, d =>
    let d1 := invalidateCaches env d msg
    let d2 := updatePendingStatistics env d1 msg
    if acceptNotification env d2 msg then slotNotifyLoop env msgs (appendAndCompress env d2 msg)
    else slotNotifyLoop env msgs d2

/-- The method `MonitorPrivate::slotNotify( msgs )`. -/
def slotNotify (env : Collaborators κ) (d : MonitorPrivate κ)
    (msgs : List NotificationMessage) : MonitorPrivate κ :=
  dispatchNotifications env (slotNotifyLoop env msgs d)

/-- The method `MonitorPrivate::ref( id )`. -/
def ref (d : MonitorPrivate κ) (id : Int) : Option (MonitorPrivate κ) :=
  let m1 := if !QHash.contains d.refCountMap id then QHash.insert d.refCountMap id 0
    else d.refCountMap
  let m2 := QHash.insert m1 id (QHash.value m1 id + 1)
  if d.m_buffer.isBuffered id then
    match d.m_buffer.purge id with
    | none => none
    | some b => some { d with refCountMap := m2, m_buffer := b }
  else some { d with refCountMap := m2 }

/-- The method `MonitorPrivate::deref( id )`: the returned id and the monitor after the
call. A failing `Q_ASSERT( refCountMap.contains( id ) )` is `none`. -/
def deref (MAXBUFFERSIZE : Int) (d : MonitorPrivate κ) (id : Int) :
    Option (Int × MonitorPrivate κ) :=
  if !QHash.contains d.refCountMap id then none
  else
    let v := QHash.value d.refCountMap id - 1
    let m1 := QHash.insert d.refCountMap id v
    let m2 := if v = 0 then QHash.remove m1 id else m1
    match d.m_buffer.buffer MAXBUFFERSIZE id with
    | none => none
    | some (bumped, b) => some (bumped, { d with refCountMap := m2, m_buffer := b })

/-- A reference-counting call. -/
inductive RefCall where
  | ref (id : Int)
  | deref (id : Int)
deriving DecidableEq, Repr

/-- A sequence of `ref` / `deref` calls, left to right; the ids returned by the `deref`
calls are collected in call order. -/
def refCalls (MAXBUFFERSIZE : Int) :
    List RefCall → MonitorPrivate κ → Option (List Int × MonitorPrivate κ)
  | [], d => some ([], d)
  | .ref id :: cs, d =>
    match ref d id with
    | none => none
    | some d1 => refCalls MAXBUFFERSIZE cs d1
  | .deref id :: cs, d =>
    match deref MAXBUFFERSIZE d id with
    | none => none
    | some (b, d1) =>
      match refCalls MAXBUFFERSIZE cs d1 with
      | none => none
      | some (bs, d2) => some (b :: bs, d2)

/-- A call that drives the notification pipeline. -/
inductive PipelineCall where
  | slotNotify (msgs : List NotificationMessage)
  | dispatchNotifications
  | dataAvailable
  | cleanOldNotifications
deriving DecidableEq, Repr

/-- One pipeline call, with the collaborators as they answer during that call. -/
def pipelineStep (d : MonitorPrivate κ) : Collaborators κ × PipelineCall → MonitorPrivate κ
  | (env, .slotNotify msgs) => slotNotify env d msgs
  | (env, .dispatchNotifications) => dispatchNotifications env d
  | (env, .dataAvailable) => dataAvailable env d
  | (env, .cleanOldNotifications) => cleanOldNotifications env d

/-- A sequence of pipeline calls, left to right. -/
def pipelineCalls (calls : List (Collaborators κ × PipelineCall)) (d : MonitorPrivate κ) :
    MonitorPrivate κ :=
  calls.foldl pipelineStep d

/-- The monitor as `MonitorPrivate::MonitorPrivate` constructs it, for given caches:
every flag off, every list, map and queue empty. -/
def init (collectionCache itemCache : κ) : MonitorPrivate κ where
  collectionCache := collectionCache
  itemCache := itemCache
  monitorAll := false
  fetchCollection := false
  fetchCollectionStatistics := false
  useRefCounting := false
  itemFetchScopeIsEmpty := true
  sessions := []
  resources := []
  mimetypes := []
  items := []
  recentlyChangedCollections := []
  refCountMap := QHash.empty
  m_buffer := PurgeBuffer.empty
  pendingNotifications := []
  pipeline := []
  dequeued := []
  emitted := []

end MonitorPrivate

/-! ## Rendering of item notifications (`emitItemNotification`) -/

/-- Modelled from the spec: a collection as the rendering code reads it, its id and the
resource that owns it (`Collection` is declared in `collection.h`, which is not part of the
sources). An entity is valid when its id is not negative; `-1` is the id of a
default-constructed entity, as in `setParentDestCollection( -1 )`. -/
structure Collection where
  id : Int
  resource : String
deriving DecidableEq, Repr

namespace Collection

/-- The default-constructed `Collection()`. -/
def invalid : Collection := ⟨-1, ""⟩

/-- The constructor `Collection( id )`. -/
def ofId (id : Int) : Collection := ⟨id, ""⟩

/-- The accessor `isValid()`. -/
def isValid (c : Collection) : Bool := decide (0 ≤ c.id)

end Collection

/-- Modelled from the spec: an item as the rendering code reads and writes it (`Item` is
declared in `item.h`, which is not part of the sources): id, remote id, remote revision,
mime type and parent collection. -/
structure Item where
  id : Int
  remoteId : String
  remoteRevision : String
  mimeType : String
  parentCollection : Collection
deriving DecidableEq, Repr

namespace Item

/-- The constructor `Item( id )`: nothing but the id is set. -/
def ofId (id : Int) : Item := ⟨id, "", "", "", Collection.invalid⟩

/-- The accessor `isValid()`. -/
def isValid (i : Item) : Bool := decide (0 ≤ i.id)

end Item

/-- An item signal of `Monitor` with its arguments. -/
inductive ItemEmission where
  | itemAdded (it : Item) (col : Collection)
  | itemChanged (it : Item) (parts : List String)
  | itemMoved (it : Item) (col colDest : Collection)
  | itemRemoved (it : Item)
  | itemLinked (it : Item) (col : Collection)
  | itemUnlinked (it : Item) (col : Collection)
deriving DecidableEq, Repr

namespace ItemEmission

/-- The signal that is emitted. -/
def signal : ItemEmission → Signal
  | .itemAdded _ _ => .itemAdded
  | .itemChanged _ _ => .itemChanged
  | .itemMoved _ _ _ => .itemMoved
  | .itemRemoved _ => .itemRemoved
  | .itemLinked _ _ => .itemLinked
  | .itemUnlinked _ _ => .itemUnlinked

/-- The item handed to the signal. -/
def item : ItemEmission → Item
  | .itemAdded it _ => it
  | .itemChanged it _ => it
  | .itemMoved it _ _ => it
  | .itemRemoved it => it
  | .itemLinked it _ => it
  | .itemUnlinked it _ => it

end ItemEmission

/-- The `retrieve` calls on the two entity caches (`EntityCache` is not part of the
sources): the cached entity, or an invalid one. -/
structure EntityLookup (κ : Type) where
  collectionRetrieve : κ → Int → Collection
  itemRetrieve : κ → Int → Item

namespace MonitorPrivate

/-- The method `MonitorPrivate::emitItemNotification( msg, item, collection, collectionDest )`:
the signals it emits, in order. Its `Q_ASSERT( msg.type() == NotificationMessage::Item )` is
the precondition under which `emitNotification` calls it. The first element of the set of
item parts is the head of the list. -/
def emitItemNotification (msg : NotificationMessage) (item : Item)
    (collection collectionDest : Collection) : List ItemEmission :=
  let col : Collection :=
    if !collection.isValid then
      { Collection.ofId msg.parentCollection with resource := msg.resource }
    else collection
  let colDest : Collection :=
    if !collectionDest.isValid then
      match msg.itemParts with
      | part :: _ => { Collection.ofId msg.parentDestCollection with resource := part }
      | [] => Collection.ofId msg.parentDestCollection
    else collectionDest
  let it1 : Item :=
    if !item.isValid || msg.operation = .Remove then
      { Item.ofId msg.uid with remoteId := msg.remoteId, mimeType := msg.mimeType }
    else if item.remoteId.isEmpty && !msg.remoteId.isEmpty then
      { item with remoteId := msg.remoteId }
    else if msg.operation = .Move && col.resource != colDest.resource then
      { item with remoteId := msg.remoteId }
    else item
  let it2 : Item :=
    if !it1.parentCollection.isValid then
      if msg.operation = .Move then { it1 with parentCollection := colDest }
      else { it1 with parentCollection := col }
    else it1
  let it : Item :=
    if msg.operation = .Remove then
      match msg.itemParts with
      | part :: _ => { it2 with remoteRevision := part }
      | [] => it2
    else it2
  match msg.operation with
  | .Add => [.itemAdded it col]
  | .Modify => [.itemChanged it msg.itemParts]
  | .Move => [.itemMoved it col colDest]
  | .Remove => [.itemRemoved it]
  | .Link => [.itemLinked it col]
  | .Unlink => [.itemUnlinked it col]
  | .Subscribe => []
  | .Unsubscribe => []

/-- The item branch of `MonitorPrivate::emitNotification( msg )`: the entities are retrieved
from the caches and handed to `emitItemNotification`. (The collection branch,
`emitCollectionNotification`, is not followed here.) -/
def emitNotificationItem {κ : Type} (look : EntityLookup κ) (d : MonitorPrivate κ)
    (msg : NotificationMessage) : List ItemEmission :=
  let parent := look.collectionRetrieve d.collectionCache msg.parentCollection
  let destParent :=
    if msg.operation = .Move then
      look.collectionRetrieve d.collectionCache msg.parentDestCollection
    else Collection.invalid
  if msg.type = .Item then
    emitItemNotification msg (look.itemRetrieve d.itemCache msg.uid) parent destParent
  else []

end MonitorPrivate

/-! ## The server: `NotificationManager::slotNotify` -/

namespace Server

/-- The command types that `NotificationManager::slotNotify` tells apart
(`Protocol::Command::Type`, declared in `protocol_p.h`, which is not part of the sources);
`Invalid` is any type of the `default:` branch. -/
inductive NotificationType where
  | CollectionChangeNotification
  | ItemChangeNotification
  | TagChangeNotification
  | RelationChangeNotification
  | SubscriptionChangeNotification
  | DebugChangeNotification
  | Invalid
deriving DecidableEq, Repr

/-- Modelled from the spec: a Change Event as the server queues it: its type, the
operation, the subject id and the changed attributes. -/
structure ChangeNotification where
  type : NotificationType
  operation : Operation
  subject : Int
  changedParts : List String
deriving DecidableEq, Repr

/-- The members of `NotificationManager` that `slotNotify` reads or writes: the pending
list and whether `mTimer` is active. -/
structure NotificationManager where
  mNotifications : List ChangeNotification
  timerActive : Bool
deriving DecidableEq, Repr

namespace NotificationManager

/-- The loop of `slotNotify`; `compress` is the static
`Protocol::CollectionChangeNotification::appendAndCompress`, which is not part of the
sources. A type of the `default:` branch fails a `Q_ASSERT_X` and is skipped. -/
def slotNotifyLoop
    (compress : List ChangeNotification → ChangeNotification → List ChangeNotification) :
    List ChangeNotification → List ChangeNotification → List ChangeNotification
  | [], pending => pending
  | msg :: msgs, pending =>
    match msg.type with
    | .CollectionChangeNotification => slotNotifyLoop compress msgs (compress pending msg)
    | .ItemChangeNotification => slotNotifyLoop compress msgs (pending ++ [msg])
    | .TagChangeNotification => slotNotifyLoop compress msgs (pending ++ [msg])
    | .RelationChangeNotification => slotNotifyLoop compress msgs (pending ++ [msg])
    | .SubscriptionChangeNotification => slotNotifyLoop compress msgs (pending ++ [msg])
    | .DebugChangeNotification => slotNotifyLoop compress msgs (pending ++ [msg])
    | .Invalid => slotNotifyLoop compress msgs pending

/-- The method `NotificationManager::slotNotify( msgs )`. -/
def slotNotify
    (compress : List ChangeNotification → ChangeNotification → List ChangeNotification)
    (m : NotificationManager) (msgs : List ChangeNotification) : NotificationManager :=
  { mNotifications := slotNotifyLoop compress msgs m.mNotifications
    timerActive := if !m.timerActive then true else m.timerActive }

end NotificationManager

/-! ## The server: `FetchHelper::fetchItems` -/

/-- The kinds of scope that `fetchItems` tells apart (`Scope::SelectionScope`, declared in
`scope_p.h`, which is not part of the sources): the four kinds that name specific items,
and `Invalid` for every value of the `default:` branch. -/
inductive SelectionScope where
  | Invalid
  | Uid
  | Rid
  | HierarchicalRid
  | Gid
deriving DecidableEq, Repr

/-- What the fetch scope, the scope and the collaborators of `FetchHelper` (item retriever,
query builders, database) answer during one call of `fetchItems`. `ρ` is a row of the item
query, `ι` an item response. -/
structure FetchEnvironment (ρ ι : Type) where
  /-- The value of `mFetchScope.cacheOnly()`. -/
  cacheOnly : Bool
  /-- The value of `mFetchScope.ignoreErrors()`. -/
  ignoreErrors : Bool
  /-- The value of `mScope.scope()`. -/
  scope : SelectionScope
  /-- The call `isScopeLocal( mScope )`, which throws when its query fails. -/
  isScopeLocal : Except String Bool
  /-- The call `retriever.exec()`. -/
  retrieverExec : Bool
  /-- The text of the exception thrown when the retriever fails. -/
  retrieverError : String
  /-- The call `buildItemQuery()`: the exception it throws, or the rows of the query. -/
  itemQuery : Except String (List ρ)
  /-- Parts are requested: `!requestedParts().isEmpty() || fullPayload() || allAttributes()`. -/
  fetchParts : Bool
  /-- The call `buildPartQuery( ... )` succeeds (it throws otherwise). -/
  partQueryOk : Bool
  /-- The value of `mFetchScope.fetchFlags()`. -/
  fetchFlags : Bool
  /-- The call `buildFlagQuery()` succeeds. -/
  flagQueryOk : Bool
  /-- The value of `mFetchScope.fetchTags()`. -/
  fetchTags : Bool
  /-- The call `buildTagQuery()` succeeds. -/
  tagQueryOk : Bool
  /-- The value of `mFetchScope.fetchVirtualReferences()`. -/
  fetchVirtualReferences : Bool
  /-- The call `buildVRefQuery()` succeeds. -/
  vRefQueryOk : Bool
  /-- The body of the loop over the rows of the item query: the exception it throws, no
  response when the item is skipped, or the response handed to `mCollector`. -/
  itemResponse : ρ → Except String (Option ι)

namespace FetchHelper

variable {ρ ι : Type}

/-- The first block of `fetchItems`: missing parts are retrieved from the resource unless
the fetch is `cacheOnly` and the scope is not local. -/
def retrieveMissingParts (env : FetchEnvironment ρ ι) : Except String Unit :=
  let needed : Except String Bool :=
    if !env.cacheOnly then .ok true else env.isScopeLocal
  match needed with
  | .error e => .error e
  | .ok false => .ok ()
  | .ok true =>
    if !env.retrieverExec && !env.ignoreErrors then .error env.retrieverError
    else .ok ()

/-- The queries built after the item query, in the order of the code; each one throws when
its `exec()` fails. -/
def buildQueries (env : FetchEnvironment ρ ι) : Except String Unit :=
  if env.fetchParts && !env.partQueryOk then .error "Unable to list item parts"
  else if env.fetchFlags && !env.flagQueryOk then .error "Unable to retrieve item flags"
  else if env.fetchTags && !env.tagQueryOk then .error "Unable to retrieve item tags"
  else if env.fetchVirtualReferences && !env.vRefQueryOk then
    .error "Unable to retrieve virtual references"
  else .ok ()

/-- The loop `while ( itemQuery.isValid() )`: the responses handed to the collector so far
and the exception that ends the loop, if any. -/
def processRows (env : FetchEnvironment ρ ι) : List ρ → List ι → List ι × Except String Bool
  | [], sent => (sent, .ok true)
  | row :: rows, sent =>
    match env.itemResponse row with
    | .error e => (sent, .error e)
    | .ok none => processRows env rows sent
    | .ok (some r) => processRows env rows (sent ++ [r])

/-- The method `FetchHelper::fetchItems()`: the item responses handed to the collector and
the returned value, or the text of the `HandlerException` that is thrown. -/
def fetchItems (env : FetchEnvironment ρ ι) : List ι × Except String Bool :=
  match retrieveMissingParts env with
  | .error e => ([], .error e)
  | .ok () =>
    match env.itemQuery with
    | .error e => ([], .error e)
    | .ok rows =>
      if rows.isEmpty && env.ignoreErrors then ([], .ok true)
      else if rows.isEmpty && (env.scope = .Uid || env.scope = .Rid
          || env.scope = .HierarchicalRid || env.scope = .Gid) then
        ([], .error "Item query returned empty result set")
      else
        match buildQueries env with
        | .error e => ([], .error e)
        | .ok () => processRows env rows []

end FetchHelper

end Server

/-! ## The item synchronizer

`ItemSync` is exercised by `autotests/libs/itemsynctest.cpp`, but its implementation is not
part of the sources. The definitions of this section are modelled from sections 3, 4.4 and
4.5 of the specification and agree with the assertions of the tests. -/

namespace ItemSync

/-- Modelled from the spec: an item as the synchronizer (`ItemSync`, whose implementation is
not part of the sources) sees it: the local id (none when no local id is populated), the
remote id and the GID (empty when unset), the payload and the flags. -/
structure Item where
  id : Option Nat
  remoteId : String
  gid : String
  payload : String
  flags : List String
deriving DecidableEq, Repr

/-- Modelled from the spec: a Change Event on the target collection, as a monitor of the
collection observes it (`itemAdded`, `itemChanged`, `itemRemoved`); the storage layer is
not part of the sources. -/
inductive Change where
  | added (item : Item)
  | changed (item : Item)
  | removed (item : Item)
deriving DecidableEq, Repr

/-- Modelled from the spec: the local storage of the target collection (the storage layer
is not part of the sources): the stored items, the next free local id, and the changes
committed so far. -/
structure Storage where
  items : List Item
  nextId : Nat
  changes : List Change
deriving DecidableEq, Repr

/-- Modelled from the spec: the outcome of matching an authoritative item to local state
(the matching of `ItemSync` is not part of the sources). -/
inductive Match where
  | new
  | existing (item : Item)
  | conflict
deriving DecidableEq, Repr

/-- Modelled from the spec: the candidates decide (the matching of `ItemSync` is not part of
the sources): none is a new item, one is a match, several are a duplicate-key conflict. -/
def Match.ofCandidates : List Item → Match
  | [] => .new
  | [x] => .existing x
  | _ :: _ :: _ => .conflict

/-- Modelled from the spec: the identity rules of section 4.4 (the matching of `ItemSync` is
not part of the sources): "items are matched primarily by remote id; ties or absent remote
id fall back to GID; an item with neither is never matched and is always treated as new".
With the GID-merge policy configured, an item whose remote id matches nothing is matched
by its GID: "when an authoritative item's GID matches an existing local item with a
different remote id (GID-merge policy), treat it as an update of the existing item". -/
def matchItem (gidMerge : Bool) (local_ : List Item) (a : Item) : Match :=
  if a.remoteId ≠ "" then
    match local_.filter (fun x => x.remoteId = a.remoteId) with
    | [x] => .existing x
    | [] =>
      if gidMerge && a.gid ≠ "" then Match.ofCandidates (local_.filter (fun x => x.gid = a.gid))
      else .new
    | x :: y :: tied =>
      if a.gid ≠ "" then
        match (x :: y :: tied).filter (fun z => z.gid = a.gid) with
        | [z] => .existing z
        | _ => .conflict
      else .conflict
  else if a.gid ≠ "" then Match.ofCandidates (local_.filter (fun x => x.gid = a.gid))
  else .new

/-- Modelled from the spec: "content changed, determined by comparing authoritative vs.
locally-known revision/flags/payload fingerprints" (the comparison of `ItemSync` is not
part of the sources); the identifiers that an update overwrites are compared as well. -/
def sameContent (a x : Item) : Bool :=
  a.remoteId = x.remoteId && a.gid = x.gid && a.payload = x.payload && a.flags = x.flags

/-- Modelled from the spec: one authoritative item inside the transaction of its batch
(`ItemSync` and the storage layer are not part of the sources): a new item is created
under the next free local id, a matched item whose content changed is overwritten
("overwrite the existing item's payload/remote id/revision"), an unchanged one is left
alone; a conflict fails the transaction (`none`). The create of an item without remote id
fails as well: that is the failing job inside the transaction of `testFailingJob`
(`src/autotests/libs/itemsynctest.cpp`), which delivers items whose remote id is reset. -/
def applyItem (gidMerge : Bool) (s : Storage) (a : Item) : Option Storage :=
  match matchItem gidMerge s.items a with
  | .conflict => none
  | .new =>
    if a.remoteId = "" then none
    else
      let i : Item := { a with id := some s.nextId }
      some { items := s.items ++ [i], nextId := s.nextId + 1, changes := s.changes ++ [.added i] }
  | .existing x =>
    if sameContent a x then some s
    else
      let i : Item := { a with id := x.id }
      some { s with
        items := s.items.map (fun y => if y.id = x.id then i else y)
        changes := s.changes ++ [.changed i] }

/-- Modelled from the spec: the authoritative items of a batch, in order, inside one
transaction (`ItemSync` is not part of the sources). -/
def applyItems (gidMerge : Bool) : Storage → List Item → Option Storage
  | s, [] => some s
  | s, a :: rest =>
    match applyItem gidMerge s a with
    | none => none
    | some s1 => applyItems gidMerge s1 rest

/-- Modelled from the spec: the removal of the stored items that satisfy `p` (the storage
layer is not part of the sources); every removed item is a `removed` change. -/
def removeWhere (p : Item → Bool) (s : Storage) : Storage :=
  { s with
    items := s.items.filter (fun x => !p x)
    changes := s.changes ++ (s.items.filter p).map Change.removed }

/-- Modelled from the spec: one entry of the deletion list of an incremental sync (the
deletion of `ItemSync` is not part of the sources). An entry with a local id deletes that
item; an entry "with only a remote id (no local id) populated is deleted if a matching local
remote id exists, and silently ignored (not an error) if no match exists"; an entry with an
empty remote id "is treated as a no-op deletion request". -/
def applyDeletion (s : Storage) (d : Item) : Storage :=
  match d.id with
  | some i => removeWhere (fun x => x.id = some i) s
  | none => if d.remoteId = "" then s else removeWhere (fun x => x.remoteId = d.remoteId) s

/-- Modelled from the spec: the deletion list of a batch, in order (`ItemSync` is not part
of the sources). -/
def applyDeletions (s : Storage) (deleted : List Item) : Storage :=
  deleted.foldl applyDeletion s

/-- Modelled from the spec: a batch as one call of `setFullSyncItems( items )` or
`setIncrementalSyncItems( changedItems, deletedItems )` delivers it (`ItemSync` is not part
of the sources); a full-sync batch has no deletion list. -/
structure Batch where
  full : Bool
  items : List Item
  deleted : List Item
deriving DecidableEq, Repr

/-- Modelled from the spec: the transaction of one batch (section 4.5; `ItemSync` and the
transaction executor are not part of the sources): "Apply creates/updates/deletes inside
one Transaction per batch"; "on failure, no partial state from that batch is visible", which
is `none` here, the caller keeping the storage it had. -/
def transact (gidMerge : Bool) (s : Storage) (b : Batch) : Option Storage :=
  match applyItems gidMerge s b.items with
  | none => none
  | some s1 => some (applyDeletions s1 b.deleted)

/-- Modelled from the spec: the terminal states of the job (`ItemSync` is not part of the
sources): `Succeeded | Failed | Cancelled`. -/
inductive Outcome where
  | Succeeded
  | Failed
  | Cancelled
deriving DecidableEq, Repr

/-- Modelled from the spec: the error text of a terminal state, as far as the specification
gives it (`ItemSync` is not part of the sources): a cancelled job completes with
"User canceled operation.". -/
def Outcome.errorText : Outcome → Option String
  | .Cancelled => some "User canceled operation."
  | _ => none

/-- Modelled from the spec: the state of an `ItemSync` job (whose implementation is not part
of the sources): the merge policy and the streaming flag, the storage of the target
collection, whether a full-sync batch was delivered and the remote ids of the full-sync
items delivered so far, the delivered batches that are not processed yet, whether delivery
is marked done, whether cancellation was requested, the number of failed transactions (the
"internal error counter"), and the result signals emitted so far. -/
structure Job where
  gidMerge : Bool
  streaming : Bool
  storage : Storage
  fullSync : Bool
  seen : List String
  pending : List Batch
  deliveryDone : Bool
  cancelRequested : Bool
  errors : Nat
  results : List Outcome
deriving DecidableEq, Repr

/-- Modelled from the spec: what drives the job (`ItemSync` is not part of the sources): the
operations of section 4.4, and `process`, one turn of the event loop in which the job
processes the next delivered batch. -/
inductive Call where
  | setStreamingEnabled (enabled : Bool)
  | setFullSyncItems (items : List Item)
  | setIncrementalSyncItems (changedItems deletedItems : List Item)
  | deliveryDone
  | rollback
  | process
deriving DecidableEq, Repr

/-- The calls of a delivery that is still going on: the delivery of a batch, and a turn of
the event loop. -/
def Call.isDeliveryOrProcess : Call → Bool
  | .setFullSyncItems _ => true
  | .setIncrementalSyncItems _ _ => true
  | .process => true
  | _ => false

namespace Job

/-- Modelled from the spec: a new job for a target collection (`ItemSync` is not part of the
sources): remote-id matching (GID merge only "when configured"), streaming disabled,
nothing delivered. -/
def new (gidMerge : Bool) (storage : Storage) : Job where
  gidMerge := gidMerge
  streaming := false
  storage := storage
  fullSync := false
  seen := []
  pending := []
  deliveryDone := false
  cancelRequested := false
  errors := 0
  results := []

/-- Modelled from the spec: the completion check at a batch boundary (`ItemSync` is not
part of the sources). A job with a result is terminal. A requested cancellation completes
the job with the cancellation error and drops what is not processed. "Only after
`deliveryDone()` has been received AND the last batch's transaction has concluded does the
job transition to `Succeeded`/`Failed`"; a full sync then deletes the complement, the "local
items whose remote id is absent from the full authoritative set seen so far" (an item
without remote id "cannot be deleted by reference"); "`Failed` is reported if any batch's
transaction failed". -/
def finish (j : Job) : Job :=
  if j.results ≠ [] then j
  else if j.cancelRequested then { j with pending := [], results := [.Cancelled] }
  else if j.deliveryDone && j.pending.isEmpty then
    { j with
      storage :=
        if j.fullSync then
          removeWhere (fun x => x.remoteId ≠ "" && !j.seen.contains x.remoteId) j.storage
        else j.storage
      results := [if j.errors = 0 then .Succeeded else .Failed] }
  else j

/-- Modelled from the spec: the delivery of one batch (`ItemSync` is not part of the
sources): "each call contributes to the authoritative set without discarding previously
supplied items. Calling this after `deliveryDone()` is an error", so such a call delivers
nothing. Without streaming the one batch is the whole set. -/
def deliver (j : Job) (b : Batch) : Job :=
  if j.results ≠ [] || j.deliveryDone then j
  else
    { j with
      pending := j.pending ++ [b]
      fullSync := j.fullSync || b.full
      seen := if b.full then j.seen ++ b.items.map (fun a => a.remoteId) else j.seen
      deliveryDone := !j.streaming }

/-- Modelled from the spec: one turn of the event loop (`ItemSync` is not part of the
sources). Cancellation is "checked at the next safe point (batch boundary or before issuing
the next transaction)". Otherwise the next delivered batch runs in its transaction: a
failed transaction changes nothing in the storage and "increments an internal error
counter", and "the job keeps consuming subsequent streamed batches". -/
def process (j : Job) : Job :=
  if j.results ≠ [] then j
  else if j.cancelRequested then finish j
  else
    match j.pending with
    | [] => finish j
    | b :: rest =>
      match transact j.gidMerge j.storage b with
      | some s => finish { j with storage := s, pending := rest }
      | none => finish { j with errors := j.errors + 1, pending := rest }

/-- Modelled from the spec: the effect of one call on the job (`ItemSync` is not part of the
sources). -/
def step (j : Job) : Call → Job
  | .setStreamingEnabled enabled => { j with streaming := enabled }
  | .setFullSyncItems items => deliver j ⟨true, items, []⟩
  | .setIncrementalSyncItems changedItems deletedItems =>
    deliver j ⟨false, changedItems, deletedItems⟩
  | .deliveryDone => if j.results ≠ [] then j else finish { j with deliveryDone := true }
  | .rollback => if j.results ≠ [] then j else { j with cancelRequested := true }
  | .process => process j

/-- Modelled from the spec: a sequence of calls, left to right (`ItemSync` is not part of
the sources). -/
def run (calls : List Call) (j : Job) : Job :=
  calls.foldl step j

/-- Modelled from the spec: `exec()`, the event loop that runs until every delivered batch
is processed (`ItemSync` is not part of the sources). -/
def exec (j : Job) : Job :=
  run (List.replicate (j.pending.length + 1) Call.process) j

end Job

end ItemSync

/-! ## The server: the end of `Store::parseStream` -/

namespace Server

/-- The columns of a `PimItem` that the end of `Store::parseStream` reads or writes
(`PimItem` is generated from the database schema and not part of the sources). A
`QDateTime` is a number here. -/
structure PimItem where
  id : Int
  rev : Int
  size : Int
  datetime : Int
  atime : Int
  dirty : Bool
deriving DecidableEq, Repr

/-- What the end of `Store::parseStream` uses and the sources do not contain: the constants
`AKONADI_PARAM_*` of `protocol_p.h`, and the answers of the connection and of the
database. -/
structure StoreEnvironment where
  REMOTEID : String
  REMOTEREVISION : String
  FLAGS : String
  GID : String
  PLD : String
  /-- The call `connection()->isOwnerResource( item )`. -/
  isOwnerResource : PimItem → Bool
  /-- The call `item.update()`. -/
  update : PimItem → Bool
  /-- The call `store->invalidateItemCache( item )`. -/
  invalidateItemCache : PimItem → Bool
  /-- The call `transaction.commit()`. -/
  commit : Bool

namespace Store

/-- The value of an `int` expression: wrapped into 32 bits. -/
def toInt (x : Int) : Int :=
  (x + 2147483648) % 4294967296 - 2147483648

/-- The static `payloadChanged( changes )`: some change starts with `AKONADI_PARAM_PLD`. -/
def payloadChanged (env : StoreEnvironment) (changes : Finset String) : Bool :=
  decide (∃ change ∈ changes, env.PLD.isPrefixOf change = true)

/-- The value of `revisionNeedsUpdate` in `Store::parseStream`. -/
def revisionNeedsUpdate (env : StoreEnvironment) (changes : Finset String) : Bool :=
  let onlyRemoteIdChanged := changes.card = 1 && decide (env.REMOTEID ∈ changes)
  let onlyRemoteRevisionChanged := changes.card = 1 && decide (env.REMOTEREVISION ∈ changes)
  let onlyRemoteIdAndRevisionChanged :=
    changes.card = 2 && decide (env.REMOTEID ∈ changes)
      && decide (env.REMOTEREVISION ∈ changes)
  let onlyGIDChanged := changes.card = 1 && decide (env.GID ∈ changes)
  !decide (changes = ∅) && !onlyRemoteIdChanged && !onlyRemoteRevisionChanged
    && !onlyRemoteIdAndRevisionChanged && !onlyGIDChanged

/-- The loop `for ( int i = 0; i < pimItems.count(); ++i )` at the end of
`Store::parseStream`: the items as they are written, or the text of the `HandlerException`
that ends the loop. The change notification and the response of each item are not
followed. -/
def updateLoop (env : StoreEnvironment) (changes : Finset String) (invalidateCache : Bool)
    (modificationtime : Int) : List PimItem → Except String (List PimItem)
  | [] => .ok []
  | pimItem :: rest =>
    let item0 : PimItem :=
      if revisionNeedsUpdate env changes then { pimItem with rev := toInt (pimItem.rev + 1) }
      else pimItem
    let item1 : PimItem := { item0 with datetime := modificationtime, atime := modificationtime }
    let item : PimItem :=
      if !env.isOwnerResource item1 && payloadChanged env changes then
        { item1 with dirty := true }
      else item1
    if !env.update item then .error "Unable to write item changes into the database"
    else if invalidateCache && !env.invalidateItemCache item then
      .error "Unable to invalidate item cache in the database"
    else
      match updateLoop env changes invalidateCache modificationtime rest with
      | .error e => .error e
      | .ok items => .ok (item :: items)

/-- The end of `Store::parseStream`, from `if ( !changes.isEmpty() || invalidateCache ||
undirty )` on: the selected items as they are left, or the text of the exception or of
the failure response. -/
def writeChanges (env : StoreEnvironment) (changes : Finset String)
    (invalidateCache undirty : Bool) (mSize partSizes modificationtime : Int)
    (pimItems : List PimItem) : Except String (List PimItem) :=
  if !decide (changes = ∅) || invalidateCache || undirty then
    let sized : List PimItem :=
      match pimItems with
      | [first] =>
        if mSize > 0 || partSizes > 0 then [{ first with size := max mSize partSizes }]
        else [first]
      | _ => pimItems
    match updateLoop env changes invalidateCache modificationtime sized with
    | .error e => .error e
    | .ok items => if !env.commit then .error "Cannot commit transaction." else .ok items
  else .ok pimItems

end Store

end Server

/-! ## The protocol: commands and responses -/

namespace Protocol

/-- The member of `CommandPrivate`: `qint8 commandType`, held as its pattern of 8 bits (a
number below 256). -/
structure CommandPrivate where
  commandType : Nat
deriving DecidableEq, Repr

/-- The constructor `CommandPrivate( qint8 type )`: the conversion to `qint8` keeps the
low 8 bits. -/
def CommandPrivate.new (type : Nat) : CommandPrivate :=
  ⟨type % 256⟩

/-- The constructor `ResponsePrivate( Command::Type type )`, which calls
`CommandPrivate( type & Command::_ResponseBit )`. The enumerator `_ResponseBit` of
`protocol_p.h` is a parameter. -/
def ResponsePrivate.new (ResponseBit : Nat) (type : Nat) : CommandPrivate :=
  CommandPrivate.new (type &&& ResponseBit)

namespace Command

/-- The method `Command::type()`: `commandType & ~_ResponseBit`, as a pattern of 8 bits. -/
def type (ResponseBit : Nat) (d : CommandPrivate) : Nat :=
  d.commandType &&& (255 ^^^ (ResponseBit % 256))

/-- The method `Command::isValid()`: `commandType != Invalid`. The enumerator `Invalid` of
`protocol_p.h` is a parameter. -/
def isValid (Invalid : Nat) (d : CommandPrivate) : Bool :=
  d.commandType != Invalid

/-- The method `Command::isResponse()`: `commandType & _ResponseBit`, converted to `bool`. -/
def isResponse (ResponseBit : Nat) (d : CommandPrivate) : Bool :=
  d.commandType &&& ResponseBit != 0

end Command

/-- The flags of `ModifyCollectionCommand::ModifiedParts` that `protocol.cpp` names (the
enumeration is declared in `protocol_p.h`); `None` is the empty set of flags. -/
inductive ModifiedPart where
  | Name
  | RemoteID
  | RemoteRevision
  | ParentID
  | MimeTypes
  | CachePolicy
  | PersistentSearch
  | RemovedAttributes
  | Attributes
  | ListPreferences
  | Referenced
deriving DecidableEq, Repr

/-- The default-constructed values of the types of `protocol_p.h` that a
`ModifyCollectionCommand` holds: `Scope()`, `CachePolicy()`, `Attributes()`, and
`Tristate::Undefined`. The types are parameters. -/
structure Defaults (σ π α τ : Type) where
  scope : σ
  cachePolicy : π
  attributes : α
  undefined : τ

/-- The members of `ModifyCollectionCommandPrivate` (without the `commandType` of its
base). A set of flags is the list of the flags that are set. -/
structure ModifyCollectionCommandPrivate (σ π α τ : Type) where
  collection : σ
  mimeTypes : List String
  cachePolicy : π
  name : String
  remoteId : String
  remoteRev : String
  persistentSearchQuery : String
  persistentSearchCols : List Int
  removedAttributes : Finset String
  attributes : α
  parentId : Int
  sync : τ
  display : τ
  index : τ
  enabled : Bool
  referenced : Bool
  persistentSearchRemote : Bool
  persistentSearchRecursive : Bool
  modifiedParts : List ModifiedPart
deriving DecidableEq

/-- What a `QDataStream` holds: the values written to it, each with its type. -/
inductive Datum (σ π α τ : Type) where
  | scope (v : σ)
  | modifiedParts (v : List ModifiedPart)
  | string (v : String)
  | qint64 (v : Int)
  | stringList (v : List String)
  | cachePolicy (v : π)
  | qint64Vector (v : List Int)
  | bool (v : Bool)
  | byteArraySet (v : Finset String)
  | attributes (v : α)
  | tristate (v : τ)
deriving DecidableEq

namespace ModifyCollectionCommand

variable {σ π α τ : Type}

/-- The constructor `ModifyCollectionCommand( const Scope &collection )` with the member
initialisers of `ModifyCollectionCommandPrivate`. -/
def ofScope (dflt : Defaults σ π α τ) (collection : σ) :
    ModifyCollectionCommandPrivate σ π α τ where
  collection := collection
  mimeTypes := []
  cachePolicy := dflt.cachePolicy
  name := ""
  remoteId := ""
  remoteRev := ""
  persistentSearchQuery := ""
  persistentSearchCols := []
  removedAttributes := ∅
  attributes := dflt.attributes
  parentId := -1
  sync := dflt.undefined
  display := dflt.undefined
  index := dflt.undefined
  enabled := true
  referenced := false
  persistentSearchRemote := false
  persistentSearchRecursive := false
  modifiedParts := []

/-- The constructor `ModifyCollectionCommand()`. -/
def new (dflt : Defaults σ π α τ) : ModifyCollectionCommandPrivate σ π α τ :=
  ofScope dflt dflt.scope

/-- The setters of `ModifyCollectionCommand`, as calls. -/
inductive Setter (π α τ : Type) where
  | setParentId (parentId : Int)
  | setMimeTypes (mimeTypes : List String)
  | setCachePolicy (cachePolicy : π)
  | setName (name : String)
  | setRemoteId (remoteId : String)
  | setRemoteRevision (remoteRevision : String)
  | setPersistentSearchQuery (query : String)
  | setPersistentSearchCollections (cols : List Int)
  | setPersistentSearchRemote (remote : Bool)
  | setPersistentSearchRecursive (recursive : Bool)
  | setRemovedAttributes (removedAttrs : Finset String)
  | setAttributes (attributes : α)
  | setEnabled (enabled : Bool)
  | setSyncPref (sync : τ)
  | setDisplayPref (display : τ)
  | setIndexPref (index : τ)
  | setReferenced (referenced : Bool)

/-- The setters of `ModifyCollectionCommand`: `modifiedParts |= Flag` where the setter
has it, and the assignment of the member. -/
def set (d : ModifyCollectionCommandPrivate σ π α τ) :
    Setter π α τ → ModifyCollectionCommandPrivate σ π α τ
  | .setParentId parentId => { d with parentId := parentId }
  | .setMimeTypes mimeTypes =>
    { d with
      modifiedParts := (d.modifiedParts.insert .MimeTypes).insert .PersistentSearch
      mimeTypes := mimeTypes }
  | .setCachePolicy cachePolicy =>
    { d with modifiedParts := d.modifiedParts.insert .CachePolicy, cachePolicy := cachePolicy }
  | .setName name => { d with modifiedParts := d.modifiedParts.insert .Name, name := name }
  | .setRemoteId remoteId =>
    { d with modifiedParts := d.modifiedParts.insert .RemoteID, remoteId := remoteId }
  | .setRemoteRevision remoteRevision =>
    { d with
      modifiedParts := d.modifiedParts.insert .RemoteRevision, remoteRev := remoteRevision }
  | .setPersistentSearchQuery query =>
    { d with
      modifiedParts := d.modifiedParts.insert .PersistentSearch
      persistentSearchQuery := query }
  | .setPersistentSearchCollections cols =>
    { d with
      modifiedParts := d.modifiedParts.insert .PersistentSearch
      persistentSearchCols := cols }
  | .setPersistentSearchRemote remote =>
    { d with
      modifiedParts := d.modifiedParts.insert .PersistentSearch
      persistentSearchRemote := remote }
  | .setPersistentSearchRecursive recursive =>
    { d with
      modifiedParts := d.modifiedParts.insert .PersistentSearch
      persistentSearchRecursive := recursive }
  | .setRemovedAttributes removedAttrs =>
    { d with
      modifiedParts := d.modifiedParts.insert .RemovedAttributes
      removedAttributes := removedAttrs }
  | .setAttributes attributes =>
    { d with modifiedParts := d.modifiedParts.insert .Attributes, attributes := attributes }
  | .setEnabled enabled =>
    { d with modifiedParts := d.modifiedParts.insert .ListPreferences, enabled := enabled }
  | .setSyncPref sync =>
    { d with modifiedParts := d.modifiedParts.insert .ListPreferences, sync := sync }
  | .setDisplayPref display =>
    { d with modifiedParts := d.modifiedParts.insert .ListPreferences, display := display }
  | .setIndexPref index =>
    { d with modifiedParts := d.modifiedParts.insert .ListPreferences, index := index }
  | .setReferenced referenced =>
    { d with modifiedParts := d.modifiedParts.insert .Referenced, referenced := referenced }

/-- A command built with its setters: the constructor, then the calls in order. -/
def build (dflt : Defaults σ π α τ) (collection : σ) (calls : List (Setter π α τ)) :
    ModifyCollectionCommandPrivate σ π α τ :=
  calls.foldl set (ofScope dflt collection)

/-- The flag `ParentID` is not set, and the members of every section whose flag is not set
have the values that the constructor gives them. -/
def Unset (dflt : Defaults σ π α τ) (d : ModifyCollectionCommandPrivate σ π α τ) : Prop :=
  ModifiedPart.ParentID ∉ d.modifiedParts ∧
  (ModifiedPart.Name ∉ d.modifiedParts → d.name = "") ∧
  (ModifiedPart.RemoteID ∉ d.modifiedParts → d.remoteId = "") ∧
  (ModifiedPart.RemoteRevision ∉ d.modifiedParts → d.remoteRev = "") ∧
  (ModifiedPart.MimeTypes ∉ d.modifiedParts → d.mimeTypes = []) ∧
  (ModifiedPart.CachePolicy ∉ d.modifiedParts → d.cachePolicy = dflt.cachePolicy) ∧
  (ModifiedPart.PersistentSearch ∉ d.modifiedParts →
    d.persistentSearchQuery = "" ∧ d.persistentSearchCols = []
      ∧ d.persistentSearchRemote = false ∧ d.persistentSearchRecursive = false) ∧
  (ModifiedPart.RemovedAttributes ∉ d.modifiedParts → d.removedAttributes = ∅) ∧
  (ModifiedPart.Attributes ∉ d.modifiedParts → d.attributes = dflt.attributes) ∧
  (ModifiedPart.ListPreferences ∉ d.modifiedParts →
    d.enabled = true ∧ d.sync = dflt.undefined ∧ d.display = dflt.undefined
      ∧ d.index = dflt.undefined) ∧
  (ModifiedPart.Referenced ∉ d.modifiedParts → d.referenced = false)

/-- The operator `operator<<( QDataStream &, const ModifyCollectionCommand & )`: the stream
with what the operator appends. -/
def serialize (command : ModifyCollectionCommandPrivate σ π α τ)
    (stream : List (Datum σ π α τ)) : List (Datum σ π α τ) :=
  let s0 := stream ++ [.scope command.collection, .modifiedParts command.modifiedParts]
  let s1 := if .Name ∈ command.modifiedParts then s0 ++ [.string command.name] else s0
  let s2 := if .RemoteID ∈ command.modifiedParts then s1 ++ [.string command.remoteId] else s1
  let s3 :=
    if .RemoteRevision ∈ command.modifiedParts then s2 ++ [.string command.remoteRev] else s2
  let s4 := if .ParentID ∈ command.modifiedParts then s3 ++ [.qint64 command.parentId] else s3
  let s5 :=
    if .MimeTypes ∈ command.modifiedParts then s4 ++ [.stringList command.mimeTypes] else s4
  let s6 :=
    if .CachePolicy ∈ command.modifiedParts then s5 ++ [.cachePolicy command.cachePolicy]
    else s5
  let s7 :=
    if .PersistentSearch ∈ command.modifiedParts then
      s6 ++ [.string command.persistentSearchQuery,
        .qint64Vector command.persistentSearchCols,
        .bool command.persistentSearchRemote,
        .bool command.persistentSearchRecursive]
    else s6
  let s8 :=
    if .RemovedAttributes ∈ command.modifiedParts then
      s7 ++ [.byteArraySet command.removedAttributes]
    else s7
  let s9 :=
    if .Attributes ∈ command.modifiedParts then s8 ++ [.attributes command.attributes] else s8
  let s10 :=
    if .ListPreferences ∈ command.modifiedParts then
      s9 ++ [.bool command.enabled, .tristate command.sync, .tristate command.display,
        .tristate command.index]
    else s9
  if .Referenced ∈ command.modifiedParts then s10 ++ [.bool command.referenced] else s10

/-- The start of `operator>>( QDataStream &, ModifyCollectionCommand & )`:
`stream >> collection >> modifiedParts`. A stream that does not hold the values that are
read has no result. -/
def readHeader (command : ModifyCollectionCommandPrivate σ π α τ) :
    List (Datum σ π α τ) → Option (ModifyCollectionCommandPrivate σ π α τ × List (Datum σ π α τ))
  | .scope collection :: .modifiedParts parts :: stream =>
    some ({ command with collection := collection, modifiedParts := parts }, stream)
  | _ => none

/-- The block `if ( modifiedParts & Name ) stream >> name;` of `operator>>`. -/
def readName (command : ModifyCollectionCommandPrivate σ π α τ)
    (stream : List (Datum σ π α τ)) :
    Option (ModifyCollectionCommandPrivate σ π α τ × List (Datum σ π α τ)) :=
  if .Name ∈ command.modifiedParts then
    match stream with
    | .string v :: rest => some ({ command with name := v }, rest)
    | _ => none
  else some (command, stream)

/-- The block `if ( modifiedParts & RemoteID ) stream >> remoteId;` of `operator>>`. -/
def readRemoteId (command : ModifyCollectionCommandPrivate σ π α τ)
    (stream : List (Datum σ π α τ)) :
    Option (ModifyCollectionCommandPrivate σ π α τ × List (Datum σ π α τ)) :=
  if .RemoteID ∈ command.modifiedParts then
    match stream with
    | .string v :: rest => some ({ command with remoteId := v }, rest)
    | _ => none
  else some (command, stream)

/-- The block `if ( modifiedParts & RemoteRevision ) stream >> remoteRev;` of
`operator>>`. -/
def readRemoteRevision (command : ModifyCollectionCommandPrivate σ π α τ)
    (stream : List (Datum σ π α τ)) :
    Option (ModifyCollectionCommandPrivate σ π α τ × List (Datum σ π α τ)) :=
  if .RemoteRevision ∈ command.modifiedParts then
    match stream with
    | .string v :: rest => some ({ command with remoteRev := v }, rest)
    | _ => none
  else some (command, stream)

/-- The block `if ( modifiedParts & ParentID ) stream >> parentId;` of `operator>>`. -/
def readParentId (command : ModifyCollectionCommandPrivate σ π α τ)
    (stream : List (Datum σ π α τ)) :
    Option (ModifyCollectionCommandPrivate σ π α τ × List (Datum σ π α τ)) :=
  if .ParentID ∈ command.modifiedParts then
    match stream with
    | .qint64 v :: rest => some ({ command with parentId := v }, rest)
    | _ => none
  else some (command, stream)

/-- The block `if ( modifiedParts & MimeTypes ) stream >> mimeTypes;` of `operator>>`. -/
def readMimeTypes (command : ModifyCollectionCommandPrivate σ π α τ)
    (stream : List (Datum σ π α τ)) :
    Option (ModifyCollectionCommandPrivate σ π α τ × List (Datum σ π α τ)) :=
  if .MimeTypes ∈ command.modifiedParts then
    match stream with
    | .stringList v :: rest => some ({ command with mimeTypes := v }, rest)
    | _ => none
  else some (command, stream)

/-- The block `if ( modifiedParts & CachePolicy ) stream >> cachePolicy;` of
`operator>>`. -/
def readCachePolicy (command : ModifyCollectionCommandPrivate σ π α τ)
    (stream : List (Datum σ π α τ)) :
    Option (ModifyCollectionCommandPrivate σ π α τ × List (Datum σ π α τ)) :=
  if .CachePolicy ∈ command.modifiedParts then
    match stream with
    | .cachePolicy v :: rest => some ({ command with cachePolicy := v }, rest)
    | _ => none
  else some (command, stream)

/-- The block `if ( modifiedParts & PersistentSearch ) stream >> persistentSearchQuery >>
persistentSearchCols >> persistentSearchRemote >> persistentSearchRecursive;` of
`operator>>`. -/
def readPersistentSearch (command : ModifyCollectionCommandPrivate σ π α τ)
    (stream : List (Datum σ π α τ)) :
    Option (ModifyCollectionCommandPrivate σ π α τ × List (Datum σ π α τ)) :=
  if .PersistentSearch ∈ command.modifiedParts then
    match stream with
    | .string query :: .qint64Vector cols :: .bool remote :: .bool recursive :: rest =>
      some ({ command with
        persistentSearchQuery := query
        persistentSearchCols := cols
        persistentSearchRemote := remote
        persistentSearchRecursive := recursive }, rest)
    | _ => none
  else some (command, stream)

/-- The block `if ( modifiedParts & RemovedAttributes ) stream >> removedAttributes;` of
`operator>>`. -/
def readRemovedAttributes (command : ModifyCollectionCommandPrivate σ π α τ)
    (stream : List (Datum σ π α τ)) :
    Option (ModifyCollectionCommandPrivate σ π α τ × List (Datum σ π α τ)) :=
  if .RemovedAttributes ∈ command.modifiedParts then
    match stream with
    | .byteArraySet v :: rest => some ({ command with removedAttributes := v }, rest)
    | _ => none
  else some (command, stream)

/-- The block `if ( modifiedParts & Attributes ) stream >> attributes;` of `operator>>`. -/
def readAttributes (command : ModifyCollectionCommandPrivate σ π α τ)
    (stream : List (Datum σ π α τ)) :
    Option (ModifyCollectionCommandPrivate σ π α τ × List (Datum σ π α τ)) :=
  if .Attributes ∈ command.modifiedParts then
    match stream with
    | .attributes v :: rest => some ({ command with attributes := v }, rest)
    | _ => none
  else some (command, stream)

/-- The block `if ( modifiedParts & ListPreferences ) stream >> enabled >> sync >> display
>> index;` of `operator>>`. -/
def readListPreferences (command : ModifyCollectionCommandPrivate σ π α τ)
    (stream : List (Datum σ π α τ)) :
    Option (ModifyCollectionCommandPrivate σ π α τ × List (Datum σ π α τ)) :=
  if .ListPreferences ∈ command.modifiedParts then
    match stream with
    | .bool enabled :: .tristate sync :: .tristate display :: .tristate index :: rest =>
      some ({ command with
        enabled := enabled, sync := sync, display := display, index := index }, rest)
    | _ => none
  else some (command, stream)

/-- The block `if ( modifiedParts & Referenced ) stream >> referenced;` of `operator>>`. -/
def readReferenced (command : ModifyCollectionCommandPrivate σ π α τ)
    (stream : List (Datum σ π α τ)) :
    Option (ModifyCollectionCommandPrivate σ π α τ × List (Datum σ π α τ)) :=
  if .Referenced ∈ command.modifiedParts then
    match stream with
    | .bool v :: rest => some ({ command with referenced := v }, rest)
    | _ => none
  else some (command, stream)

/-- The operator `operator>>( QDataStream &, ModifyCollectionCommand & )`: the command as
the operator leaves it, and the rest of the stream. -/
def deserialize (command : ModifyCollectionCommandPrivate σ π α τ)
    (stream : List (Datum σ π α τ)) :
    Option (ModifyCollectionCommandPrivate σ π α τ × List (Datum σ π α τ)) :=
  (readHeader command stream).bind fun r0 =>
  (readName r0.1 r0.2).bind fun r1 =>
  (readRemoteId r1.1 r1.2).bind fun r2 =>
  (readRemoteRevision r2.1 r2.2).bind fun r3 =>
  (readParentId r3.1 r3.2).bind fun r4 =>
  (readMimeTypes r4.1 r4.2).bind fun r5 =>
  (readCachePolicy r5.1 r5.2).bind fun r6 =>
  (readPersistentSearch r6.1 r6.2).bind fun r7 =>
  (readRemovedAttributes r7.1 r7.2).bind fun r8 =>
  (readAttributes r8.1 r8.2).bind fun r9 =>
  (readListPreferences r9.1 r9.2).bind fun r10 =>
  readReferenced r10.1 r10.2

end ModifyCollectionCommand

end Protocol

/-! ## The server: `SearchHelper::splitLine` -/

namespace Server

namespace SearchHelper

/-- The call `line.mid( pos, len )` of `QByteArray`, for a position within the array and a
length that is not negative. A byte array is the list of its characters. -/
def mid (line : List Char) (pos len : Nat) : List Char :=
  (line.drop pos).take len

/-- The loop `for ( i = 0; i < line.count(); ++i )` of `splitLine`: the values of `i`,
`start` and `retval` when the loop ends. The second argument is the part of the line from
`line[ i ]` on. -/
def splitLoop (line : List Char) :
    List Char → Nat → Nat → Bool → List (List Char) → Nat × Nat × List (List Char)
  | [], i, start, _, retval => (i, start, retval)
  | c :: rest, i, start, escaped, retval =>
    if c = ' ' then
      if !escaped then
        splitLoop line rest (i + 1) (i + 1) escaped (retval ++ [mid line start (i - start)])
      else splitLoop line rest (i + 1) start escaped retval
    else if c = '"' then
      if escaped then splitLoop line rest (i + 1) start false retval
      else splitLoop line rest (i + 1) start true retval
    else splitLoop line rest (i + 1) start escaped retval

/-- The function `SearchHelper::splitLine( line )`. -/
def splitLine (line : List Char) : List (List Char) :=
  match splitLoop line line 0 0 false [] with
  | (i, start, retval) => retval ++ [mid line start (i - start)]

/-- The number of spaces of a byte string that lie outside double-quoted sections, read as
the words say: a double quote opens a section when none is open and closes the open one;
`quoted` tells whether the string starts inside a section. -/
def spacesOutsideQuotes : Bool → List Char → Nat
  | _, [] => 0
  | quoted, c :: rest =>
    if c = '"' then spacesOutsideQuotes (!quoted) rest
    else if c = ' ' ∧ quoted = false then 1 + spacesOutsideQuotes quoted rest
    else spacesOutsideQuotes quoted rest

/-- The pieces of a byte string, cut at the spaces outside double-quoted sections, as a
recursion on the bytes: the first piece, and the pieces after it. -/
def cutAtSpaces : Bool → List Char → List Char × List (List Char)
  | _, [] => ([], [])
  | quoted, c :: rest =>
    if c = ' ' ∧ quoted = false then
      ([], (cutAtSpaces quoted rest).1 :: (cutAtSpaces quoted rest).2)
    else
      (c :: (cutAtSpaces (if c = '"' then !quoted else quoted) rest).1,
        (cutAtSpaces (if c = '"' then !quoted else quoted) rest).2)

end SearchHelper

end Server

/-! ## The server: `Qb::ConditionStmt` -/

namespace Server

namespace Qb

/-- The enumeration `Logic` (declared in `condition.h`), as `condition.cpp` uses it. -/
inductive Logic where
  | And
  | Or
deriving DecidableEq, Repr

/-- The enumeration `Compare` (declared in `condition.h`), as `condition.cpp` uses it. -/
inductive Compare where
  | Equals
  | NotEquals
  | Is
  | IsNot
  | Less
  | LessOrEqual
  | Greater
  | GreaterOrEqual
  | In
  | NotIn
  | Like
deriving DecidableEq, Repr

/-- The operator `operator<<( QTextStream &, Logic )`: what is written. -/
def Logic.text : Logic → String
  | .And => " AND "
  | .Or => " OR "

/-- The operator `operator<<( QTextStream &, Compare )`: what is written. -/
def Compare.text : Compare → String
  | .Equals => " = "
  | .NotEquals => " <> "
  | .Is => " IS "
  | .IsNot => " IS NOT "
  | .Less => " < "
  | .LessOrEqual => " <= "
  | .Greater => " > "
  | .GreaterOrEqual => " >= "
  | .In => " IN "
  | .NotIn => " NOT IN "
  | .Like => " LIKE "

/-- The alternatives of the variant `mCond` of a `ConditionStmt` (declared in
`condition.h`), with the members that `condition.cpp` reads: nothing, a `ValueCondition`,
a `ColumnCondition`, or `SubConditions`. `ν` is the type of a bound value. -/
inductive ConditionStmt (ν : Type) where
  | monostate
  | valueCondition (column : String) (comp : Compare) (value : ν)
  | columnCondition (lhCol rhCol : String)
  | subConditions (logic : Logic) (subconditions : List (ConditionStmt ν))

/-- A character of the text of a statement, or a placeholder `?` together with the value of
the `ValueCondition` that writes it (a tag that the text itself does not carry). -/
inductive Token (ν : Type) where
  | char (c : Char)
  | placeholder (value : ν)

namespace Token

variable {ν : Type}

/-- The character that a token is in the text. -/
def toChar : Token ν → Char
  | .char c => c
  | .placeholder _ => '?'

/-- The value that a placeholder is tagged with. -/
def value? : Token ν → Option ν
  | .char _ => none
  | .placeholder value => some value

/-- The characters of a text, as tokens. -/
def chars (text : String) : List (Token ν) :=
  text.toList.map Token.char

/-- A token that is not the character `?`: placeholders are tagged. -/
def isTagged : Token ν → Bool
  | .char c => c != '?'
  | .placeholder _ => true

end Token

namespace ConditionStmt

variable {ν : Type}

mutual

/-- The method `ConditionStmt::bindValues()`. -/
def bindValues : ConditionStmt ν → List ν
  | .monostate => []
  | .valueCondition _ _ value => [value]
  | .columnCondition _ _ => []
  | .subConditions _ subconditions => bindValuesLoop subconditions

/-- The loop `for ( const auto &cond : subconds.subconditions ) rv += cond.bindValues();`. -/
def bindValuesLoop : List (ConditionStmt ν) → List ν
  | [] => []
  | cond :: rest => bindValues cond ++ bindValuesLoop rest

end

mutual

/-- The method `ConditionStmt::serialize( stream )`: the text of the stream after the
call. The `stream << *subcond` of the loop is the serialization of the sub-condition (the
operator is declared in `condition.h`). -/
def serialize : ConditionStmt ν → String → String
  | .monostate, stream => stream
  | .valueCondition column comp _, stream => stream ++ "(" ++ column ++ comp.text ++ "?)"
  | .columnCondition lhCol rhCol, stream => stream ++ "(" ++ lhCol ++ " = " ++ rhCol ++ ")"
  | .subConditions logic subconditions, stream =>
    serializeLoop logic true subconditions (stream ++ "(") ++ ")"

/-- The loop over the sub-conditions in `serialize`; `first` is
`subcond == cond.subconditions.cbegin()`. -/
def serializeLoop (logic : Logic) : Bool → List (ConditionStmt ν) → String → String
  | _, [], stream => stream
  | first, subcond :: rest, stream =>
    serializeLoop logic false rest
      (serialize subcond (if first then stream else stream ++ logic.text))

end

mutual

/-- The method `ConditionStmt::serialize( stream )` once more, with the `?` that a
`ValueCondition` writes tagged by `cond.value`. -/
def serializeTokens : ConditionStmt ν → List (Token ν) → List (Token ν)
  | .monostate, stream => stream
  | .valueCondition column comp value, stream =>
    stream ++ Token.chars "(" ++ Token.chars column ++ Token.chars comp.text
      ++ [Token.placeholder value] ++ Token.chars ")"
  | .columnCondition lhCol rhCol, stream =>
    stream ++ Token.chars "(" ++ Token.chars lhCol ++ Token.chars " = " ++ Token.chars rhCol
      ++ Token.chars ")"
  | .subConditions logic subconditions, stream =>
    serializeTokensLoop logic true subconditions (stream ++ Token.chars "(") ++ Token.chars ")"

/-- The loop over the sub-conditions in `serializeTokens`. -/
def serializeTokensLoop (logic : Logic) :
    Bool → List (ConditionStmt ν) → List (Token ν) → List (Token ν)
  | _, [], stream => stream
  | first, subcond :: rest, stream =>
    serializeTokensLoop logic false rest
      (serializeTokens subcond (if first then stream else stream ++ Token.chars logic.text))

end

mutual

/-- No column name of the statement contains a `?`. -/
def columnsClean : ConditionStmt ν → Bool
  | .monostate => true
  | .valueCondition column _ _ => column.toList.all (fun c => c != '?')
  | .columnCondition lhCol rhCol =>
    lhCol.toList.all (fun c => c != '?') && rhCol.toList.all (fun c => c != '?')
  | .subConditions _ subconditions => columnsCleanLoop subconditions

/-- No column name of the statements of a list contains a `?`. -/
def columnsCleanLoop : List (ConditionStmt ν) → Bool
  | [] => true
  | cond :: rest => columnsClean cond && columnsCleanLoop rest

end

end ConditionStmt

end Qb

end Server

/-! ## Example data -/

namespace Example

/-- Collaborators for the evaluation of examples: caches without state that answer
`cached` to every `ensureCached`, `n` receivers on every signal, nothing monitored,
`appendAndCompress` appends, and messages are compared field by field. -/
def collaborators (n : Int) (cached : Bool) : Collaborators Unit where
  receivers := fun _ => n
  isCollectionMonitored := fun _ => false
  isMimeTypeMonitored := fun _ => false
  isMoveDestinationResourceMonitored := fun _ => false
  collectionEnsureCached := fun c _ => (cached, c)
  itemEnsureCached := fun c _ => (cached, c)
  collectionInvalidate := fun c _ => c
  collectionUpdate := fun c _ => c
  itemInvalidate := fun c _ => c
  itemUpdate := fun c _ => c
  notifyCollectionStatisticsWatchers := fun l _ _ => l
  compress := fun l m => l ++ [m]
  equal := fun a b => decide (a = b)

/-- An item notification of session `s` for item `uid`. -/
def itemMessage (op : Operation) (uid parent dest : Int) : NotificationMessage where
  sessionId := "s"
  type := .Item
  operation := op
  uid := uid
  remoteId := "rid"
  resource := "res"
  parentCollection := parent
  parentDestCollection := dest
  mimeType := "text/plain"
  itemParts := []

/-- A new monitor. -/
def monitor : MonitorPrivate Unit :=
  MonitorPrivate.init () ()

/-- A new monitor that monitors everything and fetches items with a non-empty scope. -/
def monitorAll : MonitorPrivate Unit :=
  { monitor with monitorAll := true, itemFetchScopeIsEmpty := false }

/-- A new monitor with reference counting, collection `7` referenced once. -/
def refCounting : MonitorPrivate Unit :=
  { monitor with useRefCounting := true, refCountMap := QHash.insert QHash.empty 7 1 }

/-- Seven Add notifications arrive while no item is cached, then the items arrive in the
cache and `dataAvailable` is called twice. -/
def traffic : List (Collaborators Unit × MonitorPrivate.PipelineCall) :=
  [(collaborators 1 false, .slotNotify [itemMessage .Add 1 7 (-1), itemMessage .Add 2 7 (-1),
      itemMessage .Add 3 7 (-1), itemMessage .Add 4 7 (-1), itemMessage .Add 5 7 (-1),
      itemMessage .Add 6 7 (-1), itemMessage .Add 7 7 (-1)]),
   (collaborators 1 false, .dispatchNotifications),
   (collaborators 1 true, .dataAvailable),
   (collaborators 1 true, .dataAvailable)]

/-- An item `Modify` notification of the server for item `subject`. -/
def itemModify (subject : Int) : Server.ChangeNotification where
  type := .ItemChangeNotification
  operation := .Modify
  subject := subject
  changedParts := ["PLD:RFC822"]

/-- A cache lookup that finds nothing: every retrieved entity is invalid. -/
def nothingCached : EntityLookup Unit where
  collectionRetrieve := fun _ _ => Collection.invalid
  itemRetrieve := fun _ _ => Item.ofId (-1)

/-- A fetch of a single item by its id that finds no row, errors not ignored. -/
def emptyFetch : Server.FetchEnvironment Unit Unit where
  cacheOnly := true
  ignoreErrors := false
  scope := .Uid
  isScopeLocal := .ok false
  retrieverExec := true
  retrieverError := "Unable to fetch item from backend"
  itemQuery := .ok []
  fetchParts := true
  partQueryOk := true
  fetchFlags := true
  flagQueryOk := true
  fetchTags := false
  tagQueryOk := true
  fetchVirtualReferences := false
  vRefQueryOk := true
  itemResponse := fun _ => .ok (some ())

/-- The collection of `testGidMerge`: two items, `gid1`/`rid1` and `gid2`/`rid2`, both with
payload `payload1`. -/
def gidStorage : ItemSync.Storage where
  items := [⟨some 1, "rid1", "gid1", "payload1", []⟩, ⟨some 2, "rid2", "gid2", "payload1", []⟩]
  nextId := 3
  changes := []

/-- The item delivered in `testGidMerge`: `gid2` with remote id `rid3` and a new payload. -/
def gidItem : ItemSync.Item := ⟨none, "rid3", "gid2", "payload2", []⟩

/-- A collection with one item that has neither a remote id nor a GID. -/
def anonymousStorage : ItemSync.Storage where
  items := [⟨some 1, "", "", "payload1", []⟩]
  nextId := 2
  changes := []

/-- A collection in which the remote id `rid1` is stored twice. -/
def duplicateStorage : ItemSync.Storage where
  items := [⟨some 1, "rid1", "", "payload1", []⟩, ⟨some 2, "rid1", "", "payload1", []⟩,
    ⟨some 3, "rid2", "", "payload1", []⟩]
  nextId := 4
  changes := []

/-- A streaming delivery into `duplicateStorage`: the first batch hits the duplicate, a
second batch and an empty one follow, with the event loop running in between. -/
def streamingCalls : List ItemSync.Call :=
  [.setIncrementalSyncItems [⟨some 1, "rid1", "", "payload1", ["flag"]⟩] [],
   .process,
   .setIncrementalSyncItems [⟨some 3, "rid2", "", "payload1", ["flag"]⟩] [],
   .process,
   .setIncrementalSyncItems [] []]

/-- An environment of `Store::parseStream`: values for the constants of `protocol_p.h`, a
connection that owns every item and a database that writes everything. -/
def storeEnvironment : Server.StoreEnvironment where
  REMOTEID := "REMOTEID"
  REMOTEREVISION := "REMOTEREVISION"
  FLAGS := "FLAGS"
  GID := "GID"
  PLD := "PLD:"
  isOwnerResource := fun _ => true
  update := fun _ => true
  invalidateItemCache := fun _ => true
  commit := true

/-- A condition with nested sub-conditions, `((a = ?) AND ((b < ?) OR (x = y)) AND (c LIKE ?))`
with the values 1, 2 and 3. -/
def condition : Server.Qb.ConditionStmt Nat :=
  .subConditions .And
    [.valueCondition "a" .Equals 1,
     .subConditions .Or [.valueCondition "b" .Less 2, .columnCondition "x" "y"],
     .valueCondition "c" .Like 3]

/-- A monitor of everything with reference counting, collection `7` referenced once, and
messages parked in both queues: some for collection `7`, some for unwatched collections. -/
def parked : MonitorPrivate Unit :=
  { refCounting with
    monitorAll := true
    pipeline := [itemMessage .Add 1 7 (-1), itemMessage .Add 2 5 (-1),
      itemMessage .Add 2 5 (-1)]
    pendingNotifications := [itemMessage .Move 3 5 6, itemMessage .Modify 4 7 (-1)] }

/-- The calls `ref( i ); deref( i )` for the ids of a list, one id after the other. -/
def refDeref : List Int → List MonitorPrivate.RefCall
  | [] => []
  | i :: is => .ref i :: .deref i :: refDeref is

end Example

end Akonadi

/-! ## Facts about the QVector primitives -/

namespace Akonadi

namespace QVector

theorem indexOfAux_of_not_mem (l : List Int) (t pos : Int) (h : t ∉ l) :
    indexOfAux l t pos = -1 := by
  induction l generalizing pos with
  | nil => rfl
  | cons x xs ih =>
    have hx : x ≠ t := fun e => h (by simp [e])
    have hxs : t ∉ xs := fun e => h (by simp [e])
    simp [indexOfAux, hx, ih _ hxs]

theorem indexOf_of_not_mem (v : List Int) (t frm : Int) (h : t ∉ v) :
    indexOf v t frm = -1 := by
  unfold indexOf
  have hd : ∀ n, t ∉ v.drop n := fun n hm => h (List.mem_of_mem_drop hm)
  simp only
  split_ifs
  · exact indexOfAux_of_not_mem _ _ _ (hd _)
  · rfl
  · exact indexOfAux_of_not_mem _ _ _ (hd _)
  · rfl

/-- The scan returns `-1` when there is no occurrence, and otherwise the position of the
first occurrence, counted from `pos`. -/
theorem indexOfAux_spec (l : List Int) (t pos : Int) :
    (indexOfAux l t pos = -1 ∧ ∀ j : Nat, l[j]? ≠ some t) ∨
    (∃ k : Nat, k < l.length ∧ indexOfAux l t pos = pos + k ∧ l[k]? = some t ∧
      ∀ j : Nat, j < k → l[j]? ≠ some t) := by
  induction l generalizing pos with
  | nil => left; simp [indexOfAux]
  | cons x xs ih =>
    by_cases hx : x = t
    · right
      refine ⟨0, by simp, by simp [indexOfAux, hx], by simp [hx], ?_⟩
      intro j hj; omega
    · rcases ih (pos + 1) with ⟨h1, h2⟩ | ⟨k, hk, h1, h2, h3⟩
      · left
        refine ⟨by simp [indexOfAux, hx, h1], ?_⟩
        intro j
        cases j with
        | zero => simp [hx]
        | succ j => simpa using h2 j
      · right
        refine ⟨k + 1, by simp [hk], ?_, by simpa using h2, ?_⟩
        · simp [indexOfAux, hx, h1]; omega
        · intro j hj
          cases j with
          | zero => simp [hx]
          | succ j => simpa using h3 j (by omega)

/-- The result of `indexOf` for a start position that is not negative. -/
theorem indexOf_spec (v : List Int) (t frm : Int) (hf : 0 ≤ frm) :
    (indexOf v t frm = -1 ∧ ∀ j : Nat, frm ≤ j → v[j]? ≠ some t) ∨
    (∃ k : Nat, frm ≤ k ∧ k < v.length ∧ indexOf v t frm = k ∧ v[k]? = some t ∧
      ∀ j : Nat, frm ≤ j → j < k → v[j]? ≠ some t) := by
  unfold indexOf
  have hnot : ¬ frm < 0 := by omega
  simp only [hnot, if_false]
  by_cases hlt : frm < v.length
  · simp only [hlt, if_true]
    rcases indexOfAux_spec (v.drop frm.toNat) t frm with ⟨h1, h2⟩ | ⟨k, hk, h1, h2, h3⟩
    · left
      refine ⟨h1, ?_⟩
      intro j hj
      have := h2 (j - frm.toNat)
      rw [List.getElem?_drop] at this
      have e : frm.toNat + (j - frm.toNat) = j := by omega
      rwa [e] at this
    · right
      rw [List.length_drop] at hk
      refine ⟨frm.toNat + k, by omega, by omega, ?_, ?_, ?_⟩
      · rw [h1]; push_cast; omega
      · rw [List.getElem?_drop] at h2; exact h2
      · intro j hj hjk
        have := h3 (j - frm.toNat) (by omega)
        rw [List.getElem?_drop] at this
        have e : frm.toNat + (j - frm.toNat) = j := by omega
        rwa [e] at this
  · left
    simp only [hlt, if_false, true_and]
    intro j hj
    have : v.length ≤ j := by omega
    simp [List.getElem?_eq_none this]

theorem remove_eq_some (v : List Int) (i : Int) (h0 : 0 ≤ i) (h1 : i < v.length) :
    remove v i = some (v.eraseIdx i.toNat) := by
  unfold remove
  rw [if_pos ⟨h0, h1⟩, List.eraseIdx_eq_take_drop_succ]

theorem insert_eq_some (v : List Int) (i t : Int) (h0 : 0 ≤ i) (h1 : i ≤ v.length) :
    insert v i t = some (v.take i.toNat ++ t :: v.drop i.toNat) := by
  unfold insert
  rw [if_pos ⟨h0, h1⟩]

end QVector

end Akonadi

/-! ## The ring buffer stays within its bounds -/

namespace Akonadi

namespace PurgeBuffer

/-- The first loop of `purge` ends without a bad access when `idx` is the first occurrence
of `id` (or `-1` when there is none), and leaves no `id` at the front of the vector. -/
theorem purgeLoop1_total (id : Int) : ∀ (fuel : Nat) (s : PurgeBuffer) (idx : Int),
    s.m_buffer.length < fuel → 0 ≤ s.m_index → s.m_index ≤ s.m_buffer.length →
    ((idx = -1 ∧ ∀ j : Nat, s.m_buffer[j]? ≠ some id) ∨
      (∃ k : Nat, idx = k ∧ k < s.m_buffer.length ∧ s.m_buffer[k]? = some id ∧
        ∀ j : Nat, j < k → s.m_buffer[j]? ≠ some id)) →
    ∃ s1, purgeLoop1 id fuel s idx = some s1 ∧ 0 ≤ s1.m_index ∧
      s1.m_index ≤ s1.m_buffer.length ∧ s1.m_buffer.length ≤ s.m_buffer.length ∧
      s1.m_buffer[0]? ≠ some id := by
  intro fuel
  induction fuel with
  | zero => intro s idx h; omega
  | succ fuel ih =>
    intro s idx hfuel h0 hle hidx
    rcases hidx with ⟨hi, hall⟩ | ⟨k, hi, hk, hat, hbelow⟩
    · refine ⟨s, ?_, h0, hle, le_refl _, hall 0⟩
      have h1 : idx ≤ s.m_index := by omega
      have h2 : idx < 0 := by omega
      simp [purgeLoop1, h1, h2]
    · by_cases hc : idx ≤ s.m_index
      · have h2 : ¬ idx < 0 := by omega
        have hrem := QVector.remove_eq_some s.m_buffer idx (by omega) (by omega)
        have hlen : (s.m_buffer.eraseIdx idx.toNat).length = s.m_buffer.length - 1 := by
          rw [List.length_eraseIdx, if_pos (by omega)]
        have hget : ∀ j : Nat, j < k →
            (s.m_buffer.eraseIdx idx.toNat)[j]? ≠ some id := by
          intro j hj
          rw [List.getElem?_eraseIdx, if_pos (by omega)]
          exact hbelow j hj
        obtain ⟨s1, hs1, a, b, c, d⟩ := ih
          ⟨s.m_buffer.eraseIdx idx.toNat, if s.m_index > 0 then s.m_index - 1 else s.m_index⟩
          (QVector.indexOf (s.m_buffer.eraseIdx idx.toNat) id idx)
          (by simp only [hlen]; omega)
          (by simp only; split_ifs <;> omega)
          (by simp only [hlen]; split_ifs <;> omega)
          (by
            simp only
            rcases QVector.indexOf_spec (s.m_buffer.eraseIdx idx.toNat) id idx (by omega) with
              ⟨e1, e2⟩ | ⟨k2, f1, f2, f3, f4, f5⟩
            · left
              refine ⟨e1, ?_⟩
              intro j
              by_cases hj : j < k
              · exact hget j hj
              · exact e2 j (by omega)
            · right
              refine ⟨k2, f3, f2, f4, ?_⟩
              intro j hj
              by_cases hjk : j < k
              · exact hget j hjk
              · exact f5 j (by omega) hj)
        refine ⟨s1, ?_, a, b, ?_, d⟩
        · simp only [purgeLoop1, hc, h2, if_true, if_false, hrem]
          exact hs1
        · simp only [hlen] at c; omega
      · refine ⟨s, ?_, h0, hle, le_refl _, hbelow 0 (by omega)⟩
        simp [purgeLoop1, hc]

/-- The second loop of `purge` ends without a bad access when no `id` is at the front of
the vector; it leaves `m_index` within the vector. -/
theorem purgeLoop2_total (id : Int) : ∀ (fuel : Nat) (s : PurgeBuffer),
    s.m_buffer.length < fuel → 0 ≤ s.m_index → s.m_index ≤ s.m_buffer.length →
    s.m_buffer[0]? ≠ some id →
    ∃ s1, purgeLoop2 id fuel s = some s1 ∧ s1.m_index = s.m_index ∧
      s1.m_index ≤ s1.m_buffer.length ∧ s1.m_buffer.length ≤ s.m_buffer.length := by
  intro fuel
  induction fuel with
  | zero => intro s h; omega
  | succ fuel ih =>
    intro s hfuel h0 hle hhead
    by_cases hc : QVector.indexOf s.m_buffer id s.m_index > -1
    · rcases QVector.indexOf_spec s.m_buffer id s.m_index h0 with
        ⟨e1, _⟩ | ⟨k, f1, f2, _, f4, _⟩
      · omega
      · have hk : k ≠ 0 := by
          intro e
          rw [e] at f4
          exact hhead f4
        have hrem := QVector.remove_eq_some s.m_buffer 1 (by omega) (by omega)
        have hlen : (s.m_buffer.eraseIdx (1 : Int).toNat).length = s.m_buffer.length - 1 := by
          rw [List.length_eraseIdx, if_pos (by simp; omega)]
        obtain ⟨s1, hs1, a, b, c⟩ := ih ⟨s.m_buffer.eraseIdx (1 : Int).toNat, s.m_index⟩
          (by simp only [hlen]; omega) h0 (by simp only [hlen]; omega)
          (by
            simp only
            rw [List.getElem?_eraseIdx, if_pos (by simp)]
            exact hhead)
        refine ⟨s1, ?_, a, b, ?_⟩
        · simp only [purgeLoop2, hc, if_true, hrem]
          simpa using hs1
        · simp only [hlen] at c; omega
    · refine ⟨s, ?_, rfl, hle, le_refl _⟩
      simp [purgeLoop2, hc]

/-- From a buffer whose index lies within the vector, `purge` ends without a bad access
and keeps the index within the vector; the vector does not grow. -/
theorem purge_total (s : PurgeBuffer) (id : Int)
    (h0 : 0 ≤ s.m_index) (hle : s.m_index ≤ s.m_buffer.length) :
    ∃ s1, purge s id = some s1 ∧ 0 ≤ s1.m_index ∧ s1.m_index ≤ s1.m_buffer.length ∧
      s1.m_buffer.length ≤ s.m_buffer.length := by
  have hidx : (QVector.indexOf s.m_buffer id 0 = -1 ∧ ∀ j : Nat, s.m_buffer[j]? ≠ some id) ∨
      (∃ k : Nat, QVector.indexOf s.m_buffer id 0 = k ∧ k < s.m_buffer.length ∧
        s.m_buffer[k]? = some id ∧ ∀ j : Nat, j < k → s.m_buffer[j]? ≠ some id) := by
    rcases QVector.indexOf_spec s.m_buffer id 0 (le_refl _) with
      ⟨e1, e2⟩ | ⟨k, _, f2, f3, f4, f5⟩
    · exact Or.inl ⟨e1, fun j => e2 j (by omega)⟩
    · exact Or.inr ⟨k, f3, f2, f4, fun j hj => f5 j (by omega) hj⟩
  obtain ⟨s1, hs1, a, b, c, d⟩ :=
    purgeLoop1_total id (s.m_buffer.length + 1) s _ (by omega) h0 hle hidx
  obtain ⟨s2, hs2, a2, b2, c2⟩ :=
    purgeLoop2_total id (s1.m_buffer.length + 1) s1 (by omega) a b d
  refine ⟨s2, ?_, by omega, b2, by omega⟩
  simp only [purge, hs1]
  exact hs2

/-- From a buffer within its bounds, `buffer` ends without a bad access and leaves the
buffer within its bounds. -/
theorem buffer_total (M : Int) (hM : 0 < M) (s : PurgeBuffer) (id : Int) (h : InBounds M s) :
    ∃ b s1, buffer M s id = some (b, s1) ∧ InBounds M s1 := by
  obtain ⟨h0, hle, hmax⟩ := h
  by_cases hfull : (s.m_buffer.length : Int) = M
  · have hmi0 : 0 ≤ (if s.m_index = M then 0 else s.m_index) := by split_ifs <;> omega
    have hmi1 : (if s.m_index = M then 0 else s.m_index) < s.m_buffer.length := by
      split_ifs <;> omega
    obtain ⟨x, hx⟩ : ∃ x, QVector.value s.m_buffer (if s.m_index = M then 0 else s.m_index)
        = some x := by
      unfold QVector.value
      rw [if_pos hmi0]
      exact ⟨_, List.getElem?_eq_getElem (by omega)⟩
    have hrem := QVector.remove_eq_some s.m_buffer _ hmi0 hmi1
    have hlen : (s.m_buffer.eraseIdx (if s.m_index = M then 0 else s.m_index).toNat).length
        = s.m_buffer.length - 1 := by
      rw [List.length_eraseIdx, if_pos (by omega)]
    obtain ⟨s1, hs1, a, b, c⟩ := purge_total
      ⟨s.m_buffer.eraseIdx (if s.m_index = M then 0 else s.m_index).toNat,
        if s.m_index = M then 0 else s.m_index⟩ id hmi0 (by simp only [hlen]; omega)
    simp only [hlen] at c
    have hins := QVector.insert_eq_some s1.m_buffer s1.m_index id a b
    refine ⟨x, ⟨s1.m_buffer.take s1.m_index.toNat ++ id :: s1.m_buffer.drop s1.m_index.toNat,
      s1.m_index + 1⟩, ?_, ?_⟩
    · simp only [buffer, hfull, if_true, hx, hrem, hs1, hins]
    · refine ⟨by simp only; omega, ?_, ?_⟩ <;>
        simp only [List.length_append, List.length_take, List.length_cons, List.length_drop] <;>
        omega
  · obtain ⟨s1, hs1, a, b, c⟩ := purge_total
      ⟨s.m_buffer, if s.m_index = M then 0 else s.m_index⟩ id
      (by simp only; split_ifs <;> omega) (by simp only; split_ifs <;> omega)
    simp only at c
    have hins := QVector.insert_eq_some s1.m_buffer s1.m_index id a b
    refine ⟨-1, ⟨s1.m_buffer.take s1.m_index.toNat ++ id :: s1.m_buffer.drop s1.m_index.toNat,
      s1.m_index + 1⟩, ?_, ?_⟩
    · simp only [buffer, hfull, if_false, hs1, hins]
    · refine ⟨by simp only; omega, ?_, ?_⟩ <;>
        simp only [List.length_append, List.length_take, List.length_cons, List.length_drop] <;>
        omega

/-- Every call keeps the buffer within its bounds. -/
theorem step_total (M : Int) (hM : 0 < M) (s : PurgeBuffer) (c : Call) (h : InBounds M s) :
    ∃ s1, step M s c = some s1 ∧ InBounds M s1 := by
  cases c with
  | buffer id =>
    obtain ⟨b, s1, hs1, h1⟩ := buffer_total M hM s id h
    exact ⟨s1, by simp [step, hs1], h1⟩
  | purge id =>
    obtain ⟨h0, hle, hmax⟩ := h
    obtain ⟨s1, hs1, a, b, c⟩ := purge_total s id h0 hle
    exact ⟨s1, by simp [step, hs1], a, b, by omega⟩

theorem run_total (M : Int) (hM : 0 < M) (calls : List Call) :
    ∀ s, InBounds M s → ∃ s1, run M calls s = some s1 ∧ InBounds M s1 := by
  induction calls with
  | nil => intro s h; exact ⟨s, rfl, h⟩
  | cons c cs ih =>
    intro s h
    obtain ⟨s1, hs1, h1⟩ := step_total M hM s c h
    obtain ⟨s2, hs2, h2⟩ := ih s1 h1
    exact ⟨s2, by simp [run, hs1, hs2], h2⟩

/-- C7: for a positive `MAXBUFFERSIZE`, every sequence of `buffer()` and `purge()` calls
from the empty buffer runs to its end (no call leaves the bounds of the vector or loops
forever) and the ring buffer then holds at most `MAXBUFFERSIZE` ids. -/
theorem ring_buffer_size_le_max (M : Int) (hM : 0 < M) (calls : List Call) :
    ∃ s, run M calls empty = some s ∧ (s.m_buffer.length : Int) ≤ M := by
  obtain ⟨s, hs, _, _, h⟩ := run_total M hM calls empty
    ⟨le_refl _, by simp [empty], by simp [empty]; omega⟩
  exact ⟨s, hs, h⟩

theorem ring_buffer_size_le_max_witness :
    ∃ s, run 10 [Call.buffer 1, Call.buffer 2, Call.purge 1, Call.buffer 2] empty = some s ∧
      (s.m_buffer.length : Int) ≤ 10 :=
  ring_buffer_size_le_max 10 (by decide) _

end PurgeBuffer

end Akonadi

/-! ## Eviction order of the ring buffer -/

namespace Akonadi

namespace PurgeBuffer

/-- Purging an id that is not buffered changes nothing. -/
theorem purge_of_not_mem (s : PurgeBuffer) (id : Int) (h : id ∉ s.m_buffer) :
    purge s id = some s := by
  have e0 := QVector.indexOf_of_not_mem s.m_buffer id 0 h
  have e1 := QVector.indexOf_of_not_mem s.m_buffer id s.m_index h
  have l1 : purgeLoop1 id (s.m_buffer.length + 1) s (-1) = some s := by
    simp only [purgeLoop1]
    split_ifs <;> first | rfl | omega
  have l2 : purgeLoop2 id (s.m_buffer.length + 1) s = some s := by
    simp [purgeLoop2, e1]
  simp only [purge, e0, l1, l2]

/-- A buffer that is not full and has its index at the end takes an id that is not buffered
at the end; `-1` is returned. -/
theorem buffer_grow (M : Nat) (newer : List Int) (x : Int) (hx : x ∉ newer)
    (hlt : newer.length < M) :
    buffer M ⟨newer, newer.length⟩ x = some (-1, ⟨newer ++ [x], (newer.length : Int) + 1⟩) := by
  have hlen : ¬ ((newer.length : Int) = M) := by omega
  have hpurge : purge ⟨newer, newer.length⟩ x = some ⟨newer, newer.length⟩ :=
    purge_of_not_mem _ x hx
  have hi : QVector.insert newer newer.length x = some (newer ++ [x]) := by
    simp [QVector.insert]
  simp only [buffer, hlen, if_false, hpurge, hi]

/-- A full buffer whose index has reached `MAXBUFFERSIZE` wraps: the id at the front is
returned and replaced by an id that is not buffered. -/
theorem buffer_wrap (M : Nat) (h : Int) (t : List Int) (x : Int) (hx : x ∉ t)
    (hlen : (h :: t).length = M) :
    buffer M ⟨h :: t, M⟩ x = some (h, ⟨x :: t, 1⟩) := by
  have hl : ((h :: t).length : Int) = M := by rw [hlen]
  have hpurge : purge ⟨t, 0⟩ x = some ⟨t, 0⟩ := purge_of_not_mem ⟨t, 0⟩ x hx
  simp only [buffer, hl, if_true]
  simp [QVector.value, QVector.remove, QVector.insert, hpurge]

/-- A full buffer whose index is inside the vector: the id at the index is returned and
replaced by an id that is not buffered. -/
theorem buffer_mid (M : Nat) (newer : List Int) (o : Int) (os : List Int) (x : Int)
    (hxn : x ∉ newer) (hxo : x ∉ os) (hlen : (newer ++ o :: os).length = M) :
    buffer M ⟨newer ++ o :: os, newer.length⟩ x
      = some (o, ⟨newer ++ x :: os, (newer.length : Int) + 1⟩) := by
  have hl : ((newer ++ o :: os).length : Int) = M := by rw [hlen]
  have hne : ¬ ((newer.length : Int) = M) := by
    simp at hlen; omega
  have hpurge : purge ⟨newer ++ os, newer.length⟩ x = some ⟨newer ++ os, newer.length⟩ :=
    purge_of_not_mem _ x (by
      simp only [List.mem_append, not_or]
      exact ⟨hxn, hxo⟩)
  have hv : QVector.value (newer ++ o :: os) newer.length = some o := by
    have : (newer ++ o :: os)[newer.length]? = some o := by
      rw [List.getElem?_append_right (le_refl _)]; simp
    simpa [QVector.value] using this
  have hr : QVector.remove (newer ++ o :: os) newer.length = some (newer ++ os) := by
    simp [QVector.remove, List.take_append_eq_append_take, List.drop_append_eq_append_drop]
  have hi : QVector.insert (newer ++ os) newer.length x = some (newer ++ x :: os) := by
    simp [QVector.insert, List.take_append_eq_append_take, List.drop_append_eq_append_drop]
  simp only [buffer, hl, if_true, hne, if_false, hv, hr, hpurge, hi]

/-- One `buffer( x )` call on a buffer laid out as `newer ++ older` with the insertion index
behind `newer`, for an id `x` that is not buffered: a full buffer loses its oldest id, which
is returned; a buffer that is not full loses nothing and `-1` is returned. The new buffer
is laid out in the same way. -/
theorem buffer_layout (M : Nat) (hM : 0 < M) (older newer : List Int) (x : Int)
    (hx : x ∉ older ++ newer)
    (hsize : (older ++ newer).length = M ∨ (older = [] ∧ newer.length < M)) :
    ∃ b older1 newer1,
      buffer M ⟨newer ++ older, newer.length⟩ x
        = some (b, ⟨newer1 ++ older1, newer1.length⟩) ∧
      ((older ++ newer).length = M → b :: (older1 ++ newer1) = older ++ newer ++ [x]) ∧
      ((older ++ newer).length < M → b = -1 ∧ older1 ++ newer1 = older ++ newer ++ [x]) ∧
      ((older1 ++ newer1).length = M ∨ (older1 = [] ∧ newer1.length < M)) := by
  have hxo : x ∉ older := fun h => hx (List.mem_append_left _ h)
  have hxn : x ∉ newer := fun h => hx (List.mem_append_right _ h)
  rcases hsize with hfull | ⟨ho, hlt⟩
  · cases older with
    | nil =>
      cases newer with
      | nil => simp at hfull; omega
      | cons h t =>
        refine ⟨h, t, [x], ?_, ?_, ?_, ?_⟩
        · have hlen : (h :: t).length = M := by simpa using hfull
          have := buffer_wrap M h t x (fun hm => hxn (List.mem_cons_of_mem _ hm)) hlen
          rw [← hlen] at this ⊢
          simpa using this
        · intro _; simp
        · intro hlt; simp at hfull hlt; omega
        · left; simp at hfull ⊢; omega
    | cons o os =>
      refine ⟨o, os, newer ++ [x], ?_, ?_, ?_, ?_⟩
      · have hlen : (newer ++ o :: os).length = M := by
          rw [← hfull]; simp; omega
        have := buffer_mid M newer o os x hxn (fun hm => hxo (List.mem_cons_of_mem _ hm)) hlen
        simpa using this
      · intro _; simp
      · intro hlt; omega
      · left; simp at hfull ⊢; omega
  · subst ho
    refine ⟨-1, [], newer ++ [x], ?_, ?_, ?_, ?_⟩
    · simpa using buffer_grow M newer x hxn hlt
    · intro h; simp at h; omega
    · intro _; simp
    · by_cases h : newer.length + 1 = M
      · left; simp; omega
      · right; simp; omega

/-- A run of `buffer()` calls on ids that are distinct from each other and from the buffered
ids: the first calls, as long as the buffer is not full, return `-1`; every later call
returns the oldest id. The final buffer holds the youngest ids. -/
theorem bufferAll_layout (M : Nat) (hM : 0 < M) : ∀ (ids older newer : List Int),
    (older ++ newer ++ ids).Nodup →
    ((older ++ newer).length = M ∨ (older = [] ∧ newer.length < M)) →
    ∃ s, bufferAll M ids ⟨newer ++ older, newer.length⟩
        = some (List.replicate (min ids.length (M - (older ++ newer).length)) (-1)
            ++ (older ++ newer ++ ids).take (ids.length - (M - (older ++ newer).length)), s) ∧
      s.m_buffer.Perm
        ((older ++ newer ++ ids).drop ((older ++ newer).length + ids.length - M)) := by
  intro ids
  induction ids with
  | nil =>
    intro older newer _ hsize
    refine ⟨⟨newer ++ older, newer.length⟩, by simp [bufferAll], ?_⟩
    have : (older ++ newer).length + ([] : List Int).length - M = 0 := by
      rcases hsize with h | ⟨h1, h2⟩
      · simp at h ⊢; omega
      · subst h1; simp; omega
    rw [this]
    simpa using List.perm_append_comm
  | cons x ids ih =>
    intro older newer hnd hsize
    have hx : x ∉ older ++ newer := by
      intro hm
      have := List.nodup_append.mp hnd
      exact this.2.2 hm (by simp)
    obtain ⟨b, older1, newer1, hb, hfull, hnot, hsize1⟩ :=
      buffer_layout M hM older newer x hx hsize
    have hlist : ∃ pre, older ++ newer ++ x :: ids = pre ++ (older1 ++ newer1 ++ ids) ∧
        (pre = [b] ∧ (older ++ newer).length = M ∨
          pre = [] ∧ b = -1 ∧ (older ++ newer).length < M) := by
      rcases hsize with h | ⟨h1, h2⟩
      · refine ⟨[b], ?_, Or.inl ⟨rfl, h⟩⟩
        have := hfull h
        calc older ++ newer ++ x :: ids = (older ++ newer ++ [x]) ++ ids := by simp
          _ = (b :: (older1 ++ newer1)) ++ ids := by rw [this]
          _ = [b] ++ (older1 ++ newer1 ++ ids) := by simp
      · have hl : (older ++ newer).length < M := by subst h1; simpa using h2
        refine ⟨[], ?_, Or.inr ⟨rfl, (hnot hl).1, hl⟩⟩
        have := (hnot hl).2
        calc older ++ newer ++ x :: ids = (older ++ newer ++ [x]) ++ ids := by simp
          _ = [] ++ (older1 ++ newer1 ++ ids) := by rw [this]; simp
    obtain ⟨pre, hpre, hcase⟩ := hlist
    have hnd1 : (older1 ++ newer1 ++ ids).Nodup := by
      rw [hpre] at hnd
      exact (List.nodup_append.mp hnd).2.1
    obtain ⟨s, hs, hperm⟩ := ih older1 newer1 hnd1 hsize1
    refine ⟨s, ?_, ?_⟩
    · simp only [bufferAll, hb, hs]
      rcases hcase with ⟨hp, hc⟩ | ⟨hp, hb1, hc⟩
      · have hc1 : (older1 ++ newer1).length = M := by
          have := congrArg List.length (hfull hc)
          simp at this hc ⊢; omega
        rw [hpre, hp, hc, hc1]
        simp
      · have hc1 : (older1 ++ newer1).length = (older ++ newer).length + 1 := by
          have := congrArg List.length (hnot hc).2
          simp at this ⊢; omega
        rw [hpre, hp, hc1, hb1]
        have e1 : min (x :: ids).length (M - (older ++ newer).length)
            = min ids.length (M - ((older ++ newer).length + 1)) + 1 := by
          simp only [List.length_cons]; omega
        have e2 : (x :: ids).length - (M - (older ++ newer).length)
            = ids.length - (M - ((older ++ newer).length + 1)) := by
          simp only [List.length_cons]; omega
        rw [e1, e2, List.replicate_succ]
        simp
    · rcases hcase with ⟨hp, hc⟩ | ⟨hp, hb1, hc⟩
      · have hc1 : (older1 ++ newer1).length = M := by
          have := congrArg List.length (hfull hc)
          simp at this hc ⊢; omega
        rw [hpre, hp, hc]
        rw [hc1] at hperm
        have e : M + (x :: ids).length - M = (M + ids.length - M) + 1 := by
          simp only [List.length_cons]; omega
        rw [e]
        simpa using hperm
      · have hc1 : (older1 ++ newer1).length = (older ++ newer).length + 1 := by
          have := congrArg List.length (hnot hc).2
          simp at this ⊢; omega
        rw [hpre, hp]
        rw [hc1] at hperm
        have e : (older ++ newer).length + (x :: ids).length - M
            = (older ++ newer).length + 1 + ids.length - M := by
          simp only [List.length_cons]; omega
        rw [e]
        simpa using hperm

/-- C9: for a positive `MAXBUFFERSIZE` and pairwise distinct ids `d1, d2, ...`, the
`buffer()` calls for these ids, one after the other from the empty buffer, all return: the
first `MAXBUFFERSIZE` calls return `-1`, and call `k > MAXBUFFERSIZE` returns
`d(k - MAXBUFFERSIZE)`, the oldest buffered id. Nothing else is evicted: the final buffer
holds exactly the last `MAXBUFFERSIZE` ids (all of them when there are fewer). -/
theorem buffer_returns_oldest (M : Nat) (hM : 0 < M) (ds : List Int) (hd : ds.Nodup) :
    ∃ s, bufferAll M ds empty
        = some (List.replicate (min ds.length M) (-1) ++ ds.take (ds.length - M), s) ∧
      s.m_buffer.Perm (ds.drop (ds.length - M)) := by
  have h := bufferAll_layout M hM ds [] [] (by simpa using hd) (Or.inr ⟨rfl, by simpa using hM⟩)
  simpa [empty] using h

theorem buffer_returns_oldest_witness :
    ∃ s, bufferAll (3 : Nat) [7, 8, 9, 10, 11] empty
        = some (List.replicate (min [7, 8, 9, 10, 11].length 3) (-1)
            ++ [7, 8, 9, 10, 11].take ([7, 8, 9, 10, 11].length - 3), s) ∧
      s.m_buffer.Perm ([7, 8, 9, 10, 11].drop ([7, 8, 9, 10, 11].length - 3)) :=
  buffer_returns_oldest 3 (by decide) [7, 8, 9, 10, 11] (by decide)

end PurgeBuffer

end Akonadi

/-! ## The grace buffer and the reference counts: where `purge` and `deref` go wrong -/

namespace Akonadi

namespace PurgeBuffer

/-- An occurrence at or behind the start position is found. -/
theorem indexOf_found (v : List Int) (t frm : Int) (k : Nat) (hf : 0 ≤ frm) (hk : frm ≤ k)
    (hat : v[k]? = some t) : QVector.indexOf v t frm > -1 := by
  rcases QVector.indexOf_spec v t frm hf with ⟨_, e2⟩ | ⟨k2, _, _, f3, _, _⟩
  · exact absurd hat (e2 k hk)
  · omega

/-- Without wrap-around the index stays at the end of the vector: ids that are not
buffered are appended. -/
theorem run_grow (M : Nat) : ∀ (ids pre : List Int), (pre ++ ids).Nodup →
    (pre ++ ids).length ≤ M →
    run M (ids.map Call.buffer) ⟨pre, pre.length⟩
      = some ⟨pre ++ ids, ((pre ++ ids).length : Nat)⟩ := by
  intro ids
  induction ids with
  | nil => intro pre _ _; simp [run]
  | cons x ids ih =>
    intro pre hnd hlen
    have hx : x ∉ pre := by
      intro hm
      exact (List.nodup_append.mp hnd).2.2 hm (by simp)
    have hg := buffer_grow M pre x hx (by simp at hlen; omega)
    have hcast : ((pre.length : Int) + 1) = ((pre ++ [x]).length : Nat) := by simp
    rw [hcast] at hg
    have := ih (pre ++ [x]) (by simpa using hnd) (by simpa using hlen)
    simp only [List.map_cons, run, step, hg, Option.map_some']
    simpa using this

/-- The second loop of `purge` with `m_index = 2` and the only occurrence of `x` at the end
of the vector: index `1` is removed until `x` itself has arrived at index `1`, where the
search from `m_index` no longer sees it. -/
theorem purgeLoop2_slip (x y : Int) : ∀ (rest : List Int) (fuel : Nat), rest.length < fuel →
    purgeLoop2 x fuel ⟨y :: rest ++ [x], 2⟩ = some ⟨[y, x], 2⟩ := by
  intro rest
  induction rest with
  | nil =>
    intro fuel hf
    cases fuel with
    | zero => simp at hf
    | succ f => simp [purgeLoop2, QVector.indexOf]
  | cons r rs ih =>
    intro fuel hf
    cases fuel with
    | zero => simp at hf
    | succ f =>
      have hfound : QVector.indexOf (y :: (r :: rs) ++ [x]) x 2 > -1 := by
        apply indexOf_found _ x 2 (rs.length + 2) (by omega) (by push_cast; omega)
        have : (y :: r :: (rs ++ [x]))[rs.length + 2]? = (rs ++ [x])[rs.length]? := by
          simp
        simp only [List.cons_append]
        rw [this, List.getElem?_append_right (le_refl _)]
        simp
      have hrem : QVector.remove (y :: (r :: rs) ++ [x]) 1 = some (y :: rs ++ [x]) := by
        unfold QVector.remove
        rw [if_pos ⟨by omega, by simp; omega⟩]
        simp
      have := ih f (by simp at hf; omega)
      simp only [purgeLoop2, hfound, if_true, hrem]
      simpa using this

/-- The slip of `purge`: with `m_index = 2` and the only occurrence of `x` behind index `2`,
`purge( x )` removes every id between the front and `x` and leaves `x` in the buffer. -/
theorem purge_slip (x y z : Int) (mid : List Int) (hmid : mid ≠ [])
    (hnd : (y :: z :: mid ++ [x]).Nodup) :
    purge ⟨y :: z :: mid ++ [x], 2⟩ x = some ⟨[y, x], 2⟩ := by
  have hxy : y ≠ x := by
    intro e; subst e
    simp at hnd
  have hxz : z ≠ x := by
    intro e; subst e
    simp at hnd
  have hxm : x ∉ mid := by
    intro hm
    have h := hnd
    simp only [List.cons_append, List.nodup_cons] at h
    exact (List.nodup_append.mp h.2.2).2.2 hm (by simp)
  obtain ⟨m0, ms, rfl⟩ := List.exists_cons_of_ne_nil hmid
  have hm0 : m0 ≠ x := fun e => hxm (by simp [e])
  have hl1 : purgeLoop1 x ((y :: z :: (m0 :: ms) ++ [x]).length + 1)
      ⟨y :: z :: (m0 :: ms) ++ [x], 2⟩ (QVector.indexOf (y :: z :: (m0 :: ms) ++ [x]) x 0)
      = some ⟨y :: z :: (m0 :: ms) ++ [x], 2⟩ := by
    rcases QVector.indexOf_spec (y :: z :: (m0 :: ms) ++ [x]) x 0 (le_refl _) with
      ⟨e1, _⟩ | ⟨k, _, _, f3, f4, _⟩
    · rw [e1]; simp [purgeLoop1]
    · rw [f3]
      have hk : 2 < k := by
        rcases k with _ | _ | _ | k
        · simp at f4; exact absurd f4 hxy
        · simp at f4; exact absurd f4 hxz
        · simp at f4; exact absurd f4 hm0
        · omega
      have : ¬ ((k : Int) ≤ 2) := by omega
      simp [purgeLoop1, this]
  have hl2 := purgeLoop2_slip x y (z :: m0 :: ms)
    ((y :: z :: (m0 :: ms) ++ [x]).length + 1) (by simp)
  simp only [purge, hl1]
  simpa using hl2

/-- For every `MAXBUFFERSIZE` from `4` on and pairwise distinct ids: after `buffer()` calls
for `MAXBUFFERSIZE + 2` ids from the empty buffer, the index is `2` and the oldest buffered
ids lie behind it; `purge( x )` for the youngest of them leaves `x` buffered. -/
theorem purge_misses_id (M : Nat) (a b x y z : Int) (mid : List Int) (hmid : mid ≠ [])
    (hM : M = mid.length + 3) (hnd : (a :: b :: mid ++ [x, y, z]).Nodup) :
    ∃ s, run M ((a :: b :: mid ++ [x, y, z]).map Call.buffer) empty = some s ∧
      s = ⟨y :: z :: mid ++ [x], 2⟩ ∧
      purge s x = some ⟨[y, x], 2⟩ ∧ isBuffered ⟨[y, x], 2⟩ x = true := by
  have hsplit : (a :: b :: mid ++ [x, y, z]).map Call.buffer
      = (a :: b :: mid ++ [x]).map Call.buffer ++ [Call.buffer y, Call.buffer z] := by simp
  have hnd1 : (a :: b :: mid ++ [x]).Nodup := by
    have : (a :: b :: mid ++ [x, y, z]) = (a :: b :: mid ++ [x]) ++ [y, z] := by simp
    rw [this] at hnd
    exact (List.nodup_append.mp hnd).1
  have hlen1 : (a :: b :: mid ++ [x]).length = M := by simp; omega
  have h1 := run_grow M (a :: b :: mid ++ [x]) [] (by simpa using hnd1) (by simp; omega)
  have hmem : ∀ w ∈ (a :: b :: mid ++ [x]), w ≠ y ∧ w ≠ z := by
    intro w hw
    have : (a :: b :: mid ++ [x, y, z]) = (a :: b :: mid ++ [x]) ++ [y, z] := by simp
    rw [this] at hnd
    have hd := (List.nodup_append.mp hnd).2.2
    exact ⟨fun e => hd hw (by simp [e]), fun e => hd hw (by simp [e])⟩
  have hyz : y ≠ z := by
    have : (a :: b :: mid ++ [x, y, z]) = (a :: b :: mid ++ [x]) ++ [y, z] := by simp
    rw [this] at hnd
    have := (List.nodup_append.mp hnd).2.1
    simpa using this
  have h2 := buffer_wrap M a (b :: mid ++ [x]) y
    (fun hm => (hmem y (List.mem_cons_of_mem _ hm)).1 rfl) (by simpa using hlen1)
  have h3 := buffer_mid M [y] b (mid ++ [x]) z (by simpa using hyz.symm)
    (fun hm => (hmem z (List.mem_cons_of_mem _ (List.mem_cons_of_mem _ hm))).2 rfl)
    (by simp at hlen1 ⊢; omega)
  have hrun : run M ((a :: b :: mid ++ [x, y, z]).map Call.buffer) empty
      = some ⟨y :: z :: mid ++ [x], 2⟩ := by
    have e1 : run M ((a :: b :: mid ++ [x]).map Call.buffer) empty
        = some ⟨a :: b :: mid ++ [x], (M : Nat)⟩ := by
      have := h1
      simp only [List.nil_append, List.length_nil] at this
      rw [hlen1] at this
      exact this
    have happ : ∀ (c1 c2 : List Call) (s s1 : PurgeBuffer), run M c1 s = some s1 →
        run M (c1 ++ c2) s = run M c2 s1 := by
      intro c1
      induction c1 with
      | nil => intro c2 s s1 h; simp [run] at h; subst h; rfl
      | cons c cs ih =>
        intro c2 s s1 h
        simp only [List.cons_append, run] at h ⊢
        cases hs : step M s c with
        | none => simp [hs] at h
        | some s2 => simp only [hs] at h ⊢; exact ih c2 s2 s1 h
    rw [hsplit, happ _ _ _ _ e1]
    have h3' : buffer M ⟨y :: b :: mid ++ [x], 1⟩ z
        = some (b, ⟨y :: z :: mid ++ [x], 2⟩) := by
      simpa using h3
    simp only [List.cons_append] at h2 h3'
    simp [run, step, h2, h3']
  have hnd2 : (y :: z :: mid ++ [x]).Nodup := by
    have hsub : (y :: z :: mid ++ [x]).Perm (mid ++ [x] ++ [y, z]) := by
      have : y :: z :: mid ++ [x] = [y, z] ++ (mid ++ [x]) := by simp
      rw [this]
      exact List.perm_append_comm
    have hnd3 : (mid ++ [x] ++ [y, z]).Nodup := by
      have : (a :: b :: mid ++ [x, y, z]) = [a, b] ++ (mid ++ [x] ++ [y, z]) := by simp
      rw [this] at hnd
      exact (List.nodup_append.mp hnd).2.1
    exact hsub.nodup_iff.mpr hnd3
  exact ⟨_, hrun, rfl, purge_slip x y z mid hmid hnd2, by simp [isBuffered, QVector.contains]⟩

/-- For every `MAXBUFFERSIZE` from `5` on: in the state of `purge_misses_id`, the call
`buffer( x )` for the youngest of the ids behind the index evicts the id at the index,
fails to purge `x` and inserts it a second time. -/
theorem buffer_duplicates_id (M : Nat) (x y z m0 m1 : Int) (ms : List Int)
    (hM : M = ms.length + 5) (hnd : (y :: z :: m0 :: m1 :: ms ++ [x]).Nodup) :
    buffer M ⟨y :: z :: m0 :: m1 :: ms ++ [x], 2⟩ x = some (m0, ⟨[y, x, x], 3⟩) := by
  have hl : ((y :: z :: m0 :: m1 :: ms ++ [x]).length : Int) = M := by
    simp; omega
  have hne : ¬ ((2 : Int) = M) := by omega
  have hnd2 : (y :: z :: (m1 :: ms) ++ [x]).Nodup := by
    have hsub : (y :: z :: (m1 :: ms) ++ [x]).Sublist (y :: z :: m0 :: m1 :: ms ++ [x]) := by
      simp only [List.cons_append]
      exact (List.Sublist.cons₂ _ (List.Sublist.cons₂ _ (List.sublist_cons_self _ _)))
    exact hnd.sublist hsub
  have hp := purge_slip x y z (m1 :: ms) (by simp) hnd2
  have hv : QVector.value (y :: z :: m0 :: m1 :: ms ++ [x]) 2 = some m0 := by
    simp [QVector.value]
  have hr : QVector.remove (y :: z :: m0 :: m1 :: ms ++ [x]) 2
      = some (y :: z :: (m1 :: ms) ++ [x]) := by
    unfold QVector.remove
    rw [if_pos ⟨by omega, by simp; omega⟩]
    simp
  have hi : QVector.insert [y, x] 2 x = some [y, x, x] := by
    simp [QVector.insert]
  simp only [buffer, hl, if_true, hne, if_false, hv, hr, hp, hi]
  rfl

/-- C6: with `MAXBUFFERSIZE = 10`, after `buffer( 1 )`, ..., `buffer( 12 )` from the empty
buffer the vector is `[11, 12, 3, ..., 10]` with `m_index = 2`; `buffer( 5 )` then evicts
`3`, the second loop of `purge` removes `12` and `4` (index `1`, twice) and stops with
`5` still in the vector, and the insert makes `5` occur twice. -/
theorem buffer_inserts_duplicate :
    run 10 [.buffer 1, .buffer 2, .buffer 3, .buffer 4, .buffer 5, .buffer 6, .buffer 7,
        .buffer 8, .buffer 9, .buffer 10, .buffer 11, .buffer 12] empty
      = some ⟨[11, 12, 3, 4, 5, 6, 7, 8, 9, 10], 2⟩ ∧
    buffer 10 ⟨[11, 12, 3, 4, 5, 6, 7, 8, 9, 10], 2⟩ 5
      = some (3, ⟨[11, 5, 5, 6, 7, 8, 9, 10], 3⟩) ∧
    List.count 5 [11, 5, 5, 6, 7, 8, 9, 10] = 2 := by
  refine ⟨by decide, by decide, by decide⟩

end PurgeBuffer

namespace MonitorPrivate

/-- Whatever the new count is, `deref( id )` returns what `m_buffer.buffer( id )` returns
and leaves the ring buffer as that call leaves it. -/
theorem deref_buffers {κ : Type} (M : Int) (d d1 : MonitorPrivate κ) (id b : Int)
    (h : deref M d id = some (b, d1)) :
    d.m_buffer.buffer M id = some (b, d1.m_buffer) := by
  unfold deref at h
  split_ifs at h
  cases hb : d.m_buffer.buffer M id with
  | none => simp [hb] at h
  | some r =>
    obtain ⟨b2, s2⟩ := r
    simp only [hb, Option.some.injEq, Prod.mk.injEq] at h
    obtain ⟨h1, h2⟩ := h
    subst h1
    subst h2
    rfl

/-- A call `ref( id )` that returns raises the count of `id` by one (from none to `1`). -/
theorem ref_increments {κ : Type} (d d1 : MonitorPrivate κ) (id : Int)
    (h : ref d id = some d1) :
    d1.refCountMap id = some (QHash.value d.refCountMap id + 1) := by
  unfold ref at h
  simp only at h
  cases hm : d.refCountMap id <;> cases hb : d.m_buffer.isBuffered id <;>
    cases hp : d.m_buffer.purge id <;>
    simp [QHash.contains, hm, hb, hp] at h <;>
    subst h <;>
    simp [QHash.insert, QHash.value, hm]

/-- C4: `deref` buffers the id whatever the new count is. From a new monitor, after
`ref( 1 ); ref( 1 ); deref( 1 )` the count of `1` is still `1` and `1` is in the ring
buffer; and after `ref( 0 ); ref( 0 )`, ten collections referenced and dereferenced once
(`MAXBUFFERSIZE = 10`), `deref( 0 )` returns the bumped-out id `1`, not `-1`, while the
count of `0` stays at `1`. -/
theorem deref_buffers_referenced_id :
    (refCalls 10 [.ref 1, .ref 1, .deref 1] Example.monitor).map
        (fun r => (r.1, r.2.refCountMap 1, r.2.m_buffer))
      = some ([-1], some 1, ⟨[1], 1⟩) ∧
    (refCalls 10 (.ref 0 :: .ref 0 :: Example.refDeref [1, 2, 3, 4, 5, 6, 7, 8, 9, 10]
          ++ [.deref 0]) Example.monitor).map
        (fun r => (r.1.getLast?, r.2.refCountMap 0, r.2.m_buffer))
      = some (some 1, some 1, ⟨[0, 2, 3, 4, 5, 6, 7, 8, 9, 10], 1⟩) := by
  refine ⟨by decide, by decide⟩

/-- C5: with `MAXBUFFERSIZE = 10`, after `ref( i ); deref( i )` for `i = 1, ..., 12` the
ring buffer is `[11, 12, 3, ..., 10]` with `m_index = 2`. The call `ref( 5 )` raises the
count of `5` from none to `1`, but `purge( 5 )` removes `12`, `3` and `4` and leaves `5`
in the buffer: `isBuffered( 5 )` is still true. -/
theorem ref_leaves_id_buffered :
    (refCalls 10 (Example.refDeref [1, 2, 3, 4, 5, 6, 7, 8, 9, 10, 11, 12])
        Example.monitor).map (fun r => (r.2.refCountMap 5, r.2.m_buffer))
      = some (none, ⟨[11, 12, 3, 4, 5, 6, 7, 8, 9, 10], 2⟩) ∧
    (refCalls 10 (Example.refDeref [1, 2, 3, 4, 5, 6, 7, 8, 9, 10, 11, 12] ++ [.ref 5])
        Example.monitor).map
        (fun r => (r.2.refCountMap 5, r.2.m_buffer, r.2.m_buffer.isBuffered 5))
      = some (some 1, ⟨[11, 5, 6, 7, 8, 9, 10], 2⟩, true) := by
  refine ⟨by decide, by decide⟩

set_option maxRecDepth 100000 in
/-- C8: with `MAXBUFFERSIZE = 10`, every `deref` below is on an id that `ref` has just
inserted and brings its count to zero. After `ref( i ); deref( i )` for `i = 1, ..., 12`
and `ref( 5 )`, the id `5` has count `1` and is still buffered; ten further collections
referenced and dereferenced once later, the last `deref` returns `5` as bumped out while
the count of `5` is `1`. -/
theorem deref_bumps_referenced_id :
    (refCalls 10 (Example.refDeref [1, 2, 3, 4, 5, 6, 7, 8, 9, 10, 11, 12] ++ [.ref 5]
          ++ Example.refDeref [13, 14, 15, 16, 17, 18, 19, 20, 21, 22])
        Example.monitor).map (fun r => (r.1.getLast?, r.2.refCountMap 5))
      = some (some 5, some 1) := by
  decide

end MonitorPrivate

end Akonadi

/-! ## The lazy-ignore filter and the rewriting of Move notifications -/

namespace Akonadi

namespace MonitorPrivate

/-- C3, as stated, fails: a referenced parent collection does not keep an item
notification from being lazily ignored. With collection `7` referenced once (count `1`),
statistics fetching off and no receiver on `itemAdded`, the Add of an item whose parent
collection is `7` is lazily ignored. -/
theorem referenced_collection_still_ignored :
    Example.refCounting.refCountMap 7 = some 1 ∧
    Example.refCounting.fetchCollectionStatistics = false ∧
    (Example.collaborators 0 true).receivers .itemAdded = 0 ∧
    (Example.itemMessage .Add 1 7 (-1)).type = .Item ∧
    (Example.itemMessage .Add 1 7 (-1)).operation = .Add ∧
    (Example.itemMessage .Add 1 7 (-1)).parentCollection = 7 ∧
    isLazilyIgnored (Example.collaborators 0 true) Example.refCounting
      (Example.itemMessage .Add 1 7 (-1)) = true := by
  decide

/-- C3, amended: for an Item notification (Add, Remove, Modify, Move, Link or Unlink, the
operations with an item signal) whose parent collection is a key of `refCountMap`,
`isLazilyIgnored` returns true exactly when `fetchCollectionStatistics` is off and the
signal of the operation has no receiver; it returns false whenever statistics are fetched
or the signal has a receiver. -/
theorem isLazilyIgnored_referenced {κ : Type} (env : Collaborators κ) (d : MonitorPrivate κ)
    (msg : NotificationMessage) (c n : Int) (sig : Signal)
    (href : d.refCountMap c = some n) (htype : msg.type = .Item)
    (hop : itemSignal msg.operation = some sig) (hparent : msg.parentCollection = c) :
    isLazilyIgnored env d msg
      = (!d.fetchCollectionStatistics && decide (env.receivers sig = 0)) := by
  have hc : QHash.contains d.refCountMap msg.parentCollection = true := by
    simp [QHash.contains, hparent, href]
  cases hmo : msg.operation <;> rw [hmo] at hop <;> simp only [itemSignal] at hop <;>
    cases hop <;>
    cases hf : d.fetchCollectionStatistics <;> cases hu : d.useRefCounting <;>
    simp [isLazilyIgnored, hmo, htype, hc, hf, hu]

theorem isLazilyIgnored_referenced_witness :
    isLazilyIgnored (Example.collaborators 1 true) Example.refCounting
        (Example.itemMessage .Move 1 7 8)
      = (!Example.refCounting.fetchCollectionStatistics
          && decide ((Example.collaborators 1 true).receivers .itemMoved = 0)) :=
  isLazilyIgnored_referenced (Example.collaborators 1 true) Example.refCounting
    (Example.itemMessage .Move 1 7 8) 7 1 .itemMoved (by decide) rfl rfl rfl

/-- C10: with reference counting enabled, for an Item Move whose source or destination
collection is watched (referenced or in the grace buffer), `appendAndCompress` hands to
`NotificationMessage::appendAndCompress( pendingNotifications, ... )`: the unchanged Move
when both are watched; the message turned into a Remove with destination `-1` (subject and
source parent kept) when only the source is watched; the message turned into an Add whose
parent is the original destination and whose destination is `-1` when only the destination
is watched. Nothing but `pendingNotifications` changes. -/
theorem appendAndCompress_move {κ : Type} (env : Collaborators κ) (d : MonitorPrivate κ)
    (msg : NotificationMessage) (href : d.useRefCounting = true)
    (hop : msg.operation = .Move) (htype : msg.type = .Item)
    (_hwatched : ((QHash.contains d.refCountMap msg.parentCollection
          || d.m_buffer.isBuffered msg.parentCollection)
        || (QHash.contains d.refCountMap msg.parentDestCollection
          || d.m_buffer.isBuffered msg.parentDestCollection)) = true) :
    appendAndCompress env d msg
      = { d with pendingNotifications := (env.compress d.pendingNotifications
            (if (QHash.contains d.refCountMap msg.parentCollection
                  || d.m_buffer.isBuffered msg.parentCollection)
                && (QHash.contains d.refCountMap msg.parentDestCollection
                  || d.m_buffer.isBuffered msg.parentDestCollection) then msg
             else if (QHash.contains d.refCountMap msg.parentCollection
                  || d.m_buffer.isBuffered msg.parentCollection) then
               { msg with operation := .Remove, parentDestCollection := -1 }
             else
               { msg with operation := .Add, parentCollection := msg.parentDestCollection,
                          parentDestCollection := -1 })) } := by
  cases hs : (QHash.contains d.refCountMap msg.parentCollection
      || d.m_buffer.isBuffered msg.parentCollection) <;>
    cases hd : (QHash.contains d.refCountMap msg.parentDestCollection
      || d.m_buffer.isBuffered msg.parentDestCollection) <;>
    simp only [appendAndCompress, href, hop, htype, hs, hd] <;> simp

theorem appendAndCompress_move_witness :
    appendAndCompress (Example.collaborators 1 true) Example.refCounting
        (Example.itemMessage .Move 1 7 8)
      = { Example.refCounting with pendingNotifications :=
            [{ Example.itemMessage .Move 1 7 8 with
                operation := .Remove, parentDestCollection := -1 }] } :=
  appendAndCompress_move (Example.collaborators 1 true) Example.refCounting
    (Example.itemMessage .Move 1 7 8) rfl rfl rfl (by decide)

end MonitorPrivate

end Akonadi

/-! ## The notification pipeline -/

namespace Akonadi

namespace MonitorPrivate

variable {κ : Type}

/-- The call `ensureDataAvailable` touches the caches only. -/
theorem ensureDataAvailable_frame (env : Collaborators κ) (d : MonitorPrivate κ)
    (msg : NotificationMessage) :
    (ensureDataAvailable env d msg).2.pipeline = d.pipeline ∧
    (ensureDataAvailable env d msg).2.emitted = d.emitted ∧
    (ensureDataAvailable env d msg).2.dequeued = d.dequeued := by
  unfold ensureDataAvailable
  simp only
  split_ifs <;> exact ⟨rfl, rfl, rfl⟩

/-- The loop of `dispatchNotifications`: the messages it dequeues are appended, in dequeue
order, to the emitted messages followed by the pipeline; the pipeline stays within
`PipelineSize`. -/
theorem dispatchLoop_trace (env : Collaborators κ) :
    ∀ (pending : List NotificationMessage) (d : MonitorPrivate κ),
    ∃ extra : List NotificationMessage,
      (dispatchLoop env pending d).emitted ++ (dispatchLoop env pending d).pipeline
        = d.emitted ++ d.pipeline ++ extra ∧
      (dispatchLoop env pending d).dequeued = d.dequeued ++ extra ∧
      ((d.pipeline.length : Int) ≤ PipelineSize →
        ((dispatchLoop env pending d).pipeline.length : Int) ≤ PipelineSize) := by
  intro pending
  induction pending with
  | nil => intro d; exact ⟨[], by simp [dispatchLoop], by simp [dispatchLoop], fun h => h⟩
  | cons msg rest ih =>
    intro d
    by_cases hlt : (d.pipeline.length : Int) < d.pipelineSize
    · have hf := ensureDataAvailable_frame env { d with dequeued := d.dequeued ++ [msg] } msg
      have hstep : dispatchLoop env (msg :: rest) d
          = if ((ensureDataAvailable env { d with dequeued := d.dequeued ++ [msg] } msg).1
              && (ensureDataAvailable env { d with dequeued := d.dequeued ++ [msg] }
                    msg).2.pipeline.isEmpty) = true then
              dispatchLoop env rest (emitNotification
                (ensureDataAvailable env { d with dequeued := d.dequeued ++ [msg] } msg).2 msg)
            else
              dispatchLoop env rest
                { (ensureDataAvailable env { d with dequeued := d.dequeued ++ [msg] } msg).2 with
                  pipeline := (ensureDataAvailable env
                    { d with dequeued := d.dequeued ++ [msg] } msg).2.pipeline ++ [msg] } := by
        simp only [dispatchLoop, hlt, if_true]
      generalize ensureDataAvailable env { d with dequeued := d.dequeued ++ [msg] } msg = r
        at hf hstep
      obtain ⟨hp, he, hd⟩ := hf
      simp only at hp he hd
      rw [hstep]
      by_cases hc : (r.1 && r.2.pipeline.isEmpty) = true
      · rw [if_pos hc]
        obtain ⟨extra, h1, h2, h3⟩ := ih (emitNotification r.2 msg)
        have hempty : d.pipeline = [] := by
          rw [Bool.and_eq_true, hp] at hc
          simpa using hc.2
        refine ⟨msg :: extra, ?_, ?_, ?_⟩
        · rw [h1]
          simp [emitNotification, hp, he, hempty]
        · rw [h2]
          simp [emitNotification, hd]
        · intro _
          apply h3
          simp [emitNotification, hp, hempty, PipelineSize]
      · rw [if_neg hc]
        obtain ⟨extra, h1, h2, h3⟩ := ih { r.2 with pipeline := r.2.pipeline ++ [msg] }
        refine ⟨msg :: extra, ?_, ?_, ?_⟩
        · rw [h1]
          simp [hp, he]
        · rw [h2]
          simp [hd]
        · intro _
          apply h3
          simp only [hp, List.length_append, List.length_singleton]
          simp only [pipelineSize] at hlt
          push_cast
          omega
    · exact ⟨[], by simp [dispatchLoop, hlt], by simp [dispatchLoop, hlt],
        fun h => by simpa [dispatchLoop, hlt] using h⟩

/-- The first loop of `dataAvailable`: messages move from the head of the pipeline to the
end of the emitted messages; nothing is dequeued. -/
theorem dataAvailableLoop_trace (env : Collaborators κ) :
    ∀ (pipeline : List NotificationMessage) (d : MonitorPrivate κ),
      (dataAvailableLoop env pipeline d).emitted ++ (dataAvailableLoop env pipeline d).pipeline
        = d.emitted ++ pipeline ∧
      (dataAvailableLoop env pipeline d).dequeued = d.dequeued ∧
      (dataAvailableLoop env pipeline d).pipeline.length ≤ pipeline.length := by
  intro pipeline
  induction pipeline with
  | nil => intro d; simp [dataAvailableLoop]
  | cons msg rest ih =>
    intro d
    have hf := ensureDataAvailable_frame env d msg
    have hstep : dataAvailableLoop env (msg :: rest) d
        = if (ensureDataAvailable env d msg).1 = true then
            dataAvailableLoop env rest (emitNotification
              { (ensureDataAvailable env d msg).2 with pipeline := rest } msg)
          else { (ensureDataAvailable env d msg).2 with pipeline := msg :: rest } := by
      simp only [dataAvailableLoop]
    generalize ensureDataAvailable env d msg = r at hf hstep
    obtain ⟨_, he, hd⟩ := hf
    rw [hstep]
    by_cases hc : r.1 = true
    · rw [if_pos hc]
      obtain ⟨h1, h2, h3⟩ := ih (emitNotification { r.2 with pipeline := rest } msg)
      refine ⟨?_, ?_, ?_⟩
      · rw [h1]; simp [emitNotification, he]
      · rw [h2]; simp [emitNotification, hd]
      · exact Nat.le_trans h3 (Nat.le_succ _)
    · rw [if_neg hc]
      simp [he, hd]

/-- The loop of `cleanOldNotifications` only removes messages. -/
theorem cleanLoop_sublist (accept : NotificationMessage → Bool)
    (equal : NotificationMessage → NotificationMessage → Bool) :
    ∀ (copy queue : List NotificationMessage),
      (cleanLoop accept equal copy queue).Sublist queue := by
  intro copy
  induction copy with
  | nil => intro queue; exact List.Sublist.refl _
  | cons msg rest ih =>
    intro queue
    simp only [cleanLoop]
    split_ifs
    · exact (ih _).trans (List.eraseP_sublist _)
    · exact ih _

/-- The loop of `slotNotify` touches neither the pipeline nor the traces. -/
theorem slotNotifyLoop_frame (env : Collaborators κ) :
    ∀ (msgs : List NotificationMessage) (d : MonitorPrivate κ),
      (slotNotifyLoop env msgs d).pipeline = d.pipeline ∧
      (slotNotifyLoop env msgs d).emitted = d.emitted ∧
      (slotNotifyLoop env msgs d).dequeued = d.dequeued := by
  intro msgs
  induction msgs with
  | nil => intro d; exact ⟨rfl, rfl, rfl⟩
  | cons msg rest ih =>
    intro d
    have h1 : (invalidateCaches env d msg).pipeline = d.pipeline ∧
        (invalidateCaches env d msg).emitted = d.emitted ∧
        (invalidateCaches env d msg).dequeued = d.dequeued := by
      unfold invalidateCaches
      simp only
      split_ifs <;> exact ⟨rfl, rfl, rfl⟩
    have h2 : ∀ e : MonitorPrivate κ, (updatePendingStatistics env e msg).pipeline = e.pipeline ∧
        (updatePendingStatistics env e msg).emitted = e.emitted ∧
        (updatePendingStatistics env e msg).dequeued = e.dequeued := by
      intro e
      unfold updatePendingStatistics
      simp only
      split_ifs <;> exact ⟨rfl, rfl, rfl⟩
    have h3 : ∀ e : MonitorPrivate κ, (appendAndCompress env e msg).pipeline = e.pipeline ∧
        (appendAndCompress env e msg).emitted = e.emitted ∧
        (appendAndCompress env e msg).dequeued = e.dequeued := by
      intro e
      unfold appendAndCompress
      simp only
      split_ifs <;> exact ⟨rfl, rfl, rfl⟩
    simp only [slotNotifyLoop]
    split_ifs
    · obtain ⟨a, b, c⟩ := ih (appendAndCompress env (updatePendingStatistics env
        (invalidateCaches env d msg) msg) msg)
      obtain ⟨a3, b3, c3⟩ := h3 (updatePendingStatistics env (invalidateCaches env d msg) msg)
      obtain ⟨a2, b2, c2⟩ := h2 (invalidateCaches env d msg)
      exact ⟨by rw [a, a3, a2, h1.1], by rw [b, b3, b2, h1.2.1], by rw [c, c3, c2, h1.2.2]⟩
    · obtain ⟨a, b, c⟩ := ih (updatePendingStatistics env (invalidateCaches env d msg) msg)
      obtain ⟨a2, b2, c2⟩ := h2 (invalidateCaches env d msg)
      exact ⟨by rw [a, a2, h1.1], by rw [b, b2, h1.2.1], by rw [c, c2, h1.2.2]⟩

/-- Every pipeline call keeps the emitted messages, followed by the messages waiting in the
pipeline, a subsequence of the dequeued messages, and keeps the pipeline within
`PipelineSize`. -/
theorem pipelineStep_invariant (d : MonitorPrivate κ) (c : Collaborators κ × PipelineCall) :
    ((d.emitted ++ d.pipeline).Sublist d.dequeued →
      ((pipelineStep d c).emitted ++ (pipelineStep d c).pipeline).Sublist
        (pipelineStep d c).dequeued) ∧
    ((d.pipeline.length : Int) ≤ PipelineSize →
      ((pipelineStep d c).pipeline.length : Int) ≤ PipelineSize) := by
  obtain ⟨env, call⟩ := c
  cases call with
  | dispatchNotifications =>
    obtain ⟨extra, h1, h2, h3⟩ := dispatchLoop_trace env d.pendingNotifications d
    refine ⟨fun h => ?_, h3⟩
    simp only [pipelineStep, dispatchNotifications]
    rw [h1, h2]
    exact h.append (List.Sublist.refl _)
  | slotNotify msgs =>
    obtain ⟨a, b, c⟩ := slotNotifyLoop_frame env msgs d
    obtain ⟨extra, h1, h2, h3⟩ := dispatchLoop_trace env
      (slotNotifyLoop env msgs d).pendingNotifications (slotNotifyLoop env msgs d)
    refine ⟨fun h => ?_, fun h => ?_⟩
    · simp only [pipelineStep, slotNotify, dispatchNotifications]
      rw [h1, h2, a, b, c]
      exact h.append (List.Sublist.refl _)
    · simp only [pipelineStep, slotNotify, dispatchNotifications]
      exact h3 (by rw [a]; exact h)
  | dataAvailable =>
    obtain ⟨a, b, c⟩ := dataAvailableLoop_trace env d.pipeline d
    obtain ⟨extra, h1, h2, h3⟩ := dispatchLoop_trace env
      (dataAvailableLoop env d.pipeline d).pendingNotifications
      (dataAvailableLoop env d.pipeline d)
    refine ⟨fun h => ?_, fun h => ?_⟩
    · simp only [pipelineStep, dataAvailable, dispatchNotifications]
      rw [h1, h2, a, b]
      exact h.append (List.Sublist.refl _)
    · simp only [pipelineStep, dataAvailable, dispatchNotifications]
      apply h3
      have : ((dataAvailableLoop env d.pipeline d).pipeline.length : Int)
          ≤ (d.pipeline.length : Int) := by exact_mod_cast c
      omega
  | cleanOldNotifications =>
    have hs := cleanLoop_sublist (acceptNotification env d) env.equal d.pipeline d.pipeline
    refine ⟨fun h => ?_, fun h => ?_⟩
    · simp only [pipelineStep, cleanOldNotifications]
      exact ((List.Sublist.refl _).append hs).trans h
    · simp only [pipelineStep, cleanOldNotifications]
      have : ((cleanLoop (acceptNotification env d) env.equal d.pipeline d.pipeline).length : Int)
          ≤ (d.pipeline.length : Int) := by exact_mod_cast hs.length_le
      omega

theorem pipelineCalls_invariant (calls : List (Collaborators κ × PipelineCall)) :
    ∀ d : MonitorPrivate κ,
    ((d.emitted ++ d.pipeline).Sublist d.dequeued →
      ((pipelineCalls calls d).emitted ++ (pipelineCalls calls d).pipeline).Sublist
        (pipelineCalls calls d).dequeued) ∧
    ((d.pipeline.length : Int) ≤ PipelineSize →
      ((pipelineCalls calls d).pipeline.length : Int) ≤ PipelineSize) := by
  induction calls with
  | nil => intro d; exact ⟨fun h => h, fun h => h⟩
  | cons c cs ih =>
    intro d
    have h1 := pipelineStep_invariant d c
    have h2 := ih (pipelineStep d c)
    exact ⟨fun h => h2.1 (h1.1 h), fun h => h2.2 (h1.2 h)⟩

/-- A call other than `cleanOldNotifications` keeps the dequeued messages equal to the
emitted messages followed by the messages waiting in the pipeline. -/
theorem pipelineStep_exact (d : MonitorPrivate κ) (c : Collaborators κ × PipelineCall)
    (hc : c.2 ≠ .cleanOldNotifications) (h : d.emitted ++ d.pipeline = d.dequeued) :
    (pipelineStep d c).emitted ++ (pipelineStep d c).pipeline = (pipelineStep d c).dequeued := by
  obtain ⟨env, call⟩ := c
  cases call with
  | dispatchNotifications =>
    obtain ⟨extra, h1, h2, _⟩ := dispatchLoop_trace env d.pendingNotifications d
    simp only [pipelineStep, dispatchNotifications]
    rw [h1, h2, h]
  | slotNotify msgs =>
    obtain ⟨a, b, c⟩ := slotNotifyLoop_frame env msgs d
    obtain ⟨extra, h1, h2, _⟩ := dispatchLoop_trace env
      (slotNotifyLoop env msgs d).pendingNotifications (slotNotifyLoop env msgs d)
    simp only [pipelineStep, slotNotify, dispatchNotifications]
    rw [h1, h2, a, b, c, h]
  | dataAvailable =>
    obtain ⟨a, b, _⟩ := dataAvailableLoop_trace env d.pipeline d
    obtain ⟨extra, h1, h2, _⟩ := dispatchLoop_trace env
      (dataAvailableLoop env d.pipeline d).pendingNotifications
      (dataAvailableLoop env d.pipeline d)
    simp only [pipelineStep, dataAvailable, dispatchNotifications]
    rw [h1, h2, a, b, h]
  | cleanOldNotifications => exact absurd rfl hc

/-- C1: over any sequence of `dispatchNotifications()` and `dataAvailable()` calls (and
`slotNotify()` calls, which end in `dispatchNotifications()`), whatever the caches answer
during each call: when the messages dequeued so far are the emitted messages followed by
the messages waiting in the pipeline (as in a new monitor, where all three are empty), the
same holds after the calls. So the messages handed to `emitNotification` are an initial
part, in dequeue order, of the messages dequeued from `pendingNotifications`, and every
message still waiting in the pipeline was dequeued after all emitted ones. -/
theorem emitted_in_dequeue_order (calls : List (Collaborators κ × PipelineCall))
    (d : MonitorPrivate κ) (hcalls : ∀ c ∈ calls, c.2 ≠ PipelineCall.cleanOldNotifications)
    (h : d.emitted ++ d.pipeline = d.dequeued) :
    (pipelineCalls calls d).emitted ++ (pipelineCalls calls d).pipeline
      = (pipelineCalls calls d).dequeued ∧
    (pipelineCalls calls d).emitted.Sublist (pipelineCalls calls d).dequeued := by
  have key : ∀ (calls : List (Collaborators κ × PipelineCall)) (d : MonitorPrivate κ),
      (∀ c ∈ calls, c.2 ≠ PipelineCall.cleanOldNotifications) →
      d.emitted ++ d.pipeline = d.dequeued →
      (pipelineCalls calls d).emitted ++ (pipelineCalls calls d).pipeline
        = (pipelineCalls calls d).dequeued := by
    intro calls
    induction calls with
    | nil => intro d _ h; exact h
    | cons c cs ih =>
      intro d hcs h
      exact ih (pipelineStep d c) (fun x hx => hcs x (List.mem_cons_of_mem _ hx))
        (pipelineStep_exact d c (hcs c (List.mem_cons_self _ _)) h)
  have e := key calls d hcalls h
  refine ⟨e, ?_⟩
  rw [← e]
  exact List.sublist_append_left _ _

theorem emitted_in_dequeue_order_witness :
    (pipelineCalls Example.traffic Example.monitorAll).emitted
        ++ (pipelineCalls Example.traffic Example.monitorAll).pipeline
      = (pipelineCalls Example.traffic Example.monitorAll).dequeued ∧
    (pipelineCalls Example.traffic Example.monitorAll).emitted.Sublist
      (pipelineCalls Example.traffic Example.monitorAll).dequeued :=
  emitted_in_dequeue_order Example.traffic Example.monitorAll (by decide) (by decide)

/-- C2: every sequence of `slotNotify()`, `dispatchNotifications()`, `dataAvailable()` and
`cleanOldNotifications()` calls, whatever the collaborators answer during each call, leads
from a monitor whose pipeline holds at most `PipelineSize` (5) messages (a new monitor has
an empty pipeline) to a monitor whose pipeline holds at most `PipelineSize` messages. -/
theorem pipeline_within_PipelineSize (calls : List (Collaborators κ × PipelineCall))
    (d : MonitorPrivate κ) (h : (d.pipeline.length : Int) ≤ PipelineSize) :
    ((pipelineCalls calls d).pipeline.length : Int) ≤ PipelineSize ∧ PipelineSize = 5 :=
  ⟨(pipelineCalls_invariant calls d).2 h, rfl⟩

theorem pipeline_within_PipelineSize_witness :
    ((pipelineCalls Example.traffic Example.monitorAll).pipeline.length : Int) ≤ PipelineSize
      ∧ PipelineSize = 5 :=
  pipeline_within_PipelineSize Example.traffic Example.monitorAll (by decide)

end MonitorPrivate

end Akonadi

/-! ## Moves between unwatched collections -/

namespace Akonadi

namespace MonitorPrivate

variable {κ : Type}

/-- The calls `invalidateCaches` and `updatePendingStatistics` touch the caches and
`recentlyChangedCollections` only. -/
theorem invalidate_update_frame (env : Collaborators κ) (d : MonitorPrivate κ)
    (msg : NotificationMessage) :
    ∃ cc ic rc, updatePendingStatistics env (invalidateCaches env d msg) msg
      = { d with collectionCache := cc, itemCache := ic, recentlyChangedCollections := rc } := by
  unfold updatePendingStatistics invalidateCaches
  simp only
  split_ifs <;> exact ⟨_, _, _, rfl⟩

/-- With reference counting, an Item Move between two unwatched collections is lazily
ignored, whatever the receivers are. -/
theorem isLazilyIgnored_unwatched_move (env : Collaborators κ) (d : MonitorPrivate κ)
    (msg : NotificationMessage) (href : d.useRefCounting = true)
    (hop : msg.operation = .Move) (htype : msg.type = .Item)
    (hs : (QHash.contains d.refCountMap msg.parentCollection
      || d.m_buffer.isBuffered msg.parentCollection) = false)
    (hd : (QHash.contains d.refCountMap msg.parentDestCollection
      || d.m_buffer.isBuffered msg.parentDestCollection) = false) :
    isLazilyIgnored env d msg = true := by
  rw [Bool.or_eq_false_iff] at hs hd
  cases hf : d.fetchCollectionStatistics <;>
    simp [isLazilyIgnored, href, hop, htype, hs.1, hs.2, hd.1, hd.2, hf]

/-- C11, as stated, fails: `appendAndCompress` itself does not drop a Move between two
unwatched collections. With reference counting on, collection `7` the only watched one
and an empty queue, the Move of item `1` from collection `5` to collection `6` leaves an
Add of item `1` in collection `6` in `pendingNotifications`. -/
theorem appendAndCompress_unwatched_move_enqueues :
    Example.refCounting.useRefCounting = true ∧
    (QHash.contains Example.refCounting.refCountMap 5
      || Example.refCounting.m_buffer.isBuffered 5) = false ∧
    (QHash.contains Example.refCounting.refCountMap 6
      || Example.refCounting.m_buffer.isBuffered 6) = false ∧
    Example.refCounting.pendingNotifications = [] ∧
    (appendAndCompress (Example.collaborators 1 true) Example.refCounting
        (Example.itemMessage .Move 1 5 6)).pendingNotifications
      = [Example.itemMessage .Add 1 6 (-1)] := by
  decide

/-- C11, amended: with reference counting enabled, `appendAndCompress` applied to an Item
Move whose source and destination collections are both unwatched takes its last branch
and hands to `NotificationMessage::appendAndCompress( pendingNotifications, ... )` an Add
whose parent is the original destination and whose destination is `-1`. The notification
is dropped one step earlier: `acceptNotification` returns false for it, so `slotNotify`
never calls `appendAndCompress` for it. -/
theorem appendAndCompress_unwatched_move (env : Collaborators κ) (d : MonitorPrivate κ)
    (msg : NotificationMessage) (href : d.useRefCounting = true)
    (hop : msg.operation = .Move) (htype : msg.type = .Item)
    (hs : (QHash.contains d.refCountMap msg.parentCollection
      || d.m_buffer.isBuffered msg.parentCollection) = false)
    (hd : (QHash.contains d.refCountMap msg.parentDestCollection
      || d.m_buffer.isBuffered msg.parentDestCollection) = false) :
    appendAndCompress env d msg
      = { d with pendingNotifications := (env.compress d.pendingNotifications
            { msg with operation := .Add, parentCollection := msg.parentDestCollection,
                       parentDestCollection := -1 }) } ∧
    acceptNotification env d msg = false := by
  refine ⟨?_, ?_⟩
  · simp only [appendAndCompress, href, hop, htype, hs, hd]
    simp
  · have h := isLazilyIgnored_unwatched_move env d msg href hop htype hs hd
    simp [acceptNotification, h]

theorem appendAndCompress_unwatched_move_witness :
    appendAndCompress (Example.collaborators 1 true) Example.refCounting
        (Example.itemMessage .Move 1 5 6)
      = { Example.refCounting with pendingNotifications :=
            ((Example.collaborators 1 true).compress Example.refCounting.pendingNotifications
              { Example.itemMessage .Move 1 5 6 with
                operation := .Add
                parentCollection := (Example.itemMessage .Move 1 5 6).parentDestCollection
                parentDestCollection := -1 }) } ∧
    acceptNotification (Example.collaborators 1 true) Example.refCounting
      (Example.itemMessage .Move 1 5 6) = false :=
  appendAndCompress_unwatched_move (Example.collaborators 1 true) Example.refCounting
    (Example.itemMessage .Move 1 5 6) rfl rfl rfl (by decide) (by decide)

/-- C12: with reference counting enabled, when `slotNotify` meets an Item Move whose source
and destination collections are both neither referenced nor in the grace buffer, the
message only invalidates the caches and updates the statistics: `pendingNotifications`,
the pipeline and the emitted notifications are as before, and the call goes on as a
`slotNotify` of the remaining messages. So nothing is queued for it, and nothing is
forwarded as a Move or as a rewritten Add or Remove. -/
theorem slotNotify_unwatched_move (env : Collaborators κ) (d : MonitorPrivate κ)
    (msg : NotificationMessage) (msgs : List NotificationMessage)
    (href : d.useRefCounting = true)
    (hop : msg.operation = .Move) (htype : msg.type = .Item)
    (hs : (QHash.contains d.refCountMap msg.parentCollection
      || d.m_buffer.isBuffered msg.parentCollection) = false)
    (hd : (QHash.contains d.refCountMap msg.parentDestCollection
      || d.m_buffer.isBuffered msg.parentDestCollection) = false) :
    slotNotify env d (msg :: msgs)
      = slotNotify env (updatePendingStatistics env (invalidateCaches env d msg) msg) msgs ∧
    (updatePendingStatistics env (invalidateCaches env d msg) msg).pendingNotifications
      = d.pendingNotifications ∧
    (updatePendingStatistics env (invalidateCaches env d msg) msg).pipeline = d.pipeline ∧
    (updatePendingStatistics env (invalidateCaches env d msg) msg).emitted = d.emitted := by
  obtain ⟨cc, ic, rc, hframe⟩ := invalidate_update_frame env d msg
  have hacc : acceptNotification env
      (updatePendingStatistics env (invalidateCaches env d msg) msg) msg = false := by
    rw [hframe]
    exact (appendAndCompress_unwatched_move env _ msg href hop htype hs hd).2
  refine ⟨?_, ?_, ?_, ?_⟩
  · simp only [slotNotify, slotNotifyLoop, hacc]
    simp
  · rw [hframe]
  · rw [hframe]
  · rw [hframe]

theorem slotNotify_unwatched_move_witness :
    slotNotify (Example.collaborators 1 true) Example.refCounting
        (Example.itemMessage .Move 1 5 6 :: [Example.itemMessage .Add 2 7 (-1)])
      = slotNotify (Example.collaborators 1 true)
          (updatePendingStatistics (Example.collaborators 1 true)
            (invalidateCaches (Example.collaborators 1 true) Example.refCounting
              (Example.itemMessage .Move 1 5 6)) (Example.itemMessage .Move 1 5 6))
          [Example.itemMessage .Add 2 7 (-1)] ∧
    (updatePendingStatistics (Example.collaborators 1 true)
        (invalidateCaches (Example.collaborators 1 true) Example.refCounting
          (Example.itemMessage .Move 1 5 6)) (Example.itemMessage .Move 1 5 6)).pendingNotifications
      = Example.refCounting.pendingNotifications ∧
    (updatePendingStatistics (Example.collaborators 1 true)
        (invalidateCaches (Example.collaborators 1 true) Example.refCounting
          (Example.itemMessage .Move 1 5 6)) (Example.itemMessage .Move 1 5 6)).pipeline
      = Example.refCounting.pipeline ∧
    (updatePendingStatistics (Example.collaborators 1 true)
        (invalidateCaches (Example.collaborators 1 true) Example.refCounting
          (Example.itemMessage .Move 1 5 6)) (Example.itemMessage .Move 1 5 6)).emitted
      = Example.refCounting.emitted :=
  slotNotify_unwatched_move (Example.collaborators 1 true) Example.refCounting
    (Example.itemMessage .Move 1 5 6) [Example.itemMessage .Add 2 7 (-1)] rfl rfl rfl
    (by decide) (by decide)

end MonitorPrivate

end Akonadi

/-! ## The server queue, cache invalidation, item rendering and empty fetches -/

namespace Akonadi

namespace Server

namespace NotificationManager

/-- C13, as stated, fails: `slotNotify` does not merge item notifications. Two Modify
notifications for item `1` are both in `mNotifications` afterwards, even with a
`appendAndCompress` that would drop every new notification. -/
theorem slotNotify_keeps_both_modifies :
    (Example.itemModify 1).type = .ItemChangeNotification ∧
    (Example.itemModify 1).operation = .Modify ∧
    slotNotify (fun pending _ => pending) ⟨[], false⟩
        [Example.itemModify 1, Example.itemModify 1]
      = ⟨[Example.itemModify 1, Example.itemModify 1], true⟩ := by
  decide

/-- Notifications that are neither collection notifications nor of an invalid type are
appended to the pending list in arrival order. -/
theorem slotNotifyLoop_append
    (compress : List ChangeNotification → ChangeNotification → List ChangeNotification) :
    ∀ (msgs pending : List ChangeNotification),
    (∀ msg ∈ msgs, msg.type ≠ .CollectionChangeNotification ∧ msg.type ≠ .Invalid) →
    slotNotifyLoop compress msgs pending = pending ++ msgs := by
  intro msgs
  induction msgs with
  | nil => intro pending _; simp [slotNotifyLoop]
  | cons msg msgs ih =>
    intro pending h
    have hm := h msg (List.mem_cons_self _ _)
    have hrest : ∀ m ∈ msgs, m.type ≠ .CollectionChangeNotification ∧ m.type ≠ .Invalid :=
      fun m hmem => h m (List.mem_cons_of_mem _ hmem)
    cases ht : msg.type <;> simp only [slotNotifyLoop, ht] <;>
      first
      | exact absurd ht hm.1
      | exact absurd ht hm.2
      | (rw [ih _ hrest]; simp)

/-- C13, amended: `slotNotify` hands collection notifications only to
`CollectionChangeNotification::appendAndCompress`; item, tag, relation, subscription and
debug notifications are appended to `mNotifications` unchanged and in arrival order, so two
Modify notifications for the same item are both queued. The timer is active afterwards. -/
theorem slotNotify_appends
    (compress : List ChangeNotification → ChangeNotification → List ChangeNotification)
    (m : NotificationManager) (msgs : List ChangeNotification)
    (h : ∀ msg ∈ msgs, msg.type ≠ .CollectionChangeNotification ∧ msg.type ≠ .Invalid) :
    slotNotify compress m msgs = ⟨m.mNotifications ++ msgs, true⟩ := by
  unfold slotNotify
  rw [slotNotifyLoop_append compress msgs _ h]
  cases m.timerActive <;> rfl

theorem slotNotify_appends_witness :
    slotNotify (fun pending _ => pending) ⟨[Example.itemModify 1], false⟩
        [Example.itemModify 1, Example.itemModify 2]
      = ⟨[Example.itemModify 1] ++ [Example.itemModify 1, Example.itemModify 2], true⟩ :=
  slotNotify_appends _ ⟨[Example.itemModify 1], false⟩ _ (by decide)

end NotificationManager

namespace FetchHelper

/-- C16: when the first block of `fetchItems` has passed and the item query yields no row,
no item response is sent, and `fetchItems` throws "Item query returned empty result set"
exactly when `ignoreErrors` is off and the scope kind is `Uid`, `Rid`, `HierarchicalRid` or
`Gid`; in every other case it returns true (the part, flag, tag and virtual reference
queries, which are built for a listing scope, executing without error). -/
theorem fetchItems_empty {ρ ι : Type} (env : FetchEnvironment ρ ι)
    (hfirst : retrieveMissingParts env = .ok ())
    (hrows : env.itemQuery = .ok [])
    (hqueries : buildQueries env = .ok ()) :
    fetchItems env
      = ([], if env.ignoreErrors = false ∧ (env.scope = .Uid ∨ env.scope = .Rid
                ∨ env.scope = .HierarchicalRid ∨ env.scope = .Gid) then
               .error "Item query returned empty result set"
             else .ok true) := by
  unfold fetchItems
  simp only [hfirst, hrows, hqueries]
  cases hi : env.ignoreErrors <;> cases hs : env.scope <;> simp [processRows]

theorem fetchItems_empty_witness :
    fetchItems Example.emptyFetch
      = ([], if Example.emptyFetch.ignoreErrors = false ∧ (Example.emptyFetch.scope = .Uid
                ∨ Example.emptyFetch.scope = .Rid
                ∨ Example.emptyFetch.scope = .HierarchicalRid
                ∨ Example.emptyFetch.scope = .Gid) then
               .error "Item query returned empty result set"
             else .ok true) :=
  fetchItems_empty Example.emptyFetch rfl rfl rfl

end FetchHelper

end Server

namespace MonitorPrivate

variable {κ : Type}

/-- C14: `invalidateCaches( msg )` as a table. A Remove invalidates the entry `msg.uid()`
of the cache of the message type; a Modify, Move or Subscribe updates that entry; every
other operation, and a message of invalid type, leaves the monitor as it is. Nothing but
the cache of the message type changes, and only through a call for `msg.uid()`. -/
theorem invalidateCaches_table (env : Collaborators κ) (d : MonitorPrivate κ)
    (msg : NotificationMessage) :
    invalidateCaches env d msg
      = match msg.type, msg.operation with
        | .Collection, .Remove =>
          { d with collectionCache := env.collectionInvalidate d.collectionCache msg.uid }
        | .Item, .Remove =>
          { d with itemCache := env.itemInvalidate d.itemCache msg.uid }
        | .Collection, .Modify =>
          { d with collectionCache := env.collectionUpdate d.collectionCache msg.uid }
        | .Collection, .Move =>
          { d with collectionCache := env.collectionUpdate d.collectionCache msg.uid }
        | .Collection, .Subscribe =>
          { d with collectionCache := env.collectionUpdate d.collectionCache msg.uid }
        | .Item, .Modify => { d with itemCache := env.itemUpdate d.itemCache msg.uid }
        | .Item, .Move => { d with itemCache := env.itemUpdate d.itemCache msg.uid }
        | .Item, .Subscribe => { d with itemCache := env.itemUpdate d.itemCache msg.uid }
        | _, _ => d := by
  cases ht : msg.type <;> cases ho : msg.operation <;> simp [invalidateCaches, ht, ho]

/-- C15: for an item notification with one of the six item operations, whenever the item
retrieved from the cache is invalid or the operation is Remove, `emitNotification` emits
exactly one signal, the signal of the operation, and the item handed to it has the id, the
remote id and the mime type of the notification, whatever the cache holds. -/
theorem emitNotification_synthesizes_item (look : EntityLookup κ) (d : MonitorPrivate κ)
    (msg : NotificationMessage) (sig : Signal) (htype : msg.type = .Item)
    (hop : itemSignal msg.operation = some sig)
    (hinvalid : (look.itemRetrieve d.itemCache msg.uid).isValid = false
      ∨ msg.operation = .Remove) :
    (emitNotificationItem look d msg).map
        (fun e => (e.signal, e.item.id, e.item.remoteId, e.item.mimeType))
      = [(sig, msg.uid, msg.remoteId, msg.mimeType)] := by
  unfold emitNotificationItem
  rw [if_pos htype]
  generalize look.itemRetrieve d.itemCache msg.uid = item at hinvalid
  generalize look.collectionRetrieve d.collectionCache msg.parentCollection = parent
  generalize (if msg.operation = Operation.Move then
    look.collectionRetrieve d.collectionCache msg.parentDestCollection
    else Collection.invalid) = destParent
  obtain ⟨sid, ty, op, uid, rid, res, pc, pdc, mt, parts⟩ := msg
  simp only at hop hinvalid ⊢
  have hcond : (!item.isValid || decide (op = Operation.Remove)) = true := by
    rcases hinvalid with h | h
    · simp [h]
    · simp [h]
  cases op <;> simp only [itemSignal] at hop <;> cases hop <;>
    simp only [emitItemNotification, hcond, if_true] <;>
    cases parts <;> simp [ItemEmission.signal, ItemEmission.item, Item.ofId] <;>
    split_ifs <;> simp

theorem emitNotification_synthesizes_item_witness :
    (emitNotificationItem Example.nothingCached Example.monitorAll
        (Example.itemMessage .Modify 1 7 (-1))).map
        (fun e => (e.signal, e.item.id, e.item.remoteId, e.item.mimeType))
      = [(.itemChanged, (Example.itemMessage .Modify 1 7 (-1)).uid,
          (Example.itemMessage .Modify 1 7 (-1)).remoteId,
          (Example.itemMessage .Modify 1 7 (-1)).mimeType)] :=
  emitNotification_synthesizes_item Example.nothingCached Example.monitorAll
    (Example.itemMessage .Modify 1 7 (-1)) .itemChanged rfl rfl (Or.inl (by decide))

end MonitorPrivate

end Akonadi

/-! ## The item synchronizer: full sync of the stored items -/

namespace Akonadi

namespace ItemSync

/-- The full sync of `testGidMerge`'s collection with its own items, and the full sync of
a collection with an item that has neither remote id nor GID: nothing changes in either,
the first job succeeds and the second fails. -/
theorem fullSync_examples :
    (Job.exec (Job.step (Job.new false Example.gidStorage)
      (.setFullSyncItems Example.gidStorage.items))).storage = Example.gidStorage ∧
    (Job.exec (Job.step (Job.new false Example.gidStorage)
      (.setFullSyncItems Example.gidStorage.items))).results = [.Succeeded] ∧
    (Job.exec (Job.step (Job.new false Example.anonymousStorage)
      (.setFullSyncItems Example.anonymousStorage.items))).storage
      = Example.anonymousStorage ∧
    (Job.exec (Job.step (Job.new false Example.anonymousStorage)
      (.setFullSyncItems Example.anonymousStorage.items))).results = [.Failed] := by
  decide

end ItemSync

end Akonadi

/-! ## The item synchronizer: deletion by reference and GID merge -/

namespace Akonadi

namespace ItemSync

/-- A non-streaming incremental sync whose changed items apply: the deletion list is applied
to the result and the job succeeds. -/
theorem exec_incremental_ok (gidMerge : Bool) (s t : Storage) (cs ds : List Item)
    (h : applyItems gidMerge s cs = some t) :
    Job.exec (Job.step (Job.new gidMerge s) (.setIncrementalSyncItems cs ds))
      = { Job.new gidMerge s with
          storage := applyDeletions t ds, deliveryDone := true, results := [.Succeeded] } := by
  simp [Job.exec, Job.run, Job.step, Job.deliver, Job.new, Job.process, Job.finish, transact, h]

/-- A non-streaming incremental sync whose changed items conflict: nothing is applied and
the job fails. -/
theorem exec_incremental_failed (gidMerge : Bool) (s : Storage) (cs ds : List Item)
    (h : applyItems gidMerge s cs = none) :
    Job.exec (Job.step (Job.new gidMerge s) (.setIncrementalSyncItems cs ds))
      = { Job.new gidMerge s with deliveryDone := true, errors := 1, results := [.Failed] } := by
  simp [Job.exec, Job.run, Job.step, Job.deliver, Job.new, Job.process, Job.finish, transact, h]

/-- An incremental sync evaluated: the item with remote id `rid2` is deleted,
the entry with remote id `rid9` is ignored, the other items stay, and the monitor sees the
new item and the deletion. -/
theorem incremental_sync_evaluated :
    (Job.exec (Job.step (Job.new false Example.gidStorage)
        (.setIncrementalSyncItems [⟨none, "rid4", "", "payload4", []⟩]
          [⟨none, "rid2", "", "", []⟩, ⟨none, "rid9", "", "", []⟩]))).storage
      = { items := [⟨some 1, "rid1", "gid1", "payload1", []⟩,
            ⟨some 3, "rid4", "", "payload4", []⟩]
          nextId := 4
          changes := [.added ⟨some 3, "rid4", "", "payload4", []⟩,
            .removed ⟨some 2, "rid2", "gid2", "payload1", []⟩] } := by
  decide

/-- C19, as stated, fails: the run of `testGidMerge` uses the default policy, which matches
by remote id. The delivered item (`gid2`, `rid3`) matches no stored remote id and is stored
as a third item; the stored item with `gid2` keeps `rid2` and its payload. -/
theorem gidMerge_default_keeps_three_items :
    (Job.exec (Job.step (Job.new false Example.gidStorage)
        (.setIncrementalSyncItems [Example.gidItem] []))).storage.items
      = [⟨some 1, "rid1", "gid1", "payload1", []⟩, ⟨some 2, "rid2", "gid2", "payload1", []⟩,
         ⟨some 3, "rid3", "gid2", "payload2", []⟩] ∧
    Example.gidStorage.items.length = 2 := by
  decide

/-- The match of the delivered item of a GID merge: no stored remote id is its remote id,
so that with the GID-merge policy the stored item with its GID is the match, and without
the policy the item is new. -/
theorem matchItem_gid (gidMerge : Bool) (x1 x2 a : Item)
    (ha : a.remoteId ≠ "") (h1 : x1.remoteId ≠ a.remoteId) (h2 : x2.remoteId ≠ a.remoteId)
    (hg : a.gid ≠ "") (hg1 : x1.gid ≠ a.gid) (hg2 : x2.gid = a.gid) :
    matchItem gidMerge [x1, x2] a = if gidMerge then .existing x2 else .new := by
  have hf : [x1, x2].filter (fun x => decide (x.remoteId = a.remoteId)) = [] := by
    simp [List.filter, h1, h2]
  have hgf : [x1, x2].filter (fun x => decide (x.gid = a.gid)) = [x2] := by
    simp [List.filter, hg1, hg2]
  unfold matchItem
  rw [if_pos ha, hf]
  dsimp only
  rw [hgf]
  cases gidMerge <;> simp [hg, Match.ofCandidates]

/-- C19, amended: the collection holds exactly two items with different local ids, one with
`gid1`/`rid1` and one with `gid2`/`rid2`, and an incremental sync delivers one item with
`gid2` and a third remote id `rid3`. With the GID-merge policy configured the job succeeds
and the collection holds exactly 2 items afterwards, the first unchanged and the one
matched by `gid2` carrying `rid3` and the delivered payload under its old local id; with
the default policy the job succeeds as well, both stored items are unchanged and the
delivered item is stored as a third item under the next free local id. -/
theorem gidMerge_needs_policy (x1 x2 a : Item) (n : Nat) (cs : List Change)
    (ha : a.remoteId ≠ "") (h1 : x1.remoteId ≠ a.remoteId) (h2 : x2.remoteId ≠ a.remoteId)
    (hg : a.gid ≠ "") (hg1 : x1.gid ≠ a.gid) (hg2 : x2.gid = a.gid) (hid : x1.id ≠ x2.id) :
    (Job.exec (Job.step (Job.new true ⟨[x1, x2], n, cs⟩)
        (.setIncrementalSyncItems [a] []))).storage.items = [x1, { a with id := x2.id }] ∧
    (Job.exec (Job.step (Job.new true ⟨[x1, x2], n, cs⟩)
        (.setIncrementalSyncItems [a] []))).results = [.Succeeded] ∧
    (Job.exec (Job.step (Job.new false ⟨[x1, x2], n, cs⟩)
        (.setIncrementalSyncItems [a] []))).storage.items
      = [x1, x2, { a with id := some n }] ∧
    (Job.exec (Job.step (Job.new false ⟨[x1, x2], n, cs⟩)
        (.setIncrementalSyncItems [a] []))).results = [.Succeeded] := by
  have hsame : sameContent a x2 = false := by
    simp [sameContent, Ne.symm h2]
  have hmerge : applyItems true ⟨[x1, x2], n, cs⟩ [a]
      = some ⟨[x1, { a with id := x2.id }], n, cs ++ [.changed { a with id := x2.id }]⟩ := by
    simp [applyItems, applyItem, matchItem_gid true x1 x2 a ha h1 h2 hg hg1 hg2, hsame, hid]
  have hplain : applyItems false ⟨[x1, x2], n, cs⟩ [a]
      = some ⟨[x1, x2, { a with id := some n }], n + 1,
          cs ++ [.added { a with id := some n }]⟩ := by
    simp [applyItems, applyItem, matchItem_gid false x1 x2 a ha h1 h2 hg hg1 hg2, ha]
  rw [exec_incremental_ok true _ _ [a] [] hmerge, exec_incremental_ok false _ _ [a] [] hplain]
  exact ⟨rfl, rfl, rfl, rfl⟩

theorem gidMerge_needs_policy_witness :
    (Job.exec (Job.step (Job.new true ⟨[⟨some 1, "rid1", "gid1", "payload1", []⟩,
          ⟨some 2, "rid2", "gid2", "payload1", []⟩], 3, []⟩)
        (.setIncrementalSyncItems [⟨none, "rid3", "gid2", "payload2", []⟩] []))).storage.items
      = [⟨some 1, "rid1", "gid1", "payload1", []⟩,
         { (⟨none, "rid3", "gid2", "payload2", []⟩ : Item) with id := some 2 }] ∧
    (Job.exec (Job.step (Job.new true ⟨[⟨some 1, "rid1", "gid1", "payload1", []⟩,
          ⟨some 2, "rid2", "gid2", "payload1", []⟩], 3, []⟩)
        (.setIncrementalSyncItems [⟨none, "rid3", "gid2", "payload2", []⟩] []))).results
      = [.Succeeded] ∧
    (Job.exec (Job.step (Job.new false ⟨[⟨some 1, "rid1", "gid1", "payload1", []⟩,
          ⟨some 2, "rid2", "gid2", "payload1", []⟩], 3, []⟩)
        (.setIncrementalSyncItems [⟨none, "rid3", "gid2", "payload2", []⟩] []))).storage.items
      = [⟨some 1, "rid1", "gid1", "payload1", []⟩, ⟨some 2, "rid2", "gid2", "payload1", []⟩,
         { (⟨none, "rid3", "gid2", "payload2", []⟩ : Item) with id := some 3 }] ∧
    (Job.exec (Job.step (Job.new false ⟨[⟨some 1, "rid1", "gid1", "payload1", []⟩,
          ⟨some 2, "rid2", "gid2", "payload1", []⟩], 3, []⟩)
        (.setIncrementalSyncItems [⟨none, "rid3", "gid2", "payload2", []⟩] []))).results
      = [.Succeeded] :=
  gidMerge_needs_policy ⟨some 1, "rid1", "gid1", "payload1", []⟩
    ⟨some 2, "rid2", "gid2", "payload1", []⟩ ⟨none, "rid3", "gid2", "payload2", []⟩ 3 []
    (by decide) (by decide) (by decide) (by decide) (by decide) rfl (by decide)

/-! ## The item synchronizer: one result, after the delivery is done -/

/-- While a streamed delivery is going on, a completion check changes nothing. -/
theorem finish_open (j : Job) (hd : j.deliveryDone = false) (hx : j.cancelRequested = false) :
    Job.finish j = j := by
  unfold Job.finish
  split_ifs <;> simp_all

/-- A delivery or a turn of the event loop keeps a streamed delivery going: no result. -/
theorem step_open (j : Job) (c : Call) (hc : c.isDeliveryOrProcess = true)
    (hs : j.streaming = true) (hd : j.deliveryDone = false) (hx : j.cancelRequested = false)
    (hr : j.results = []) :
    (Job.step j c).streaming = true ∧ (Job.step j c).deliveryDone = false ∧
    (Job.step j c).cancelRequested = false ∧ (Job.step j c).results = [] := by
  cases c with
  | setStreamingEnabled e => simp [Call.isDeliveryOrProcess] at hc
  | deliveryDone => simp [Call.isDeliveryOrProcess] at hc
  | rollback => simp [Call.isDeliveryOrProcess] at hc
  | setFullSyncItems items => simp [Job.step, Job.deliver, hs, hd, hx, hr]
  | setIncrementalSyncItems cs ds => simp [Job.step, Job.deliver, hs, hd, hx, hr]
  | process =>
    show (Job.process j).streaming = true ∧ (Job.process j).deliveryDone = false ∧
      (Job.process j).cancelRequested = false ∧ (Job.process j).results = []
    unfold Job.process
    rw [if_neg (by simp [hr]), if_neg (by simp [hx])]
    split
    · rw [finish_open j hd hx]
      exact ⟨hs, hd, hx, hr⟩
    · split <;> simp [Job.finish, hs, hd, hx, hr]

theorem run_open : ∀ (calls : List Call) (j : Job), calls.all Call.isDeliveryOrProcess = true →
    j.streaming = true → j.deliveryDone = false → j.cancelRequested = false → j.results = [] →
    (Job.run calls j).streaming = true ∧ (Job.run calls j).deliveryDone = false ∧
    (Job.run calls j).cancelRequested = false ∧ (Job.run calls j).results = [] := by
  intro calls
  induction calls with
  | nil => intro j _ hs hd hx hr; exact ⟨hs, hd, hx, hr⟩
  | cons c rest ih =>
    intro j hall hs hd hx hr
    simp only [List.all_cons, Bool.and_eq_true] at hall
    obtain ⟨h1, h2, h3, h4⟩ := step_open j c hall.1 hs hd hx hr
    exact ih (Job.step j c) hall.2 h1 h2 h3 h4

/-- A job with a result is terminal: no call changes its results or its error counter. -/
theorem step_terminal (j : Job) (c : Call) (hr : j.results ≠ []) :
    (Job.step j c).results = j.results ∧ (Job.step j c).errors = j.errors := by
  cases c <;> simp [Job.step, Job.deliver, Job.process, hr]

theorem run_terminal : ∀ (calls : List Call) (j : Job), j.results ≠ [] →
    (Job.run calls j).results = j.results ∧ (Job.run calls j).errors = j.errors := by
  intro calls
  induction calls with
  | nil => intro j _; exact ⟨rfl, rfl⟩
  | cons c rest ih =>
    intro j hr
    obtain ⟨h1, h2⟩ := step_terminal j c hr
    obtain ⟨h3, h4⟩ := ih (Job.step j c) (by rw [h1]; exact hr)
    exact ⟨h3.trans h1, h4.trans h2⟩

/-- Once the delivery is done, the event loop processes the delivered batches and the job
ends with one result, `Failed` exactly when a transaction failed. -/
theorem run_drain : ∀ (n : Nat) (j : Job), j.cancelRequested = false → j.deliveryDone = true →
    j.results = [] → j.pending ≠ [] → j.pending.length ≤ n →
    (Job.run (List.replicate n Call.process) j).results
      = [if (Job.run (List.replicate n Call.process) j).errors = 0
          then .Succeeded else .Failed] := by
  intro n
  induction n with
  | zero =>
    intro j _ _ _ hp hn
    exact absurd (List.length_eq_zero.mp (Nat.le_zero.mp hn)) hp
  | succ n ih =>
    intro j hx hd hr hp hn
    show (Job.run (List.replicate n Call.process) (Job.process j)).results
      = [if (Job.run (List.replicate n Call.process) (Job.process j)).errors = 0
          then .Succeeded else .Failed]
    have hdone : ∀ k : Job, k.results = [if k.errors = 0 then .Succeeded else .Failed] →
        (Job.run (List.replicate n Call.process) k).results
          = [if (Job.run (List.replicate n Call.process) k).errors = 0
              then .Succeeded else .Failed] := by
      intro k hk
      obtain ⟨h1, h2⟩ := run_terminal (List.replicate n Call.process) k (by rw [hk]; simp)
      rw [h1, h2, hk]
    cases hpend : j.pending with
    | nil => exact absurd hpend hp
    | cons b rest =>
      have hlen : rest.length ≤ n := by
        rw [hpend] at hn
        simpa using hn
      cases rest with
      | nil =>
        apply hdone
        unfold Job.process
        rw [if_neg (by simp [hr]), if_neg (by simp [hx]), hpend]
        dsimp only
        split <;> simp [Job.finish, hr, hx, hd]
      | cons b2 rest2 =>
        apply ih
        · unfold Job.process
          rw [if_neg (by simp [hr]), if_neg (by simp [hx]), hpend]
          dsimp only
          split <;> simp [Job.finish, hr, hx, hd]
        · unfold Job.process
          rw [if_neg (by simp [hr]), if_neg (by simp [hx]), hpend]
          dsimp only
          split <;> simp [Job.finish, hr, hx, hd]
        · unfold Job.process
          rw [if_neg (by simp [hr]), if_neg (by simp [hx]), hpend]
          dsimp only
          split <;> simp [Job.finish, hr, hx, hd]
        · unfold Job.process
          rw [if_neg (by simp [hr]), if_neg (by simp [hx]), hpend]
          dsimp only
          split <;> simp [Job.finish, hr, hx, hd]
        · unfold Job.process
          rw [if_neg (by simp [hr]), if_neg (by simp [hx]), hpend]
          dsimp only
          split <;> simpa [Job.finish, hr, hx, hd] using hlen

/-- The call of `deliveryDone()` on a streamed delivery without result, followed by the
event loop: one result, `Failed` exactly when a transaction failed. -/
theorem exec_deliveryDone (j : Job) (hx : j.cancelRequested = false) (hr : j.results = []) :
    (Job.exec (Job.step j .deliveryDone)).results
      = [if (Job.exec (Job.step j .deliveryDone)).errors = 0 then .Succeeded else .Failed] := by
  have hstep : Job.step j .deliveryDone = Job.finish { j with deliveryDone := true } := by
    simp [Job.step, hr]
  rw [hstep]
  by_cases hp : j.pending = []
  · have hk : (Job.finish { j with deliveryDone := true }).results
        = [if (Job.finish { j with deliveryDone := true }).errors = 0
            then .Succeeded else .Failed] := by
      simp [Job.finish, hr, hx, hp]
    obtain ⟨h1, h2⟩ := run_terminal
      (List.replicate ((Job.finish { j with deliveryDone := true }).pending.length + 1)
        Call.process) (Job.finish { j with deliveryDone := true }) (by rw [hk]; simp)
    unfold Job.exec
    rw [h1, h2, hk]
  · have hk : Job.finish { j with deliveryDone := true } = { j with deliveryDone := true } := by
      simp [Job.finish, hr, hx, hp]
    rw [hk]
    unfold Job.exec
    apply run_drain
    · exact hx
    · rfl
    · exact hr
    · exact hp
    · exact Nat.le_succ _

/-- C20: a streaming job to which batches are delivered while the event loop runs, and in
which a transaction fails (the error counter is not 0 at the end): before
`deliveryDone()` is called there is no result signal, whatever batches were delivered and
processed; after `deliveryDone()` and the event loop there is exactly one result signal,
`Failed`; and whatever is called later, it stays the one result signal. -/
theorem streaming_result_after_deliveryDone (gidMerge : Bool) (s : Storage)
    (calls later : List Call) (hcalls : calls.all Call.isDeliveryOrProcess = true)
    (hfail : 0 < (Job.exec (Job.step (Job.run calls
      (Job.step (Job.new gidMerge s) (.setStreamingEnabled true))) .deliveryDone)).errors) :
    (Job.run calls (Job.step (Job.new gidMerge s) (.setStreamingEnabled true))).results = [] ∧
    (Job.exec (Job.step (Job.run calls
      (Job.step (Job.new gidMerge s) (.setStreamingEnabled true))) .deliveryDone)).results
      = [.Failed] ∧
    (Job.run later (Job.exec (Job.step (Job.run calls
      (Job.step (Job.new gidMerge s) (.setStreamingEnabled true))) .deliveryDone))).results
      = [.Failed] := by
  obtain ⟨_, _, hx, hr⟩ := run_open calls
    (Job.step (Job.new gidMerge s) (.setStreamingEnabled true)) hcalls rfl rfl rfl rfl
  have hone := exec_deliveryDone _ hx hr
  rw [if_neg (Nat.pos_iff_ne_zero.mp hfail)] at hone
  refine ⟨hr, hone, ?_⟩
  rw [(run_terminal later _ (by rw [hone]; simp)).1, hone]

set_option maxRecDepth 100000 in
theorem streaming_result_after_deliveryDone_witness :
    (Job.run Example.streamingCalls
      (Job.step (Job.new false Example.duplicateStorage) (.setStreamingEnabled true))).results
      = [] ∧
    (Job.exec (Job.step (Job.run Example.streamingCalls
      (Job.step (Job.new false Example.duplicateStorage) (.setStreamingEnabled true)))
      .deliveryDone)).results = [.Failed] ∧
    (Job.run [.process, .deliveryDone, .setIncrementalSyncItems [] []]
      (Job.exec (Job.step (Job.run Example.streamingCalls
        (Job.step (Job.new false Example.duplicateStorage) (.setStreamingEnabled true)))
        .deliveryDone))).results = [.Failed] :=
  streaming_result_after_deliveryDone false Example.duplicateStorage Example.streamingCalls
    [.process, .deliveryDone, .setIncrementalSyncItems [] []] (by decide) (by decide)

end ItemSync

end Akonadi

/-! ## The item synchronizer: cancellation -/

namespace Akonadi

namespace ItemSync

/-- After `rollback()` on a job without result, every call keeps the cancellation
requested, and the only result the job can have is the cancellation. -/
theorem step_cancelling (j : Job) (c : Call) (hx : j.cancelRequested = true)
    (hr : j.results = [] ∨ j.results = [.Cancelled]) :
    (Job.step j c).cancelRequested = true ∧
    ((Job.step j c).results = [] ∨ (Job.step j c).results = [.Cancelled]) := by
  rcases hr with hr | hr
  · cases c <;> simp [Job.step, Job.deliver, Job.process, Job.finish, hx, hr]
    all_goals split_ifs <;> simp [hx, hr]
  · cases c <;> simp [Job.step, Job.deliver, Job.process, Job.finish, hx, hr]

theorem run_cancelling : ∀ (calls : List Call) (j : Job), j.cancelRequested = true →
    (j.results = [] ∨ j.results = [.Cancelled]) →
    (Job.run calls j).cancelRequested = true ∧
    ((Job.run calls j).results = [] ∨ (Job.run calls j).results = [.Cancelled]) := by
  intro calls
  induction calls with
  | nil => intro j hx hr; exact ⟨hx, hr⟩
  | cons c rest ih =>
    intro j hx hr
    obtain ⟨h1, h2⟩ := step_cancelling j c hx hr
    exact ih (Job.step j c) h1 h2

/-- The event loop ends a job whose cancellation is requested with the cancellation. -/
theorem exec_cancelling (j : Job) (hx : j.cancelRequested = true)
    (hr : j.results = [] ∨ j.results = [.Cancelled]) :
    (Job.exec j).results = [.Cancelled] := by
  unfold Job.exec
  rw [List.replicate_succ]
  show (Job.run (List.replicate j.pending.length Call.process) (Job.process j)).results
    = [.Cancelled]
  have hp : (Job.process j).results = [.Cancelled] := by
    rcases hr with hr | hr <;> simp [Job.process, Job.finish, hx, hr]
  rw [(run_terminal _ (Job.process j) (by rw [hp]; simp)).1, hp]

/-- C21: `rollback()` on a job that is in progress (no result yet; for instance a full
sync whose items are delivered), followed by whatever calls: the job has no result or the
cancellation as its only result, so it never reports success; and the event loop ends it
with exactly one result, the cancellation, whose error text is
"User canceled operation.". -/
theorem rollback_cancels (j : Job) (calls : List Call) (hr : j.results = []) :
    ((Job.run calls (Job.step j .rollback)).results = [] ∨
      (Job.run calls (Job.step j .rollback)).results = [.Cancelled]) ∧
    Outcome.Succeeded ∉ (Job.run calls (Job.step j .rollback)).results ∧
    (Job.exec (Job.run calls (Job.step j .rollback))).results = [.Cancelled] ∧
    (Job.exec (Job.run calls (Job.step j .rollback))).results.map Outcome.errorText
      = [some "User canceled operation."] := by
  have h0 : (Job.step j .rollback).cancelRequested = true ∧
      (Job.step j .rollback).results = [] := by
    simp [Job.step, hr]
  obtain ⟨hx, hres⟩ := run_cancelling calls (Job.step j .rollback) h0.1 (Or.inl h0.2)
  have hexec := exec_cancelling _ hx hres
  refine ⟨hres, ?_, hexec, ?_⟩
  · rcases hres with h | h <;> rw [h] <;> simp
  · rw [hexec]
    rfl

theorem rollback_cancels_witness :
    ((Job.run [.process]
        (Job.step (Job.step (Job.new false Example.gidStorage)
          (.setFullSyncItems Example.gidStorage.items)) .rollback)).results = [] ∨
      (Job.run [.process]
        (Job.step (Job.step (Job.new false Example.gidStorage)
          (.setFullSyncItems Example.gidStorage.items)) .rollback)).results = [.Cancelled]) ∧
    Outcome.Succeeded ∉ (Job.run [.process]
        (Job.step (Job.step (Job.new false Example.gidStorage)
          (.setFullSyncItems Example.gidStorage.items)) .rollback)).results ∧
    (Job.exec (Job.run [.process]
        (Job.step (Job.step (Job.new false Example.gidStorage)
          (.setFullSyncItems Example.gidStorage.items)) .rollback))).results = [.Cancelled] ∧
    (Job.exec (Job.run [.process]
        (Job.step (Job.step (Job.new false Example.gidStorage)
          (.setFullSyncItems Example.gidStorage.items)) .rollback))).results.map
        Outcome.errorText = [some "User canceled operation."] :=
  rollback_cancels (Job.step (Job.new false Example.gidStorage)
    (.setFullSyncItems Example.gidStorage.items)) [.process] (by decide)

end ItemSync

end Akonadi

/-! ## Cleaning the queues, and the remote id of a moved item -/

namespace Akonadi

namespace MonitorPrivate

variable {κ : Type}

/-- The loop of `cleanOldNotifications` on a queue whose front part is accepted: with a
comparison that finds a message itself and never a message that is accepted in the place
of one that is not, what is left is the front part and the accepted messages behind it. -/
theorem cleanLoop_filter (accept : NotificationMessage → Bool)
    (equal : NotificationMessage → NotificationMessage → Bool)
    (hrefl : ∀ m, equal m m = true)
    (hcompat : ∀ a b, equal a b = true → accept a = accept b) :
    ∀ (queue front : List NotificationMessage), (∀ x ∈ front, accept x = true) →
      cleanLoop accept equal queue (front ++ queue) = front ++ queue.filter accept := by
  intro queue
  induction queue with
  | nil => intro front _; simp [cleanLoop]
  | cons msg rest ih =>
    intro front hfront
    by_cases hacc : accept msg = true
    · have h := ih (front ++ [msg]) (by
        intro x hx
        rcases List.mem_append.mp hx with h1 | h1
        · exact hfront x h1
        · rw [List.mem_singleton.mp h1]; exact hacc)
      simp only [List.append_assoc, List.singleton_append] at h
      simp only [cleanLoop, hacc, Bool.not_true, Bool.false_eq_true, if_false, List.filter_cons,
        if_true]
      exact h
    · have hfalse : accept msg = false := by simpa using hacc
      have herase : (front ++ msg :: rest).eraseP (fun x => equal x msg) = front ++ rest := by
        rw [List.eraseP_append_right]
        · simp [List.eraseP_cons, hrefl]
        · intro x hx hxe
          have h1 := hcompat x msg hxe
          rw [hfront x hx, hfalse] at h1
          exact Bool.noConfusion h1
      simp only [cleanLoop, hfalse, Bool.not_false, if_true, List.filter_cons,
        Bool.false_eq_true, if_false, herase]
      exact ih front hfront

/-- Neither queue is read by `acceptNotification`. -/
theorem acceptNotification_queues (env : Collaborators κ) (d : MonitorPrivate κ)
    (pipeline pending : List NotificationMessage) (msg : NotificationMessage) :
    acceptNotification env
      { d with pipeline := pipeline, pendingNotifications := pending } msg
      = acceptNotification env d msg := by
  rfl

/-- C22: when `operator==` of the messages finds every message equal to itself, and never
a message that `acceptNotification` accepts equal to one that it rejects, then
`cleanOldNotifications()` leaves in the pipeline and in `pendingNotifications` exactly
their messages for which `acceptNotification` returns true, in their order, and changes
nothing else of the monitor. -/
theorem cleanOldNotifications_filters (env : Collaborators κ) (d : MonitorPrivate κ)
    (hrefl : ∀ m, env.equal m m = true)
    (hcompat : ∀ a b, env.equal a b = true →
      acceptNotification env d a = acceptNotification env d b) :
    cleanOldNotifications env d
      = { d with
          pipeline := d.pipeline.filter (acceptNotification env d)
          pendingNotifications := d.pendingNotifications.filter (acceptNotification env d) } := by
  have h1 := cleanLoop_filter (acceptNotification env d) env.equal hrefl hcompat
    d.pipeline [] (by simp)
  have h2 := cleanLoop_filter (acceptNotification env d) env.equal hrefl hcompat
    d.pendingNotifications [] (by simp)
  simp only [List.nil_append] at h1 h2
  have haccept : acceptNotification env
      { d with pipeline := d.pipeline.filter (acceptNotification env d) }
      = acceptNotification env d := by
    funext msg
    rfl
  unfold cleanOldNotifications
  simp only [h1, haccept, h2]

theorem cleanOldNotifications_filters_witness :
    cleanOldNotifications (Example.collaborators 1 true) Example.parked
      = { Example.parked with
          pipeline := Example.parked.pipeline.filter
            (acceptNotification (Example.collaborators 1 true) Example.parked)
          pendingNotifications := Example.parked.pendingNotifications.filter
            (acceptNotification (Example.collaborators 1 true) Example.parked) } :=
  cleanOldNotifications_filters (Example.collaborators 1 true) Example.parked
    (fun m => by simp [Example.collaborators])
    (fun a b h => by
      have hab : a = b := by simpa [Example.collaborators] using h
      rw [hab])

/-- C23: for a Move notification and a valid cached item, let `col` be the cached source
collection, or, when that is invalid, the collection with the parent id and the resource of
the notification, and `colDest` the cached destination collection, or, when that is
invalid, the collection with the destination id of the notification and its first item part
as resource. When `col` and `colDest` belong to different resources,
`emitItemNotification` emits exactly `itemMoved( it, col, colDest )`, where `it` is the
cached item with its remote id replaced by the remote id of the notification, whatever
remote id the cached item has (and with `colDest` as parent collection when it has no
valid one). -/
theorem emitItemNotification_move_remoteId (msg : NotificationMessage) (item : Item)
    (collection collectionDest : Collection) (hop : msg.operation = .Move)
    (hvalid : item.isValid = true)
    (hres : (if collection.isValid then collection.resource else msg.resource)
      ≠ (if collectionDest.isValid then collectionDest.resource
          else msg.itemParts.headD "")) :
    emitItemNotification msg item collection collectionDest
      = [.itemMoved
          { item with
            remoteId := msg.remoteId
            parentCollection :=
              if item.parentCollection.isValid then item.parentCollection
              else if collectionDest.isValid then collectionDest
              else ⟨msg.parentDestCollection, msg.itemParts.headD ""⟩ }
          (if collection.isValid then collection else ⟨msg.parentCollection, msg.resource⟩)
          (if collectionDest.isValid then collectionDest
            else ⟨msg.parentDestCollection, msg.itemParts.headD ""⟩)] := by
  obtain ⟨sid, ty, op, uid, rid, res, pc, pdc, mt, parts⟩ := msg
  simp only at hop hres ⊢
  subst hop
  cases hc : collection.isValid <;> cases hd : collectionDest.isValid <;>
    cases hp : item.parentCollection.isValid <;> cases parts <;>
    simp [emitItemNotification, hvalid, hc, hd, hp, Collection.ofId] at hres ⊢ <;>
    split_ifs <;> simp_all

theorem emitItemNotification_move_remoteId_witness :
    emitItemNotification (Example.itemMessage .Move 1 5 6)
        ⟨1, "changed by the destination", "", "text/plain", Collection.invalid⟩
        ⟨5, "source resource"⟩ ⟨6, "destination resource"⟩
      = [.itemMoved
          { (⟨1, "changed by the destination", "", "text/plain", Collection.invalid⟩ : Item) with
            remoteId := (Example.itemMessage .Move 1 5 6).remoteId
            parentCollection :=
              if (⟨1, "changed by the destination", "", "text/plain",
                  Collection.invalid⟩ : Item).parentCollection.isValid then
                (⟨1, "changed by the destination", "", "text/plain",
                  Collection.invalid⟩ : Item).parentCollection
              else if (⟨6, "destination resource"⟩ : Collection).isValid then
                ⟨6, "destination resource"⟩
              else ⟨(Example.itemMessage .Move 1 5 6).parentDestCollection,
                (Example.itemMessage .Move 1 5 6).itemParts.headD ""⟩ }
          (if (⟨5, "source resource"⟩ : Collection).isValid then ⟨5, "source resource"⟩
            else ⟨(Example.itemMessage .Move 1 5 6).parentCollection,
              (Example.itemMessage .Move 1 5 6).resource⟩)
          (if (⟨6, "destination resource"⟩ : Collection).isValid then
              ⟨6, "destination resource"⟩
            else ⟨(Example.itemMessage .Move 1 5 6).parentDestCollection,
              (Example.itemMessage .Move 1 5 6).itemParts.headD ""⟩)] :=
  emitItemNotification_move_remoteId (Example.itemMessage .Move 1 5 6)
    ⟨1, "changed by the destination", "", "text/plain", Collection.invalid⟩
    ⟨5, "source resource"⟩ ⟨6, "destination resource"⟩ rfl (by decide) (by decide)

/-- An emission evaluated: the moved item carries the remote id `rid` of the notification
and not the one of the cached item, and the collections of the signal are the cached
ones. -/
theorem itemMoved_evaluated :
    emitItemNotification (Example.itemMessage .Move 1 5 6)
        ⟨1, "changed by the destination", "", "text/plain", Collection.invalid⟩
        ⟨5, "source resource"⟩ ⟨6, "destination resource"⟩
      = [.itemMoved ⟨1, "rid", "", "text/plain", ⟨6, "destination resource"⟩⟩
          ⟨5, "source resource"⟩ ⟨6, "destination resource"⟩] := by
  decide

end MonitorPrivate

end Akonadi

/-! ## The revision of a stored item -/

namespace Akonadi

namespace Server

namespace Store

/-- A set of one element that is known. -/
theorem card_one_mem (changes : Finset String) (a : String) :
    (changes.card = 1 ∧ a ∈ changes) ↔ changes = {a} := by
  constructor
  · rintro ⟨hc, ha⟩
    obtain ⟨b, hb⟩ := Finset.card_eq_one.mp hc
    subst hb
    rw [Finset.mem_singleton.mp ha]
  · intro h
    subst h
    simp

/-- A set of two elements that are known. -/
theorem card_two_mem (changes : Finset String) (a b : String) (hab : a ≠ b) :
    (changes.card = 2 ∧ a ∈ changes ∧ b ∈ changes) ↔ changes = {a, b} := by
  constructor
  · rintro ⟨hc, ha, hb⟩
    have hsub : ({a, b} : Finset String) ⊆ changes := by
      intro x hx
      rcases Finset.mem_insert.mp hx with h | h
      · rw [h]; exact ha
      · rw [Finset.mem_singleton.mp h]; exact hb
    have hcard : ({a, b} : Finset String).card = 2 := Finset.card_pair hab
    exact (Finset.eq_of_subset_of_card_le hsub (by rw [hc, hcard])).symm
  · intro h
    subst h
    exact ⟨Finset.card_pair hab, by simp, by simp⟩

/-- The flag `revisionNeedsUpdate` in terms of the change set. -/
theorem revisionNeedsUpdate_iff (env : StoreEnvironment) (changes : Finset String)
    (hdistinct : env.REMOTEID ≠ env.REMOTEREVISION) :
    revisionNeedsUpdate env changes = true ↔
      (changes ≠ ∅ ∧ changes ≠ {env.REMOTEID} ∧ changes ≠ {env.REMOTEREVISION}
        ∧ changes ≠ {env.REMOTEID, env.REMOTEREVISION} ∧ changes ≠ {env.GID}) := by
  have h1 := card_one_mem changes env.REMOTEID
  have h2 := card_one_mem changes env.REMOTEREVISION
  have h3 := card_two_mem changes env.REMOTEID env.REMOTEREVISION hdistinct
  have h4 := card_one_mem changes env.GID
  simp only [revisionNeedsUpdate, Bool.and_eq_true, Bool.not_eq_true', decide_eq_false_iff_not,
    Bool.and_eq_false_iff, decide_eq_true_eq, ← not_and_or, ← and_assoc]
  simp only [and_assoc, h1, h2, h3, h4]

/-- The loop writes every item when the database does, with the revision raised by one
exactly under `revisionNeedsUpdate`. -/
theorem updateLoop_revisions (env : StoreEnvironment) (changes : Finset String)
    (invalidateCache : Bool) (modificationtime : Int)
    (hupdate : ∀ item, env.update item = true)
    (hinvalidate : ∀ item, env.invalidateItemCache item = true) :
    ∀ pimItems : List PimItem,
      (∀ item ∈ pimItems, -2147483648 ≤ item.rev ∧ item.rev < 2147483647) →
      ∃ items, updateLoop env changes invalidateCache modificationtime pimItems = .ok items ∧
        items.map (fun i => i.rev)
          = pimItems.map (fun i => if revisionNeedsUpdate env changes then i.rev + 1 else i.rev) := by
  intro pimItems
  induction pimItems with
  | nil => intro _; exact ⟨[], rfl, rfl⟩
  | cons pimItem rest ih =>
    intro hrev
    obtain ⟨items, hitems, hrevs⟩ := ih (fun i hi => hrev i (List.mem_cons_of_mem _ hi))
    have hbound := hrev pimItem (List.mem_cons_self _ _)
    have hwrap : toInt (pimItem.rev + 1) = pimItem.rev + 1 := by
      unfold toInt
      omega
    by_cases hn : revisionNeedsUpdate env changes = true
    · simp [updateLoop, hupdate, hinvalidate, hitems, hwrap, hn, hrevs]
      split_ifs <;> rfl
    · simp [updateLoop, hupdate, hinvalidate, hitems, hn, hrevs]
      split_ifs <;> rfl

/-- C24: the constants `AKONADI_PARAM_REMOTEID` and `AKONADI_PARAM_REMOTEREVISION` being
different, the database writing every item and committing, and no revision being at the
end of the `int` range: the end of `Store::parseStream` leaves every selected item with
its revision raised by exactly 1 when the change set is non-empty and is none of
`{REMOTEID}`, `{REMOTEREVISION}`, `{REMOTEID, REMOTEREVISION}` and `{GID}`, and with its
revision unchanged in those four cases and for an empty change set. -/
theorem writeChanges_revision (env : StoreEnvironment) (changes : Finset String)
    (invalidateCache undirty : Bool) (mSize partSizes modificationtime : Int)
    (pimItems : List PimItem)
    (hdistinct : env.REMOTEID ≠ env.REMOTEREVISION)
    (hupdate : ∀ item, env.update item = true)
    (hinvalidate : ∀ item, env.invalidateItemCache item = true)
    (hcommit : env.commit = true)
    (hrev : ∀ item ∈ pimItems, -2147483648 ≤ item.rev ∧ item.rev < 2147483647) :
    (writeChanges env changes invalidateCache undirty mSize partSizes modificationtime
        pimItems).map (fun items : List PimItem => items.map (fun i : PimItem => i.rev))
      = .ok (pimItems.map (fun i : PimItem =>
          if changes ≠ ∅ ∧ changes ≠ {env.REMOTEID} ∧ changes ≠ {env.REMOTEREVISION}
              ∧ changes ≠ {env.REMOTEID, env.REMOTEREVISION} ∧ changes ≠ {env.GID}
          then i.rev + 1 else i.rev)) := by
  have hiff := revisionNeedsUpdate_iff env changes hdistinct
  by_cases hblock : (!decide (changes = ∅) || invalidateCache || undirty) = true
  · have hsized : ∀ sized : List PimItem, sized.map (fun i => i.rev) = pimItems.map (fun i => i.rev) →
        (∀ item ∈ sized, -2147483648 ≤ item.rev ∧ item.rev < 2147483647) →
        (match updateLoop env changes invalidateCache modificationtime sized with
          | .error e => (.error e : Except String (List PimItem))
          | .ok items => if !env.commit then .error "Cannot commit transaction."
              else .ok items).map (fun items : List PimItem => items.map (fun i : PimItem => i.rev))
          = .ok (pimItems.map (fun i : PimItem =>
              if changes ≠ ∅ ∧ changes ≠ {env.REMOTEID} ∧ changes ≠ {env.REMOTEREVISION}
                  ∧ changes ≠ {env.REMOTEID, env.REMOTEREVISION} ∧ changes ≠ {env.GID}
              then i.rev + 1 else i.rev)) := by
      intro sized hsame hbound
      obtain ⟨items, hitems, hrevs⟩ := updateLoop_revisions env changes invalidateCache
        modificationtime hupdate hinvalidate sized hbound
      simp only [hitems, hcommit, Bool.not_true, Bool.false_eq_true, if_false, Except.map, hrevs]
      congr 1
      have h1 : ∀ l : List PimItem,
          l.map (fun i => if revisionNeedsUpdate env changes = true then i.rev + 1 else i.rev)
            = (l.map (fun i => i.rev)).map
                (fun r => if revisionNeedsUpdate env changes = true then r + 1 else r) := by
        intro l
        simp [List.map_map, Function.comp]
      rw [h1 sized, hsame, ← h1 pimItems]
      apply List.map_congr_left
      intro i _
      by_cases hn : revisionNeedsUpdate env changes = true
      · rw [if_pos hn, if_pos (hiff.mp hn)]
      · rw [if_neg hn, if_neg (fun h => hn (hiff.mpr h))]
    unfold writeChanges
    rw [if_pos hblock]
    apply hsized
    · split
      · split_ifs <;> rfl
      · rfl
    · intro item hitem
      split at hitem
      · rename_i first
        have hb := hrev first (List.mem_cons_self _ _)
        split_ifs at hitem <;> rw [List.mem_singleton.mp hitem] <;> exact hb
      · exact hrev item hitem
  · have hempty : changes = ∅ := by
      by_contra hne
      apply hblock
      simp [hne]
    unfold writeChanges
    rw [if_neg hblock]
    simp only [Except.map]
    congr 1
    have hno : ¬ (changes ≠ ∅ ∧ changes ≠ {env.REMOTEID} ∧ changes ≠ {env.REMOTEREVISION}
        ∧ changes ≠ {env.REMOTEID, env.REMOTEREVISION} ∧ changes ≠ {env.GID}) :=
      fun h => h.1 hempty
    simp only [if_neg hno]

theorem writeChanges_revision_witness :
    (writeChanges Example.storeEnvironment {"PLD:RFC822"} false false 0 0 42
        [⟨1, 3, 0, 0, 0, false⟩, ⟨2, 7, 0, 0, 0, false⟩]).map
        (fun items : List PimItem => items.map (fun i : PimItem => i.rev))
      = .ok (([⟨1, 3, 0, 0, 0, false⟩, ⟨2, 7, 0, 0, 0, false⟩] : List PimItem).map
          (fun i : PimItem =>
          if ({"PLD:RFC822"} : Finset String) ≠ ∅
              ∧ ({"PLD:RFC822"} : Finset String) ≠ {Example.storeEnvironment.REMOTEID}
              ∧ ({"PLD:RFC822"} : Finset String) ≠ {Example.storeEnvironment.REMOTEREVISION}
              ∧ ({"PLD:RFC822"} : Finset String)
                ≠ {Example.storeEnvironment.REMOTEID, Example.storeEnvironment.REMOTEREVISION}
              ∧ ({"PLD:RFC822"} : Finset String) ≠ {Example.storeEnvironment.GID}
          then i.rev + 1 else i.rev)) :=
  writeChanges_revision Example.storeEnvironment {"PLD:RFC822"} false false 0 0 42
    [⟨1, 3, 0, 0, 0, false⟩, ⟨2, 7, 0, 0, 0, false⟩] (by decide) (fun _ => rfl) (fun _ => rfl)
    rfl (by decide)

end Store

end Server

end Akonadi

/-! ## The protocol: responses, and the round trip of `ModifyCollectionCommand` -/

namespace Akonadi

namespace Protocol

/-- The type of a `Response` is stored without any of its bits outside the response bit, so
that `type()` is 0 for every type and every value of the response bit. -/
theorem response_type_zero (ResponseBit T : Nat) :
    Command.type ResponseBit (ResponsePrivate.new ResponseBit T) = 0 := by
  unfold Command.type ResponsePrivate.new CommandPrivate.new
  show ((T &&& ResponseBit) % 256) &&& (255 ^^^ (ResponseBit % 256)) = 0
  apply Nat.eq_of_testBit_eq
  intro i
  have h255 : (255 : Nat).testBit i = decide (i < 8) := Nat.testBit_two_pow_sub_one 8 i
  have hm : ∀ x : Nat, (x % 256).testBit i = (decide (i < 8) && x.testBit i) :=
    fun x => Nat.testBit_mod_two_pow x 8 i
  rw [Nat.testBit_and, Nat.testBit_xor, hm, hm, Nat.testBit_and, h255, Nat.zero_testBit]
  cases decide (i < 8) <;> cases T.testBit i <;> cases ResponseBit.testBit i <;> rfl

/-- C25, as the code has it: a `Response` constructed for a command type `T` that does not
contain the response bit stores `T & _ResponseBit`, which is 0. It reports
`isResponse()` = false and `type()` = 0, and `isValid()` is the comparison of 0 with
`Invalid`: the response bit is not set, and the type is lost. -/
theorem response_loses_type (ResponseBit Invalid T : Nat) (hT : T &&& ResponseBit = 0) :
    ResponsePrivate.new ResponseBit T = ⟨0⟩ ∧
    Command.isResponse ResponseBit (ResponsePrivate.new ResponseBit T) = false ∧
    Command.type ResponseBit (ResponsePrivate.new ResponseBit T) = 0 ∧
    Command.isValid Invalid (ResponsePrivate.new ResponseBit T) = (0 != Invalid) := by
  have h0 : ResponsePrivate.new ResponseBit T = ⟨0⟩ := by
    simp [ResponsePrivate.new, CommandPrivate.new, hT]
  rw [h0]
  refine ⟨rfl, ?_, ?_, rfl⟩
  · simp [Command.isResponse]
  · simp [Command.type]

theorem response_loses_type_witness :
    ResponsePrivate.new 128 1 = ⟨0⟩ ∧
    Command.isResponse 128 (ResponsePrivate.new 128 1) = false ∧
    Command.type 128 (ResponsePrivate.new 128 1) = 0 ∧
    Command.isValid 0 (ResponsePrivate.new 128 1) = (0 != 0) :=
  response_loses_type 128 0 1 (by decide)

namespace ModifyCollectionCommand

variable {σ π α τ : Type}

/-- An `if` that appends is an append of an `if`. -/
theorem ite_append_eq {β : Type} (p : Prop) [Decidable p] (s x : List β) :
    (if p then s ++ x else s) = s ++ (if p then x else []) := by
  split_ifs <;> simp

/-- What `operator<<` appends: the collection and the flags, then one section for every flag
that is set. -/
theorem serialize_sections (c : ModifyCollectionCommandPrivate σ π α τ)
    (stream : List (Datum σ π α τ)) :
    serialize c stream
      = stream ++ ([.scope c.collection, .modifiedParts c.modifiedParts]
        ++ ((if .Name ∈ c.modifiedParts then [.string c.name] else [])
        ++ ((if .RemoteID ∈ c.modifiedParts then [.string c.remoteId] else [])
        ++ ((if .RemoteRevision ∈ c.modifiedParts then [.string c.remoteRev] else [])
        ++ ((if .ParentID ∈ c.modifiedParts then [.qint64 c.parentId] else [])
        ++ ((if .MimeTypes ∈ c.modifiedParts then [.stringList c.mimeTypes] else [])
        ++ ((if .CachePolicy ∈ c.modifiedParts then [.cachePolicy c.cachePolicy] else [])
        ++ ((if .PersistentSearch ∈ c.modifiedParts then
              [.string c.persistentSearchQuery, .qint64Vector c.persistentSearchCols,
                .bool c.persistentSearchRemote, .bool c.persistentSearchRecursive]
            else [])
        ++ ((if .RemovedAttributes ∈ c.modifiedParts then [.byteArraySet c.removedAttributes]
            else [])
        ++ ((if .Attributes ∈ c.modifiedParts then [.attributes c.attributes] else [])
        ++ ((if .ListPreferences ∈ c.modifiedParts then
              [.bool c.enabled, .tristate c.sync, .tristate c.display, .tristate c.index]
            else [])
        ++ (if .Referenced ∈ c.modifiedParts then [.bool c.referenced] else [])))))))))))) := by
  unfold serialize
  simp only [ite_append_eq]
  simp only [List.append_assoc]

/-- The block of `operator>>` for the flag `Name` reads the section that `operator<<`
writes for it, and nothing when the flag is not set. -/
theorem readName_section (d : ModifyCollectionCommandPrivate σ π α τ)
    (parts : List ModifiedPart) (v : String)
    (rest : List (Datum σ π α τ)) (hparts : d.modifiedParts = parts) :
    readName d ((if ModifiedPart.Name ∈ parts then [Datum.string v] else []) ++ rest)
      = some ({ d with
          name := if ModifiedPart.Name ∈ parts then v else d.name }, rest) := by
  subst hparts
  unfold readName
  split_ifs <;> simp

/-- The block of `operator>>` for the flag `RemoteID` reads the section that `operator<<`
writes for it, and nothing when the flag is not set. -/
theorem readRemoteId_section (d : ModifyCollectionCommandPrivate σ π α τ)
    (parts : List ModifiedPart) (v : String)
    (rest : List (Datum σ π α τ)) (hparts : d.modifiedParts = parts) :
    readRemoteId d ((if ModifiedPart.RemoteID ∈ parts then [Datum.string v] else []) ++ rest)
      = some ({ d with
          remoteId := if ModifiedPart.RemoteID ∈ parts then v else d.remoteId }, rest) := by
  subst hparts
  unfold readRemoteId
  split_ifs <;> simp

/-- The block of `operator>>` for the flag `RemoteRevision` reads the section that `operator<<`
writes for it, and nothing when the flag is not set. -/
theorem readRemoteRevision_section (d : ModifyCollectionCommandPrivate σ π α τ)
    (parts : List ModifiedPart) (v : String)
    (rest : List (Datum σ π α τ)) (hparts : d.modifiedParts = parts) :
    readRemoteRevision d ((if ModifiedPart.RemoteRevision ∈ parts then [Datum.string v] else []) ++ rest)
      = some ({ d with
          remoteRev := if ModifiedPart.RemoteRevision ∈ parts then v else d.remoteRev }, rest) := by
  subst hparts
  unfold readRemoteRevision
  split_ifs <;> simp

/-- The block of `operator>>` for the flag `ParentID` reads the section that `operator<<`
writes for it, and nothing when the flag is not set. -/
theorem readParentId_section (d : ModifyCollectionCommandPrivate σ π α τ)
    (parts : List ModifiedPart) (v : Int)
    (rest : List (Datum σ π α τ)) (hparts : d.modifiedParts = parts) :
    readParentId d ((if ModifiedPart.ParentID ∈ parts then [Datum.qint64 v] else []) ++ rest)
      = some ({ d with
          parentId := if ModifiedPart.ParentID ∈ parts then v else d.parentId }, rest) := by
  subst hparts
  unfold readParentId
  split_ifs <;> simp

/-- The block of `operator>>` for the flag `MimeTypes` reads the section that `operator<<`
writes for it, and nothing when the flag is not set. -/
theorem readMimeTypes_section (d : ModifyCollectionCommandPrivate σ π α τ)
    (parts : List ModifiedPart) (v : List String)
    (rest : List (Datum σ π α τ)) (hparts : d.modifiedParts = parts) :
    readMimeTypes d ((if ModifiedPart.MimeTypes ∈ parts then [Datum.stringList v] else []) ++ rest)
      = some ({ d with
          mimeTypes := if ModifiedPart.MimeTypes ∈ parts then v else d.mimeTypes }, rest) := by
  subst hparts
  unfold readMimeTypes
  split_ifs <;> simp

/-- The block of `operator>>` for the flag `CachePolicy` reads the section that `operator<<`
writes for it, and nothing when the flag is not set. -/
theorem readCachePolicy_section (d : ModifyCollectionCommandPrivate σ π α τ)
    (parts : List ModifiedPart) (v : π)
    (rest : List (Datum σ π α τ)) (hparts : d.modifiedParts = parts) :
    readCachePolicy d ((if ModifiedPart.CachePolicy ∈ parts then [Datum.cachePolicy v] else []) ++ rest)
      = some ({ d with
          cachePolicy := if ModifiedPart.CachePolicy ∈ parts then v else d.cachePolicy }, rest) := by
  subst hparts
  unfold readCachePolicy
  split_ifs <;> simp

/-- The block of `operator>>` for the flag `PersistentSearch` reads the section that `operator<<`
writes for it, and nothing when the flag is not set. -/
theorem readPersistentSearch_section (d : ModifyCollectionCommandPrivate σ π α τ)
    (parts : List ModifiedPart) (v : String) (cols : List Int) (remote recursive : Bool)
    (rest : List (Datum σ π α τ)) (hparts : d.modifiedParts = parts) :
    readPersistentSearch d ((if ModifiedPart.PersistentSearch ∈ parts then [Datum.string v, Datum.qint64Vector cols, Datum.bool remote, Datum.bool recursive] else []) ++ rest)
      = some ({ d with
          persistentSearchQuery := if ModifiedPart.PersistentSearch ∈ parts then v
            else d.persistentSearchQuery
          persistentSearchCols := if ModifiedPart.PersistentSearch ∈ parts then cols
            else d.persistentSearchCols
          persistentSearchRemote := if ModifiedPart.PersistentSearch ∈ parts then remote
            else d.persistentSearchRemote
          persistentSearchRecursive := if ModifiedPart.PersistentSearch ∈ parts then recursive
            else d.persistentSearchRecursive }, rest) := by
  subst hparts
  unfold readPersistentSearch
  split_ifs <;> simp

/-- The block of `operator>>` for the flag `RemovedAttributes` reads the section that `operator<<`
writes for it, and nothing when the flag is not set. -/
theorem readRemovedAttributes_section (d : ModifyCollectionCommandPrivate σ π α τ)
    (parts : List ModifiedPart) (v : Finset String)
    (rest : List (Datum σ π α τ)) (hparts : d.modifiedParts = parts) :
    readRemovedAttributes d ((if ModifiedPart.RemovedAttributes ∈ parts then [Datum.byteArraySet v] else []) ++ rest)
      = some ({ d with
          removedAttributes := if ModifiedPart.RemovedAttributes ∈ parts then v
            else d.removedAttributes }, rest) := by
  subst hparts
  unfold readRemovedAttributes
  split_ifs <;> simp

/-- The block of `operator>>` for the flag `Attributes` reads the section that `operator<<`
writes for it, and nothing when the flag is not set. -/
theorem readAttributes_section (d : ModifyCollectionCommandPrivate σ π α τ)
    (parts : List ModifiedPart) (v : α)
    (rest : List (Datum σ π α τ)) (hparts : d.modifiedParts = parts) :
    readAttributes d ((if ModifiedPart.Attributes ∈ parts then [Datum.attributes v] else []) ++ rest)
      = some ({ d with
          attributes := if ModifiedPart.Attributes ∈ parts then v else d.attributes }, rest) := by
  subst hparts
  unfold readAttributes
  split_ifs <;> simp

/-- The block of `operator>>` for the flag `ListPreferences` reads the section that `operator<<`
writes for it, and nothing when the flag is not set. -/
theorem readListPreferences_section (d : ModifyCollectionCommandPrivate σ π α τ)
    (parts : List ModifiedPart) (v : Bool) (sync display index : τ)
    (rest : List (Datum σ π α τ)) (hparts : d.modifiedParts = parts) :
    readListPreferences d ((if ModifiedPart.ListPreferences ∈ parts then [Datum.bool v, Datum.tristate sync, Datum.tristate display, Datum.tristate index] else []) ++ rest)
      = some ({ d with
          enabled := if ModifiedPart.ListPreferences ∈ parts then v else d.enabled
          sync := if ModifiedPart.ListPreferences ∈ parts then sync else d.sync
          display := if ModifiedPart.ListPreferences ∈ parts then display else d.display
          index := if ModifiedPart.ListPreferences ∈ parts then index else d.index }, rest) := by
  subst hparts
  unfold readListPreferences
  split_ifs <;> simp

/-- The block of `operator>>` for the flag `Referenced` reads the section that `operator<<`
writes for it, and nothing when the flag is not set. -/
theorem readReferenced_section (d : ModifyCollectionCommandPrivate σ π α τ)
    (parts : List ModifiedPart) (v : Bool)
    (rest : List (Datum σ π α τ)) (hparts : d.modifiedParts = parts) :
    readReferenced d ((if ModifiedPart.Referenced ∈ parts then [Datum.bool v] else []) ++ rest)
      = some ({ d with
          referenced := if ModifiedPart.Referenced ∈ parts then v else d.referenced }, rest) := by
  subst hparts
  unfold readReferenced
  split_ifs <;> simp

/-- The round trip in general: `operator>>`, applied to what `operator<<` wrote for the
command `c`, reads the whole stream; it takes the collection and the flags of `c`, and the
members of the sections whose flag is set in `c`; every other member stays what it was in
the command that is read into. -/
theorem deserialize_serialize (c d : ModifyCollectionCommandPrivate σ π α τ) :
    deserialize d (serialize c [])
      = some ({
          collection := c.collection
          mimeTypes := if ModifiedPart.MimeTypes ∈ c.modifiedParts then c.mimeTypes
            else d.mimeTypes
          cachePolicy := if ModifiedPart.CachePolicy ∈ c.modifiedParts then c.cachePolicy
            else d.cachePolicy
          name := if ModifiedPart.Name ∈ c.modifiedParts then c.name else d.name
          remoteId := if ModifiedPart.RemoteID ∈ c.modifiedParts then c.remoteId else d.remoteId
          remoteRev := if ModifiedPart.RemoteRevision ∈ c.modifiedParts then c.remoteRev
            else d.remoteRev
          persistentSearchQuery := if ModifiedPart.PersistentSearch ∈ c.modifiedParts then
            c.persistentSearchQuery else d.persistentSearchQuery
          persistentSearchCols := if ModifiedPart.PersistentSearch ∈ c.modifiedParts then
            c.persistentSearchCols else d.persistentSearchCols
          removedAttributes := if ModifiedPart.RemovedAttributes ∈ c.modifiedParts then
            c.removedAttributes else d.removedAttributes
          attributes := if ModifiedPart.Attributes ∈ c.modifiedParts then c.attributes
            else d.attributes
          parentId := if ModifiedPart.ParentID ∈ c.modifiedParts then c.parentId else d.parentId
          sync := if ModifiedPart.ListPreferences ∈ c.modifiedParts then c.sync else d.sync
          display := if ModifiedPart.ListPreferences ∈ c.modifiedParts then c.display
            else d.display
          index := if ModifiedPart.ListPreferences ∈ c.modifiedParts then c.index else d.index
          enabled := if ModifiedPart.ListPreferences ∈ c.modifiedParts then c.enabled
            else d.enabled
          referenced := if ModifiedPart.Referenced ∈ c.modifiedParts then c.referenced
            else d.referenced
          persistentSearchRemote := if ModifiedPart.PersistentSearch ∈ c.modifiedParts then
            c.persistentSearchRemote else d.persistentSearchRemote
          persistentSearchRecursive := if ModifiedPart.PersistentSearch ∈ c.modifiedParts then
            c.persistentSearchRecursive else d.persistentSearchRecursive
          modifiedParts := c.modifiedParts }, []) := by
  have hlast := fun d0 : ModifyCollectionCommandPrivate σ π α τ =>
    fun h : d0.modifiedParts = c.modifiedParts =>
      readReferenced_section d0 c.modifiedParts c.referenced [] h
  simp only [List.append_nil] at hlast
  rw [serialize_sections]
  unfold deserialize
  simp only [List.nil_append, List.cons_append, readHeader, Option.some_bind]
  rw [readName_section _ c.modifiedParts, Option.some_bind]
  rw [readRemoteId_section _ c.modifiedParts, Option.some_bind]
  rw [readRemoteRevision_section _ c.modifiedParts, Option.some_bind]
  rw [readParentId_section _ c.modifiedParts, Option.some_bind]
  rw [readMimeTypes_section _ c.modifiedParts, Option.some_bind]
  rw [readCachePolicy_section _ c.modifiedParts, Option.some_bind]
  rw [readPersistentSearch_section _ c.modifiedParts, Option.some_bind]
  rw [readRemovedAttributes_section _ c.modifiedParts, Option.some_bind]
  rw [readAttributes_section _ c.modifiedParts, Option.some_bind]
  rw [readListPreferences_section _ c.modifiedParts, Option.some_bind]
  rw [hlast]
  all_goals rfl

/-- No setter sets the flag `ParentID`, and every setter sets the flag of the section of
the member that it assigns. -/
theorem set_unset (dflt : Defaults σ π α τ) (d : ModifyCollectionCommandPrivate σ π α τ)
    (call : Setter π α τ) (h : Unset dflt d) : Unset dflt (set d call) := by
  unfold Unset at h ⊢
  cases call <;>
    simp only [set, List.mem_insert_iff, not_or, reduceCtorEq, not_false_eq_true,
      true_and, false_and, false_implies, implies_true, and_true, not_true_eq_false] <;>
    tauto

theorem foldl_set_unset (dflt : Defaults σ π α τ) :
    ∀ (calls : List (Setter π α τ)) (d : ModifyCollectionCommandPrivate σ π α τ),
      Unset dflt d → Unset dflt (calls.foldl set d) := by
  intro calls
  induction calls with
  | nil => intro d h; exact h
  | cons call rest ih => intro d h; exact ih (set d call) (set_unset dflt d call h)

/-- A command built with its setters has the flag `ParentID` not set, and initial values
in the sections whose flag is not set. -/
theorem build_unset (dflt : Defaults σ π α τ) (collection : σ) (calls : List (Setter π α τ)) :
    Unset dflt (build dflt collection calls) := by
  apply foldl_set_unset
  simp [Unset, ofScope]

/-- For every command built with its setters, reading what `operator<<` wrote into a new
command gives the command back in every member except `parentId`, which is the `-1` of
the new command. -/
theorem deserialize_build (dflt : Defaults σ π α τ) (collection : σ)
    (calls : List (Setter π α τ)) :
    deserialize (new dflt) (serialize (build dflt collection calls) [])
      = some ({ build dflt collection calls with parentId := -1 }, []) := by
  have hinv := build_unset dflt collection calls
  rw [deserialize_serialize]
  generalize build dflt collection calls = c at hinv
  obtain ⟨h0, h1, h2, h3, h4, h5, h6, h7, h8, h9, h10⟩ := hinv
  simp only [Option.some.injEq, Prod.mk.injEq, and_true, ModifyCollectionCommandPrivate.mk.injEq,
    new, ofScope, if_neg h0, true_and]
  refine ⟨?_, ?_, ?_, ?_, ?_, ?_, ?_, ?_, ?_, ?_, ?_, ?_, ?_, ?_, ?_, ?_⟩ <;>
    split_ifs with h <;> first
      | rfl
      | exact (h1 h).symm
      | exact (h2 h).symm
      | exact (h3 h).symm
      | exact (h4 h).symm
      | exact (h5 h).symm
      | exact (h6 h).1.symm
      | exact (h6 h).2.1.symm
      | exact (h6 h).2.2.1.symm
      | exact (h6 h).2.2.2.symm
      | exact (h7 h).symm
      | exact (h8 h).symm
      | exact (h9 h).1.symm
      | exact (h9 h).2.1.symm
      | exact (h9 h).2.2.1.symm
      | exact (h9 h).2.2.2.symm
      | exact (h10 h).symm

/-- C26, as the code has it: `setParentId()` assigns the member and does not set the flag
`ParentID`, so `operator<<` never writes the parent id. For every command built with its
setters and a final `setParentId( parentId )`, the command holds `parentId`, and
deserializing the serialized command into a new command gives a command that is equal in
every other member and whose parent id is `-1`. -/
theorem roundtrip_resets_parentId (dflt : Defaults σ π α τ) (collection : σ)
    (calls : List (Setter π α τ)) (parentId : Int) :
    (build dflt collection (calls ++ [.setParentId parentId])).parentId = parentId ∧
    deserialize (new dflt) (serialize (build dflt collection (calls ++ [.setParentId parentId])) [])
      = some ({ build dflt collection (calls ++ [.setParentId parentId]) with
          parentId := -1 }, []) := by
  refine ⟨?_, deserialize_build dflt collection _⟩
  simp [build, set]

end ModifyCollectionCommand

end Protocol

end Akonadi

/-! ## Splitting a search line -/

namespace Akonadi

namespace Server

namespace SearchHelper

/-- The loop of `splitLine`, started in the middle of a piece, cuts what it has not read
as `cutAtSpaces` does. -/
theorem splitLoop_cut (line : List Char) :
    ∀ (rest done piece : List Char) (escaped : Bool) (retval : List (List Char)),
      line = done ++ piece ++ rest →
      (splitLoop line rest (done.length + piece.length) done.length escaped retval).2.2
          ++ [mid line
            (splitLoop line rest (done.length + piece.length) done.length escaped retval).2.1
            ((splitLoop line rest (done.length + piece.length) done.length escaped retval).1
              - (splitLoop line rest (done.length + piece.length) done.length escaped
                  retval).2.1)]
        = retval ++ (piece ++ (cutAtSpaces escaped rest).1) :: (cutAtSpaces escaped rest).2 := by
  intro rest
  induction rest with
  | nil =>
    intro done piece escaped retval hline
    simp [splitLoop, cutAtSpaces, mid, hline]
  | cons c rest ih =>
    intro done piece escaped retval hline
    have hmid : mid line done.length (done.length + piece.length - done.length) = piece := by
      simp [mid, hline]
    have hstep : line = done ++ (piece ++ [c]) ++ rest := by simp [hline]
    have hih := fun e r => ih done (piece ++ [c]) e r hstep
    simp only [List.length_append, List.length_singleton, ← Nat.add_assoc] at hih
    by_cases hc : c = ' '
    · subst hc
      cases escaped with
      | false =>
        have hnew : line = (done ++ piece ++ [' ']) ++ [] ++ rest := by simp [hline]
        have h := ih (done ++ piece ++ [' ']) [] false (retval ++ [piece]) hnew
        simp only [List.length_append, List.length_singleton, List.length_nil,
          Nat.add_zero] at h
        simp only [splitLoop, hmid, cutAtSpaces]
        simpa using h
      | true =>
        simp only [splitLoop, cutAtSpaces]
        simpa using hih true retval
    · by_cases hq : c = '"'
      · subst hq
        cases escaped with
        | false =>
          simp only [splitLoop, cutAtSpaces]
          simpa using hih true retval
        | true =>
          simp only [splitLoop, cutAtSpaces]
          simpa using hih false retval
      · simp only [splitLoop, cutAtSpaces, hc, hq]
        simpa using hih escaped retval

/-- The pieces of `splitLine` are the pieces cut at the spaces outside quotes. -/
theorem splitLine_cut (line : List Char) :
    splitLine line = (cutAtSpaces false line).1 :: (cutAtSpaces false line).2 := by
  have h := splitLoop_cut line line [] [] false [] (by simp)
  simp only [List.length_nil, Nat.add_zero, List.nil_append] at h
  unfold splitLine
  exact h

/-- Joined with single spaces, the cut pieces are the string. -/
theorem cutAtSpaces_join : ∀ (rest : List Char) (quoted : Bool),
    [' '].intercalate ((cutAtSpaces quoted rest).1 :: (cutAtSpaces quoted rest).2) = rest := by
  intro rest
  induction rest with
  | nil => intro quoted; simp [cutAtSpaces, List.intercalate]
  | cons c rest ih =>
    intro quoted
    by_cases hc : c = ' ' ∧ quoted = false
    · obtain ⟨hc1, hc2⟩ := hc
      subst hc1
      subst hc2
      have h := ih false
      simp only [cutAtSpaces, and_self, if_true]
      rw [List.intercalate, List.intersperse_cons_cons, List.flatten_cons, List.flatten_cons]
      rw [List.intercalate] at h
      rw [h]
      rfl
    · have h := ih (if c = '"' then !quoted else quoted)
      simp only [cutAtSpaces, hc, if_false]
      generalize cutAtSpaces (if c = '"' then !quoted else quoted) rest = r at h ⊢
      obtain ⟨p, ps⟩ := r
      cases ps with
      | nil =>
        simp only [List.intercalate, List.intersperse_singleton, List.flatten_cons,
          List.flatten_nil, List.append_nil] at h ⊢
        rw [h]
      | cons q qs =>
        simp only [List.intercalate, List.intersperse_cons_cons, List.flatten_cons,
          List.cons_append] at h ⊢
        rw [h]

/-- There is one piece more than there are spaces outside quotes. -/
theorem cutAtSpaces_length : ∀ (rest : List Char) (quoted : Bool),
    (cutAtSpaces quoted rest).2.length = spacesOutsideQuotes quoted rest := by
  intro rest
  induction rest with
  | nil => intro quoted; rfl
  | cons c rest ih =>
    intro quoted
    by_cases hq : c = '"'
    · subst hq
      simp [cutAtSpaces, spacesOutsideQuotes, ih]
    · by_cases hc : c = ' ' ∧ quoted = false
      · obtain ⟨hc1, hc2⟩ := hc
        subst hc1
        subst hc2
        have hne : ¬ (' ' = '"') := by decide
        simp only [cutAtSpaces, spacesOutsideQuotes, and_self, if_true, hne, if_false,
          List.length_cons, ih]
        omega
      · simp only [cutAtSpaces, spacesOutsideQuotes, hc, if_false, hq, ih]

/-- No cut piece has a space outside quotes: the first piece read from where the cut
starts, every other piece read from outside quotes. -/
theorem cutAtSpaces_pieces : ∀ (rest : List Char) (quoted : Bool),
    spacesOutsideQuotes quoted (cutAtSpaces quoted rest).1 = 0 ∧
    ∀ piece ∈ (cutAtSpaces quoted rest).2, spacesOutsideQuotes false piece = 0 := by
  intro rest
  induction rest with
  | nil => intro quoted; simp [cutAtSpaces, spacesOutsideQuotes]
  | cons c rest ih =>
    intro quoted
    by_cases hc : c = ' ' ∧ quoted = false
    · obtain ⟨hc1, hc2⟩ := hc
      subst hc1
      subst hc2
      obtain ⟨h1, h2⟩ := ih false
      simp only [cutAtSpaces, and_self, if_true, spacesOutsideQuotes, List.mem_cons,
        true_and]
      intro piece hp
      rcases hp with hp | hp
      · rw [hp]; exact h1
      · exact h2 piece hp
    · obtain ⟨h1, h2⟩ := ih (if c = '"' then !quoted else quoted)
      simp only [cutAtSpaces, hc, if_false]
      refine ⟨?_, h2⟩
      by_cases hq : c = '"'
      · simp only [hq, if_true] at h1
        simp only [spacesOutsideQuotes, hq, if_true]
        exact h1
      · simp only [hq, if_false] at h1
        simp only [spacesOutsideQuotes, hq, if_false, hc]
        exact h1

/-- C27: for every byte string `line`, the pieces of `SearchHelper::splitLine( line )`
joined with single spaces are `line`; there is one piece more than `line` has spaces
outside double-quoted sections; and no piece has a space outside a double-quoted
section. -/
theorem splitLine_loses_nothing (line : List Char) :
    [' '].intercalate (splitLine line) = line ∧
    (splitLine line).length = 1 + spacesOutsideQuotes false line ∧
    (splitLine line).all (fun piece => decide (spacesOutsideQuotes false piece = 0)) = true := by
  rw [splitLine_cut]
  refine ⟨cutAtSpaces_join line false, ?_, ?_⟩
  · rw [List.length_cons, cutAtSpaces_length]
    omega
  · rw [List.all_eq_true]
    intro piece hp
    obtain ⟨h1, h2⟩ := cutAtSpaces_pieces line false
    rcases List.mem_cons.mp hp with h | h
    · rw [h]; simpa using h1
    · simpa using h2 piece h

end SearchHelper

end Server

end Akonadi

/-! ## Placeholders and bound values of a condition -/

namespace Akonadi

namespace Server

namespace Qb

variable {ν : Type}

/-- The tokens of a text are its characters. -/
theorem Token.chars_toChar (text : String) :
    (Token.chars text : List (Token ν)).map Token.toChar = text.toList := by
  unfold Token.chars
  rw [List.map_map]
  have h : ((Token.toChar : Token ν → Char) ∘ Token.char : Char → Char) = id := by
    funext c
    rfl
  rw [h, List.map_id]

/-- The tokens of a text carry no value. -/
theorem Token.chars_value (text : String) :
    (Token.chars text : List (Token ν)).filterMap Token.value? = [] := by
  unfold Token.chars
  rw [List.filterMap_eq_nil_iff]
  intro t ht
  obtain ⟨c, _, hc⟩ := List.mem_map.mp ht
  rw [← hc]
  rfl

/-- The tokens of a text without `?` are no untagged `?`. -/
theorem Token.chars_tagged (text : String)
    (h : text.toList.all (fun c => c != '?') = true) :
    (Token.chars text : List (Token ν)).all Token.isTagged = true := by
  unfold Token.chars
  rw [List.all_eq_true] at h ⊢
  intro t ht
  obtain ⟨c, hc, hct⟩ := List.mem_map.mp ht
  rw [← hct]
  exact h c hc

/-- Where every `?` is tagged, the `?` of the text are as many as the tags. -/
theorem Token.count_placeholders : ∀ (tokens : List (Token ν)),
    tokens.all Token.isTagged = true →
    (tokens.map Token.toChar).count '?' = (tokens.filterMap Token.value?).length := by
  intro tokens
  induction tokens with
  | nil => intro _; rfl
  | cons t rest ih =>
    intro h
    simp only [List.all_cons, Bool.and_eq_true] at h
    have hrest := ih h.2
    cases t with
    | char c =>
      have hc : c ≠ '?' := by simpa [Token.isTagged] using h.1
      simp only [List.map_cons, Token.toChar, List.filterMap_cons, Token.value?]
      rw [List.count_cons_of_ne hc.symm, hrest]
    | placeholder value =>
      simp only [List.map_cons, Token.toChar, List.filterMap_cons, Token.value?,
        List.count_cons_self, List.length_cons, hrest]

namespace ConditionStmt

mutual

/-- The tagged serialization writes the text of `serialize`. -/
theorem serializeTokens_text : ∀ (cond : ConditionStmt ν) (stream : String)
    (tokens : List (Token ν)), tokens.map Token.toChar = stream.toList →
    (serializeTokens cond tokens).map Token.toChar = (serialize cond stream).toList
  | .monostate, stream, tokens, h => by
    simpa [serializeTokens, serialize] using h
  | .valueCondition column comp value, stream, tokens, h => by
    simp [serializeTokens, serialize, Token.chars_toChar, h, Token.toChar]
  | .columnCondition lhCol rhCol, stream, tokens, h => by
    simp [serializeTokens, serialize, Token.chars_toChar, h]
  | .subConditions logic subconditions, stream, tokens, h => by
    have hloop := serializeTokensLoop_text logic true subconditions (stream ++ "(")
      (tokens ++ Token.chars "(") (by simp [Token.chars_toChar, h])
    simp [serializeTokens, serialize, Token.chars_toChar, hloop]

theorem serializeTokensLoop_text (logic : Logic) : ∀ (first : Bool)
    (subconditions : List (ConditionStmt ν)) (stream : String) (tokens : List (Token ν)),
    tokens.map Token.toChar = stream.toList →
    (serializeTokensLoop logic first subconditions tokens).map Token.toChar
      = (serializeLoop logic first subconditions stream).toList
  | _, [], stream, tokens, h => by
    simpa [serializeTokensLoop, serializeLoop] using h
  | first, subcond :: rest, stream, tokens, h => by
    simp only [serializeTokensLoop, serializeLoop]
    apply serializeTokensLoop_text logic false rest
    apply serializeTokens_text subcond
    cases first <;> simp [Token.chars_toChar, h]

end

mutual

/-- The tags of the tagged serialization are the bound values, in their order. -/
theorem serializeTokens_values : ∀ (cond : ConditionStmt ν) (tokens : List (Token ν)),
    (serializeTokens cond tokens).filterMap Token.value?
      = tokens.filterMap Token.value? ++ bindValues cond
  | .monostate, tokens => by
    simp [serializeTokens, bindValues]
  | .valueCondition column comp value, tokens => by
    simp [serializeTokens, bindValues, Token.chars_value, Token.value?]
  | .columnCondition lhCol rhCol, tokens => by
    simp [serializeTokens, bindValues, Token.chars_value]
  | .subConditions logic subconditions, tokens => by
    have hloop := serializeTokensLoop_values logic true subconditions
      (tokens ++ Token.chars "(")
    simp [serializeTokens, bindValues, Token.chars_value, hloop]

theorem serializeTokensLoop_values (logic : Logic) : ∀ (first : Bool)
    (subconditions : List (ConditionStmt ν)) (tokens : List (Token ν)),
    (serializeTokensLoop logic first subconditions tokens).filterMap Token.value?
      = tokens.filterMap Token.value? ++ bindValuesLoop subconditions
  | _, [], tokens => by
    simp [serializeTokensLoop, bindValuesLoop]
  | first, subcond :: rest, tokens => by
    simp only [serializeTokensLoop, bindValuesLoop]
    rw [serializeTokensLoop_values logic false rest, serializeTokens_values subcond]
    cases first <;> simp [Token.chars_value]

end

/-- The text of a comparison has no `?`. -/
theorem compare_tagged (comp : Compare) :
    (Token.chars comp.text : List (Token ν)).all Token.isTagged = true := by
  apply Token.chars_tagged
  cases comp <;> decide

/-- The text of a connective has no `?`. -/
theorem logic_tagged (logic : Logic) :
    (Token.chars logic.text : List (Token ν)).all Token.isTagged = true := by
  apply Token.chars_tagged
  cases logic <;> decide

mutual

/-- With column names without `?`, every `?` of the serialization is tagged. -/
theorem serializeTokens_tagged : ∀ (cond : ConditionStmt ν) (tokens : List (Token ν)),
    columnsClean cond = true → tokens.all Token.isTagged = true →
    (serializeTokens cond tokens).all Token.isTagged = true
  | .monostate, tokens, _, h => by
    simpa [serializeTokens] using h
  | .valueCondition column comp value, tokens, hc, h => by
    simp only [columnsClean] at hc
    simp only [serializeTokens, List.all_append, Bool.and_eq_true, h, compare_tagged,
      Token.chars_tagged column hc, Token.chars_tagged "(" (by decide),
      Token.chars_tagged ")" (by decide), true_and, and_true]
    rfl
  | .columnCondition lhCol rhCol, tokens, hc, h => by
    simp only [columnsClean, Bool.and_eq_true] at hc
    simp only [serializeTokens, List.all_append, Bool.and_eq_true, h,
      Token.chars_tagged lhCol hc.1, Token.chars_tagged rhCol hc.2,
      Token.chars_tagged "(" (by decide), Token.chars_tagged ")" (by decide),
      Token.chars_tagged " = " (by decide), and_self]
  | .subConditions logic subconditions, tokens, hc, h => by
    simp only [columnsClean] at hc
    have hloop := serializeTokensLoop_tagged logic true subconditions
      (tokens ++ Token.chars "(") hc
      (by simp only [List.all_append, Bool.and_eq_true, h,
            Token.chars_tagged "(" (by decide), and_self])
    simp only [serializeTokens, List.all_append, Bool.and_eq_true, hloop,
      Token.chars_tagged ")" (by decide), and_self]

theorem serializeTokensLoop_tagged (logic : Logic) : ∀ (first : Bool)
    (subconditions : List (ConditionStmt ν)) (tokens : List (Token ν)),
    columnsCleanLoop subconditions = true → tokens.all Token.isTagged = true →
    (serializeTokensLoop logic first subconditions tokens).all Token.isTagged = true
  | _, [], tokens, _, h => by
    simpa [serializeTokensLoop] using h
  | first, subcond :: rest, tokens, hc, h => by
    simp only [columnsCleanLoop, Bool.and_eq_true] at hc
    simp only [serializeTokensLoop]
    apply serializeTokensLoop_tagged logic false rest _ hc.2
    apply serializeTokens_tagged subcond _ hc.1
    cases first
    · simp only [Bool.false_eq_true, if_false, List.all_append, Bool.and_eq_true, h,
        logic_tagged, and_self]
    · simpa using h

end

/-- C28: for every condition, with sub-conditions nested to any depth, whose column names
contain no `?`: the text written by `serialize()` has as many `?` as `bindValues()`
returns values; and when every `?` that a `ValueCondition` writes is tagged with the value
of that condition, the tagged text is the text of `serialize()`, it has no `?` without a
tag, and its tags, read from left to right, are the list that `bindValues()` returns. -/
theorem placeholders_match_bindValues (cond : ConditionStmt ν)
    (hcolumns : columnsClean cond = true) :
    (serialize cond "").toList.count '?' = (bindValues cond).length ∧
    (serializeTokens cond []).map Token.toChar = (serialize cond "").toList ∧
    (serializeTokens cond []).all Token.isTagged = true ∧
    (serializeTokens cond []).filterMap Token.value? = bindValues cond := by
  have htext := serializeTokens_text cond "" [] rfl
  have htagged := serializeTokens_tagged cond [] hcolumns rfl
  have hvalues := serializeTokens_values cond []
  simp only [List.filterMap_nil, List.nil_append] at hvalues
  refine ⟨?_, htext, htagged, hvalues⟩
  rw [← htext, Token.count_placeholders _ htagged, hvalues]

theorem placeholders_match_bindValues_witness :
    (serialize Example.condition "").toList.count '?'
      = (bindValues Example.condition).length ∧
    (serializeTokens Example.condition []).map Token.toChar
      = (serialize Example.condition "").toList ∧
    (serializeTokens Example.condition []).all Token.isTagged = true ∧
    (serializeTokens Example.condition []).filterMap Token.value?
      = bindValues Example.condition :=
  placeholders_match_bindValues Example.condition (by decide)

end ConditionStmt

end Qb

end Server

end Akonadi

/-! ## The ring buffer: accesses within bounds, and what `purge` removes -/

namespace Akonadi

namespace PurgeBuffer

/-- C29: for a positive `MAXBUFFERSIZE`, every sequence of `buffer()` and `purge()` calls
from the empty buffer runs to its end, which means that every loop ends and that every
access `m_buffer[ m_index ]`, `remove( idx )`, `remove( m_index )` and
`insert( m_index, id )` is within the bounds of the vector; the state `s` that is reached
has `0 <= m_index <= m_buffer.size()`; and in `s` both `purge( id )` and `buffer( id )` run
to their end in the same way and leave `0 <= m_index <= m_buffer.size()`. -/
theorem ring_buffer_accesses_in_bounds (M : Int) (hM : 0 < M) (calls : List Call) (id : Int) :
    ∃ s, run M calls empty = some s ∧ 0 ≤ s.m_index ∧ s.m_index ≤ s.m_buffer.length ∧
      (∃ s1, purge s id = some s1 ∧ 0 ≤ s1.m_index ∧ s1.m_index ≤ s1.m_buffer.length) ∧
      (∃ b s1, buffer M s id = some (b, s1) ∧ 0 ≤ s1.m_index
        ∧ s1.m_index ≤ s1.m_buffer.length) := by
  obtain ⟨s, hs, h0, hle, hmax⟩ := run_total M hM calls empty
    ⟨le_refl _, by simp [empty], by simp [empty]; omega⟩
  obtain ⟨s1, hs1, a1, b1, _⟩ := purge_total s id h0 hle
  obtain ⟨b, s2, hs2, a2, b2, _⟩ := buffer_total M hM s id ⟨h0, hle, hmax⟩
  exact ⟨s, hs, h0, hle, ⟨s1, hs1, a1, b1⟩, ⟨b, s2, hs2, a2, b2⟩⟩

theorem ring_buffer_accesses_in_bounds_witness :
    ∃ s, run 10 [Call.buffer 1, Call.buffer 2, Call.purge 1, Call.buffer 2] empty = some s ∧
      0 ≤ s.m_index ∧ s.m_index ≤ s.m_buffer.length ∧
      (∃ s1, purge s 2 = some s1 ∧ 0 ≤ s1.m_index ∧ s1.m_index ≤ s1.m_buffer.length) ∧
      (∃ b s1, buffer 10 s 2 = some (b, s1) ∧ 0 ≤ s1.m_index
        ∧ s1.m_index ≤ s1.m_buffer.length) :=
  ring_buffer_accesses_in_bounds 10 (by decide) _ 2

/-- C30, as the code has it: with `MAXBUFFERSIZE = 10`, after `buffer( 1 )`, ...,
`buffer( 12 )` from the empty buffer the vector is `[11, 12, 3, ..., 10]` with
`m_index = 2`. The call `purge( 5 )` then removes `12`, `3` and `4`, which were buffered,
and leaves `5` in the vector: of the ids other than `5`, only `11, 6, 7, 8, 9, 10` of
`11, 12, 3, 4, 6, 7, 8, 9, 10` are still buffered. -/
theorem purge_removes_other_ids :
    run 10 [.buffer 1, .buffer 2, .buffer 3, .buffer 4, .buffer 5, .buffer 6, .buffer 7,
        .buffer 8, .buffer 9, .buffer 10, .buffer 11, .buffer 12] empty
      = some ⟨[11, 12, 3, 4, 5, 6, 7, 8, 9, 10], 2⟩ ∧
    purge ⟨[11, 12, 3, 4, 5, 6, 7, 8, 9, 10], 2⟩ 5 = some ⟨[11, 5, 6, 7, 8, 9, 10], 2⟩ ∧
    ([11, 12, 3, 4, 5, 6, 7, 8, 9, 10] : List Int).filter (fun i => i != 5)
      = [11, 12, 3, 4, 6, 7, 8, 9, 10] ∧
    ([11, 5, 6, 7, 8, 9, 10] : List Int).filter (fun i => i != 5) = [11, 6, 7, 8, 9, 10] ∧
    isBuffered ⟨[11, 5, 6, 7, 8, 9, 10], 2⟩ 12 = false ∧
    isBuffered ⟨[11, 5, 6, 7, 8, 9, 10], 2⟩ 5 = true := by
  refine ⟨by decide, by decide, by decide, by decide, by decide, by decide⟩

end PurgeBuffer

end Akonadi
